import Mathlib

/-!
# PathTracing: a shallow embedding of the light-transport core

The C++ sources under `src/PathTracer` are embedded as Lean definitions.

Conventions of the embedding:

* `double` values are exact elements of a linearly ordered field `K`; the only
  non-finite values the embedded code manipulates are the interval bounds
  `+infinity` and `-infinity`, which live in `Ext K`.
* Where the rounding of `double` arithmetic decides a result (the padding of a bounding
  box, the slab test), the definitions take the rounding `rnd : K → K` of an exact result
  as a parameter: the identity is exact arithmetic, `binary64` over the rationals is the
  arithmetic of the machine.
* Where C++ leaves the order of evaluation of two operands unspecified and the operands
  draw from the random generator (`Quad::random`), the order is a parameter of the
  environment.
* The global random generator is an explicit state `G` threaded through every
  function that draws from it.
* Virtual dispatch over `Material` and `PDF` is a closed sum of the subclasses
  found in the sources; `Hittable` is a record of its virtual methods.
* An out-parameter (`HitRecord& rec`, `ScatterRecord& srec`) becomes an
  optional result: `some` is the record written when the C++ returns `true`.
-/

namespace PathTracer

/-! ## Vectors, rays, intervals -/

/-- Modelled from the spec: the vector type of `Vec3.h` (not among the sources), three
`double` components read as `x()`, `y()`, `z()` or by index. `point3` and `color` are
aliases of it. -/
structure Vec3 (K : Type) where
  x : K
  y : K
  z : K

namespace Vec3

variable {K : Type}

/-- Modelled from the spec: component-wise sum of `Vec3.h`, `u + v`. -/
def add [Add K] (u v : Vec3 K) : Vec3 K := ⟨u.x + v.x, u.y + v.y, u.z + v.z⟩

/-- Modelled from the spec: component-wise difference of `Vec3.h`, `u - v`. -/
def sub [Sub K] (u v : Vec3 K) : Vec3 K := ⟨u.x - v.x, u.y - v.y, u.z - v.z⟩

/-- Modelled from the spec: negation of `Vec3.h`, `-v`. -/
def neg [Neg K] (v : Vec3 K) : Vec3 K := ⟨-v.x, -v.y, -v.z⟩

/-- Modelled from the spec: scaling of `Vec3.h`, `t * v`. -/
def smul [Mul K] (t : K) (v : Vec3 K) : Vec3 K := ⟨t * v.x, t * v.y, t * v.z⟩

/-- Modelled from the spec: component-wise product of `Vec3.h`, `u * v` (used on colours). -/
def mul [Mul K] (u v : Vec3 K) : Vec3 K := ⟨u.x * v.x, u.y * v.y, u.z * v.z⟩

/-- Modelled from the spec: division by a scalar of `Vec3.h`, `v / t`. -/
def div [Div K] (v : Vec3 K) (t : K) : Vec3 K := ⟨v.x / t, v.y / t, v.z / t⟩

/-- Modelled from the spec: `dot(u, v)` of `Vec3.h`. -/
def dot [Add K] [Mul K] (u v : Vec3 K) : K := u.x * v.x + u.y * v.y + u.z * v.z

/-- Modelled from the spec: `v.length_squared()` of `Vec3.h`. -/
def length_squared [Add K] [Mul K] (v : Vec3 K) : K := v.x * v.x + v.y * v.y + v.z * v.z

/-- Modelled from the spec: `cross(u, v)` of `Vec3.h`. -/
def cross [Mul K] [Sub K] (u v : Vec3 K) : Vec3 K :=
  ⟨u.y * v.z - u.z * v.y, u.z * v.x - u.x * v.z, u.x * v.y - u.y * v.x⟩

/-- Modelled from the spec: `color(0,0,0)`, the zero vector. -/
def zero [Zero K] : Vec3 K := ⟨0, 0, 0⟩

/-- Component-wise non-negativity of a colour. -/
def nonneg [Zero K] [LE K] (c : Vec3 K) : Prop := 0 ≤ c.x ∧ 0 ≤ c.y ∧ 0 ≤ c.z

end Vec3

/-- The class `Ray` of `Ray.h`: origin, direction and time. -/
structure Ray (K : Type) where
  orig : Vec3 K
  dir : Vec3 K
  tm : K

/-- `Ray::at`: `orig + t * dir`. -/
def Ray.at {K : Type} [Add K] [Mul K] (r : Ray K) (t : K) : Vec3 K :=
  Vec3.add r.orig (Vec3.smul t r.dir)

/-- A `double` that may be `-infinity` or `+infinity` (no NaN is ever stored in a bound). -/
inductive Ext (K : Type) where
  | ninf : Ext K
  | fin : K → Ext K
  | pinf : Ext K
  deriving DecidableEq

namespace Ext

variable {K : Type}

/-- Strict order of extended values, `a < b` on doubles. -/
def lt [LT K] : Ext K → Ext K → Prop
  | ninf, ninf => False
  | ninf, _ => True
  | fin _, ninf => False
  | fin a, fin b => a < b
  | fin _, pinf => True
  | pinf, _ => False

/-- Weak order of extended values, `a <= b` on doubles. -/
def le [LE K] : Ext K → Ext K → Prop
  | ninf, _ => True
  | fin _, ninf => False
  | fin a, fin b => a ≤ b
  | fin _, pinf => True
  | pinf, pinf => True
  | pinf, _ => False

instance [LT K] : LT (Ext K) := ⟨Ext.lt⟩

instance [LE K] : LE (Ext K) := ⟨Ext.le⟩

instance decLt [LT K] [DecidableRel (fun a b : K => a < b)] :
    DecidableRel (fun a b : Ext K => a < b) := fun a b =>
  match a, b with
  | ninf, ninf => isFalse (fun h => h)
  | ninf, fin _ => isTrue trivial
  | ninf, pinf => isTrue trivial
  | fin _, ninf => isFalse (fun h => h)
  | fin x, fin y => (inferInstance : Decidable (x < y))
  | fin _, pinf => isTrue trivial
  | pinf, ninf => isFalse (fun h => h)
  | pinf, fin _ => isFalse (fun h => h)
  | pinf, pinf => isFalse (fun h => h)

instance decLe [LE K] [DecidableRel (fun a b : K => a ≤ b)] :
    DecidableRel (fun a b : Ext K => a ≤ b) := fun a b =>
  match a, b with
  | ninf, ninf => isTrue trivial
  | ninf, fin _ => isTrue trivial
  | ninf, pinf => isTrue trivial
  | fin _, ninf => isFalse (fun h => h)
  | fin x, fin y => (inferInstance : Decidable (x ≤ y))
  | fin _, pinf => isTrue trivial
  | pinf, ninf => isFalse (fun h => h)
  | pinf, fin _ => isFalse (fun h => h)
  | pinf, pinf => isTrue trivial

end Ext

/-- The class `Interval` of `Interval.h`; the bound type is `Ext K` for ray ranges. -/
structure Interval (α : Type) where
  min : α
  max : α
  deriving DecidableEq

namespace Interval

variable {α : Type}

/-- `Interval::contains`: `min <= x && x <= max`. -/
def contains [LE α] [DecidableRel (fun a b : α => a ≤ b)] (i : Interval α) (x : α) : Bool :=
  decide (i.min ≤ x) && decide (x ≤ i.max)

/-- `Interval::surrounds`: `min < x && x < max`. -/
def surrounds [LT α] [DecidableRel (fun a b : α => a < b)] (i : Interval α) (x : α) : Bool :=
  decide (i.min < x) && decide (x < i.max)

end Interval

/-! ## Arithmetic on bounds, and bounding boxes (`Interval.h`, `AABB.h`) -/

section Bounds

variable {K : Type} [LinearOrderedField K]

/-- The sum `a + d` of a bound and a finite `double`. -/
def Ext.addFin : Ext K → K → Ext K
  | Ext.ninf, _ => Ext.ninf
  | Ext.fin a, d => Ext.fin (a + d)
  | Ext.pinf, _ => Ext.pinf

/-- The difference `a - b` of two bounds; `none` is the NaN of `inf - inf`. -/
def Ext.sub : Ext K → Ext K → Option (Ext K)
  | Ext.fin a, Ext.fin b => some (Ext.fin (a - b))
  | Ext.fin _, Ext.ninf => some Ext.pinf
  | Ext.fin _, Ext.pinf => some Ext.ninf
  | Ext.pinf, Ext.pinf => none
  | Ext.pinf, _ => some Ext.pinf
  | Ext.ninf, Ext.ninf => none
  | Ext.ninf, _ => some Ext.ninf

/-- The default constructor `Interval()` and the constant `Interval::empty`:
`(+infinity, -infinity)`. -/
def Interval.empty : Interval (Ext K) := { min := Ext.pinf, max := Ext.ninf }

/-- The constant `Interval::universe`: `(-infinity, +infinity)`. -/
def Interval.universe : Interval (Ext K) := { min := Ext.ninf, max := Ext.pinf }

/-- The constructor `Interval(a, b)` of the interval tightly enclosing two intervals. -/
def Interval.ofIntervals (a b : Interval (Ext K)) : Interval (Ext K) :=
  { min := if a.min ≤ b.min then a.min else b.min
    max := if a.max ≥ b.max then a.max else b.max }

/-- `Interval::size`: `max - min`, in exact arithmetic; `none` is NaN. -/
def Interval.size (i : Interval (Ext K)) : Option (Ext K) := Ext.sub i.max i.min

/-- The test `size() < delta` of `pad_to_minimums`; a comparison with NaN is false. -/
def Interval.size_lt (i : Interval (Ext K)) (delta : K) : Bool :=
  match i.size with
  | some s => decide (s < Ext.fin delta)
  | none => false

/-- `Interval::expand(delta)`, in exact arithmetic (`Interval.expand_rounded` with the
identity as rounding). -/
def Interval.expand (i : Interval (Ext K)) (delta : K) : Interval (Ext K) :=
  let padding := delta / 2
  { min := i.min.addFin (-padding), max := i.max.addFin padding }

/-- The operator `ival + displacement` of `Interval.h`. -/
def Interval.shift (ival : Interval (Ext K)) (displacement : K) : Interval (Ext K) :=
  { min := ival.min.addFin displacement, max := ival.max.addFin displacement }

/-- The class `AABB` of `AABB.h`: one interval per axis. -/
structure AABB (K : Type) where
  x : Interval (Ext K)
  y : Interval (Ext K)
  z : Interval (Ext K)
  deriving DecidableEq

/-- The default constructor `AABB()`: three empty intervals, not padded. -/
def AABB.init : AABB K := { x := Interval.empty, y := Interval.empty, z := Interval.empty }

/-- `AABB::pad_to_minimums`, in exact arithmetic (`AABB.pad_to_minimums_rounded` with the
identity as rounding). -/
def AABB.pad_to_minimums (b : AABB K) : AABB K :=
  let delta : K := 0.0001
  { x := if b.x.size_lt delta then b.x.expand delta else b.x
    y := if b.y.size_lt delta then b.y.expand delta else b.y
    z := if b.z.size_lt delta then b.z.expand delta else b.z }

/-- The constructor `AABB(x, y, z)` from three intervals. -/
def AABB.ofIntervals (x y z : Interval (Ext K)) : AABB K :=
  AABB.pad_to_minimums { x := x, y := y, z := z }

/-- The constructor `AABB(a, b)` from two extreme points. -/
def AABB.ofPoints (a b : Vec3 K) : AABB K :=
  AABB.pad_to_minimums
    { x := if a.x ≤ b.x then { min := Ext.fin a.x, max := Ext.fin b.x }
           else { min := Ext.fin b.x, max := Ext.fin a.x }
      y := if a.y ≤ b.y then { min := Ext.fin a.y, max := Ext.fin b.y }
           else { min := Ext.fin b.y, max := Ext.fin a.y }
      z := if a.z ≤ b.z then { min := Ext.fin a.z, max := Ext.fin b.z }
           else { min := Ext.fin b.z, max := Ext.fin a.z } }

/-- The constructor `AABB(box0, box1)` of the box enclosing two boxes (not padded). -/
def AABB.ofBoxes (box0 box1 : AABB K) : AABB K :=
  { x := Interval.ofIntervals box0.x box1.x
    y := Interval.ofIntervals box0.y box1.y
    z := Interval.ofIntervals box0.z box1.z }

/-- `AABB::axis_interval(n)`. -/
def AABB.axis_interval (b : AABB K) (n : Int) : Interval (Ext K) :=
  if n = 1 then b.y else if n = 2 then b.z else b.x

/-- The operator `bbox + offset` of `AABB.h`. -/
def AABB.shift (bbox : AABB K) (offset : Vec3 K) : AABB K :=
  AABB.ofIntervals (bbox.x.shift offset.x) (bbox.y.shift offset.y) (bbox.z.shift offset.z)

/-! ### The padding of a box in rounded arithmetic

The definitions above compute in the field `K` without rounding. In the definitions below
every arithmetic result passes through `rnd`, the rounding of an exact result to a `double`:
the identity gives the exact arithmetic again, `binary64` the arithmetic of the machine. -/

/-- A bound after the rounding `rnd` of a computed `double`; an infinity stays as it is. -/
def Ext.round (rnd : K → K) : Ext K → Ext K
  | Ext.ninf => Ext.ninf
  | Ext.fin x => Ext.fin (rnd x)
  | Ext.pinf => Ext.pinf

end Bounds

/-! ## Library functions of the missing headers -/

/-- Functions of `utils.h`, `Vec3.h`, `ONB.h` and `<cmath>` that the embedded code calls and
whose sources are not available: they are parameters of the embedding. The random functions
read and advance the generator state `G`. -/
structure Env (K G : Type) where
  /-- `std::sqrt`. -/
  sqrt : K → K
  /-- The constant `pi` of `utils.h`. -/
  pi : K
  /-- `std::acos`. -/
  acos : K → K
  /-- `std::atan2`. -/
  atan2 : K → K → K
  /-- `std::cos`. -/
  cos : K → K
  /-- `std::sin`. -/
  sin : K → K
  /-- `std::log`. -/
  log : K → K
  /-- `random_double()` of `utils.h`. -/
  random_double : G → K × G
  /-- `random_unit_vector()` of `Vec3.h`. -/
  random_unit_vector : G → Vec3 K × G
  /-- `random_int(min, max)` of `utils.h`. -/
  random_int : Int → Int → G → Int × G
  /-- `random_cosine_direction()` of `Vec3.h`. -/
  random_cosine_direction : G → Vec3 K × G
  /-- `reflect(v, n)` of `Vec3.h`. -/
  reflect : Vec3 K → Vec3 K → Vec3 K
  /-- `refract(uv, n, etai_over_etat)` of `Vec3.h`. -/
  refract : Vec3 K → Vec3 K → K → Vec3 K
  /-- `ONB(n).w()` of `ONB.h`: the third axis of the basis built from `n`. -/
  onb_w : Vec3 K → Vec3 K
  /-- `ONB(n).transform(v)` of `ONB.h`. -/
  onb_transform : Vec3 K → Vec3 K → Vec3 K
  /-- The order in which the compiler evaluates the two operands of a `+`, which C++ leaves
  unspecified: `true` when the right operand is evaluated before the left one. It decides
  which of the two calls of `random_double()` in `Quad::random` is made first. -/
  right_operand_first : Bool

/-- Modelled from the spec: `v.length()` of `Vec3.h`, the square root of `length_squared()`. -/
def Vec3.length {K G : Type} [Add K] [Mul K] (env : Env K G) (v : Vec3 K) : K :=
  env.sqrt (Vec3.length_squared v)

/-- Modelled from the spec: `unit_vector(v)` of `Vec3.h`, `v / v.length()`. -/
def unit_vector {K G : Type} [Add K] [Mul K] [Div K] (env : Env K G) (v : Vec3 K) : Vec3 K :=
  Vec3.div v (Vec3.length env v)

/-! ## Materials and hit records -/

/-- The interface `Texture::value(u, v, p)` of `Texture.h`, taken as a function. -/
abbrev Texture (K : Type) := K → K → Vec3 K → Vec3 K

/-- `SolidColor`: the texture that returns its albedo everywhere. -/
def SolidColor {K : Type} (albedo : Vec3 K) : Texture K := fun _ _ _ => albedo

/-- The class `Material` of `Material.h` and its five subclasses. `base` is the class
`Material` itself, whose virtual methods are the defaults. -/
inductive Material (K : Type) where
  | base : Material K
  | Lambertian (tex : Texture K) : Material K
  | Metal (albedo : Vec3 K) (fuzz : K) : Material K
  | Dielectric (refraction_index : K) : Material K
  | DiffuseLight (tex : Texture K) : Material K
  | Isotropic (tex : Texture K) : Material K

/-- The constructor `Metal(albedo, fuzz)`: the fuzz factor is clamped to at most 1. -/
def Material.mkMetal {K : Type} [LT K] [One K] [DecidableRel (fun a b : K => a < b)]
    (albedo : Vec3 K) (fuzz : K) : Material K :=
  Material.Metal albedo (if fuzz < 1 then fuzz else 1)

/-- The class `HitRecord` of `Hittable.h`. `mat` is a shared pointer and may be null. -/
structure HitRecord (K : Type) where
  p : Vec3 K
  normal : Vec3 K
  mat : Option (Material K)
  t : K
  u : K
  v : K
  front_face : Bool

/-- A default-constructed `HitRecord rec;`: zero vectors and a null material. The scalar
members are indeterminate in C++; they are zero here and are never read before being set. -/
def HitRecord.init {K : Type} [Zero K] : HitRecord K :=
  { p := Vec3.zero, normal := Vec3.zero, mat := none, t := 0, u := 0, v := 0,
    front_face := false }

/-- `HitRecord::set_face_normal`. -/
def HitRecord.set_face_normal {K : Type} [Add K] [Mul K] [Neg K] [Zero K] [LT K]
    [DecidableRel (fun a b : K => a < b)]
    (rec : HitRecord K) (r : Ray K) (outward_normal : Vec3 K) : HitRecord K :=
  let front_face := decide (Vec3.dot r.dir outward_normal < 0)
  { rec with
    front_face := front_face
    normal := if front_face then outward_normal else Vec3.neg outward_normal }

/-- The abstract class `Hittable` of `Hittable.h` as the record of its virtual methods.
`hit` receives the current contents of the out-parameter `rec` and returns `some` of the
record it writes when the C++ returns `true` (`rec` is left as it was otherwise). -/
structure Hittable (K G : Type) where
  hit : Ray K → Interval (Ext K) → HitRecord K → G → Option (HitRecord K) × G
  bounding_box : AABB K
  pdf_value : Vec3 K → Vec3 K → K
  random : Vec3 K → G → Vec3 K × G

/-! ## Probability density functions (`PDF.h`) -/

/-- The class `PDF` of `PDF.h` with its four subclasses. -/
inductive PDF (K G : Type) where
  | SpherePDF : PDF K G
  | CosinePDF (w : Vec3 K) : PDF K G
  | HittablePDF (objects : Hittable K G) (origin : Vec3 K) : PDF K G
  | MixturePDF (p0 p1 : PDF K G) : PDF K G

section Field

variable {K G : Type} [LinearOrderedField K]

/-- The virtual method `PDF::value(direction)`. -/
def PDF.value (env : Env K G) : PDF K G → Vec3 K → K
  | PDF.SpherePDF, _ => 1 / (4 * env.pi)
  | PDF.CosinePDF w, direction =>
      let cosine_theta := Vec3.dot (unit_vector env direction) (env.onb_w w)
      max 0 (cosine_theta / env.pi)
  | PDF.HittablePDF objects origin, direction => objects.pdf_value origin direction
  | PDF.MixturePDF p0 p1, direction =>
      0.5 * PDF.value env p0 direction + 0.5 * PDF.value env p1 direction

/-- The virtual method `PDF::generate()`. -/
def PDF.generate (env : Env K G) : PDF K G → G → Vec3 K × G
  | PDF.SpherePDF, g => env.random_unit_vector g
  | PDF.CosinePDF w, g =>
      let d := env.random_cosine_direction g
      (env.onb_transform w d.1, d.2)
  | PDF.HittablePDF objects origin, g => objects.random origin g
  | PDF.MixturePDF p0 p1, g =>
      let x := env.random_double g
      if x.1 < 0.5 then PDF.generate env p0 x.2 else PDF.generate env p1 x.2

/-! ## Scattering (`Material.h`) -/

/-- The struct `ScatterRecord` of `Material.h`; `pdf_ptr` may be null. -/
structure ScatterRecord (K G : Type) where
  attenuation : Vec3 K
  pdf_ptr : Option (PDF K G)
  skip_pdf : Bool
  skip_pdf_ray : Ray K

/-- A default-constructed `ScatterRecord srec;` (the members a material does not set keep
these values and are not read). -/
def ScatterRecord.init : ScatterRecord K G :=
  { attenuation := Vec3.zero, pdf_ptr := none, skip_pdf := false,
    skip_pdf_ray := { orig := Vec3.zero, dir := Vec3.zero, tm := 0 } }

/-- The virtual method `Material::emitted(r_in, rec, u, v, p)`: black by default, the texture
value on the front face for `DiffuseLight`. -/
def Material.emitted (mat : Material K) (_r_in : Ray K) (rec : HitRecord K) (u v : K)
    (p : Vec3 K) : Vec3 K :=
  match mat with
  | Material.DiffuseLight tex => if !rec.front_face then Vec3.zero else tex u v p
  | _ => Vec3.zero

/-- The private static method `Dielectric::reflectance` (Schlick approximation). -/
def Dielectric.reflectance (cosine refraction_index : K) : K :=
  let r0 := (1 - refraction_index) / (1 + refraction_index)
  let r0 := r0 * r0
  r0 + (1 - r0) * (1 - cosine) ^ 5

/-- The virtual method `Material::scatter(r_in, rec, srec)`: `none` when it returns
`false`, `some srec` when it returns `true`. -/
def Material.scatter (env : Env K G) (mat : Material K) (r_in : Ray K) (rec : HitRecord K)
    (g : G) : Option (ScatterRecord K G) × G :=
  match mat with
  | Material.base => (none, g)
  | Material.DiffuseLight _ => (none, g)
  | Material.Lambertian tex =>
      (some { (ScatterRecord.init : ScatterRecord K G) with
              attenuation := tex rec.u rec.v rec.p
              pdf_ptr := some (PDF.CosinePDF rec.normal)
              skip_pdf := false }, g)
  | Material.Metal albedo fuzz =>
      let reflected := env.reflect r_in.dir rec.normal
      let rv := env.random_unit_vector g
      let reflected := Vec3.add (unit_vector env reflected) (Vec3.smul fuzz rv.1)
      (some { attenuation := albedo
              pdf_ptr := none
              skip_pdf := true
              skip_pdf_ray := { orig := rec.p, dir := reflected, tm := r_in.tm } }, rv.2)
  | Material.Dielectric refraction_index =>
      let ri := if rec.front_face then 1 / refraction_index else refraction_index
      let unit_direction := unit_vector env r_in.dir
      let cos_theta := min (Vec3.dot (Vec3.neg unit_direction) rec.normal) 1
      let sin_theta := env.sqrt (1 - cos_theta * cos_theta)
      let cannot_refract := decide (ri * sin_theta > 1)
      if cannot_refract then
        (some { attenuation := ⟨1, 1, 1⟩
                pdf_ptr := none
                skip_pdf := true
                skip_pdf_ray :=
                  { orig := rec.p, dir := env.reflect unit_direction rec.normal,
                    tm := r_in.tm } }, g)
      else
        let x := env.random_double g
        let direction :=
          if Dielectric.reflectance cos_theta ri > x.1 then
            env.reflect unit_direction rec.normal
          else
            env.refract unit_direction rec.normal ri
        (some { attenuation := ⟨1, 1, 1⟩
                pdf_ptr := none
                skip_pdf := true
                skip_pdf_ray := { orig := rec.p, dir := direction, tm := r_in.tm } }, x.2)
  | Material.Isotropic tex =>
      (some { (ScatterRecord.init : ScatterRecord K G) with
              attenuation := tex rec.u rec.v rec.p
              pdf_ptr := some PDF.SpherePDF
              skip_pdf := false }, g)

/-- The virtual method `Material::scattering_pdf(r_in, rec, scattered)`. -/
def Material.scattering_pdf (env : Env K G) (mat : Material K) (_r_in : Ray K)
    (rec : HitRecord K) (scattered : Ray K) : K :=
  match mat with
  | Material.Lambertian _ =>
      let cos_theta := Vec3.dot rec.normal (unit_vector env scattered.dir)
      if cos_theta < 0 then 0 else cos_theta / env.pi
  | Material.Isotropic _ => 1 / (4 * env.pi)
  | _ => 0

/-! ## The radiance estimator (`Renderer.cpp`) -/

/-- What makes the estimator leave the finite colours: a division of a colour by a zero
density (the C++ result then has `inf` or `NaN` components), or a call through a null
pointer. -/
inductive Fault where
  | division_by_zero : Fault
  | null_material : Fault
  | null_pdf : Fault
  deriving DecidableEq

/-- The colour division `c / d` of the estimator, guarded: a zero divisor is a fault. -/
def Vec3.divGuarded (c : Vec3 K) (d : K) : Except Fault (Vec3 K) :=
  if d = 0 then Except.error Fault.division_by_zero else Except.ok (Vec3.div c d)

/-- Counters of what one run of the estimator does (instrumentation, not program state). -/
structure Cost where
  /-- Invocations of `path_tracing`, the outermost one included. -/
  calls : Nat
  /-- Queries `world.hit`. -/
  hits : Nat
  /-- Calls of `MixturePDF::generate`. -/
  samples : Nat
  /-- Divisions of a colour by a density. -/
  divisions : Nat
  deriving DecidableEq

/-- The result of a run of the estimator: the colour (or the fault), the generator state
left behind, and the counters. -/
structure Outcome (K G : Type) where
  value : Except Fault (Vec3 K)
  rng : G
  cost : Cost

/-- The members of `Camera` that the renderer reads (`Camera.h` is not among the sources);
`get_ray(i, j, s_i, s_j)` draws from the random generator. -/
structure Camera (K G : Type) where
  image_width : Nat
  image_height : Nat
  sqrt_spp : Nat
  max_depth : Int
  pixel_samples_scale : K
  background : Vec3 K
  get_ray : Nat → Nat → Nat → Nat → G → Ray K × G

/-- The ray range `Interval(0.001, infinity)` that the estimator passes to `world.hit`. -/
def estimator_range : Interval (Ext K) := { min := Ext.fin 0.001, max := Ext.pinf }

/-- The mixture `MixturePDF p(light_ptr, srec.pdf_ptr)` that the estimator builds at the hit
point `p`, with `light_ptr` the `HittablePDF` of the lights seen from `p`. -/
def estimator_mixture (lights : Hittable K G) (p : Vec3 K) (q : PDF K G) : PDF K G :=
  PDF.MixturePDF (PDF.HittablePDF lights p) q

/-- The method `Renderer::path_tracing(r, depth, world, lights, cam)`. -/
def path_tracing (env : Env K G) (world lights : Hittable K G) (cam : Camera K G)
    (r : Ray K) (depth : Int) (g : G) : Outcome K G :=
  if depth ≤ 0 then
    { value := Except.ok Vec3.zero, rng := g,
      cost := { calls := 1, hits := 0, samples := 0, divisions := 0 } }
  else
    match world.hit r estimator_range HitRecord.init g with
    | (none, g1) =>
        { value := Except.ok cam.background, rng := g1,
          cost := { calls := 1, hits := 1, samples := 0, divisions := 0 } }
    | (some rec, g1) =>
        match rec.mat with
        | none =>
            { value := Except.error Fault.null_material, rng := g1,
              cost := { calls := 1, hits := 1, samples := 0, divisions := 0 } }
        | some mat =>
            let color_from_emission := mat.emitted r rec rec.u rec.v rec.p
            match mat.scatter env r rec g1 with
            | (none, g2) =>
                { value := Except.ok color_from_emission, rng := g2,
                  cost := { calls := 1, hits := 1, samples := 0, divisions := 0 } }
            | (some srec, g2) =>
                if srec.skip_pdf then
                  let sub := path_tracing env world lights cam srec.skip_pdf_ray (depth - 1) g2
                  { value := sub.value.map (fun c => Vec3.mul srec.attenuation c),
                    rng := sub.rng,
                    cost := { calls := sub.cost.calls + 1, hits := sub.cost.hits + 1,
                              samples := sub.cost.samples,
                              divisions := sub.cost.divisions } }
                else
                  match srec.pdf_ptr with
                  | none =>
                      { value := Except.error Fault.null_pdf, rng := g2,
                        cost := { calls := 1, hits := 1, samples := 0, divisions := 0 } }
                  | some pdf_ptr =>
                      let p := estimator_mixture lights rec.p pdf_ptr
                      let gen := PDF.generate env p g2
                      let scattered : Ray K := { orig := rec.p, dir := gen.1, tm := r.tm }
                      let pdf_value := PDF.value env p scattered.dir
                      let scattering_pdf := mat.scattering_pdf env r rec scattered
                      let sub := path_tracing env world lights cam scattered (depth - 1) gen.2
                      { value :=
                          sub.value.bind (fun sample_color =>
                            (Vec3.divGuarded
                              (Vec3.mul (Vec3.smul scattering_pdf srec.attenuation)
                                sample_color)
                              pdf_value).map
                              (fun color_from_scatter =>
                                Vec3.add color_from_emission color_from_scatter)),
                        rng := sub.rng,
                        cost := { calls := sub.cost.calls + 1, hits := sub.cost.hits + 1,
                                  samples := sub.cost.samples + 1,
                                  divisions := sub.cost.divisions + 1 } }
termination_by depth.toNat
decreasing_by all_goals omega

/-! ## Spheres (`Sphere.h`) and the translation wrapper (`Hittable.h`) -/

/-- The default `Hittable::pdf_value` of the base class: `0.0`. -/
def Hittable.base_pdf_value (_origin _direction : Vec3 K) : K := 0

/-- The default `Hittable::random` of the base class: `Vec3(1, 0, 0)`. -/
def Hittable.base_random (_origin : Vec3 K) (g : G) : Vec3 K × G := (⟨1, 0, 0⟩, g)

/-- The data members of the class `Sphere`. -/
structure Sphere (K : Type) where
  center1 : Vec3 K
  radius : K
  mat : Option (Material K)
  is_moving : Bool
  center_vec : Vec3 K
  bbox : AABB K

/-- The constructor of a stationary sphere: the radius is `fmax(0, radius)`, and the box
is built from the constructor argument `radius`. -/
def Sphere.mkStationary (center : Vec3 K) (radius : K) (mat : Option (Material K)) :
    Sphere K :=
  let rvec : Vec3 K := ⟨radius, radius, radius⟩
  { center1 := center, radius := max 0 radius, mat := mat, is_moving := false,
    center_vec := Vec3.zero,
    bbox := AABB.ofPoints (Vec3.sub center rvec) (Vec3.add center rvec) }

/-- `Sphere::sphere_center(time)`: `center1 + time * center_vec`. -/
def Sphere.sphere_center (s : Sphere K) (time : K) : Vec3 K :=
  Vec3.add s.center1 (Vec3.smul time s.center_vec)

/-- `Sphere::get_sphere_uv(p, u, v)`: the pair `(u, v)` it writes. -/
def Sphere.get_sphere_uv (env : Env K G) (p : Vec3 K) : K × K :=
  let theta := env.acos (-p.y)
  let phi := env.atan2 (-p.z) p.x + env.pi
  (phi / (2 * env.pi), theta / env.pi)

/-- The centre that `Sphere::hit` uses for the ray `r`. -/
def Sphere.center (s : Sphere K) (r : Ray K) : Vec3 K :=
  if s.is_moving then s.sphere_center r.tm else s.center1

/-- The value `discriminant = h*h - a*c` that `Sphere::hit` computes for the ray `r`. -/
def Sphere.discriminant (s : Sphere K) (r : Ray K) : K :=
  let oc := Vec3.sub (s.center r) r.orig
  let a := Vec3.length_squared r.dir
  let h := Vec3.dot r.dir oc
  let c := Vec3.length_squared oc - s.radius * s.radius
  h * h - a * c

/-- The first half of `Sphere::hit(r, ray_t, rec)`, up to the choice of the root: `none`
where the C++ returns `false`, the chosen `root` otherwise. -/
def Sphere.find_root (env : Env K G) (s : Sphere K) (r : Ray K) (ray_t : Interval (Ext K)) :
    Option K :=
  let center := s.center r
  let oc := Vec3.sub center r.orig
  let a := Vec3.length_squared r.dir
  let h := Vec3.dot r.dir oc
  let discriminant := s.discriminant r
  if discriminant < 0 then none
  else
    let sqrtd := env.sqrt discriminant
    let root := (h - sqrtd) / a
    if !ray_t.surrounds (Ext.fin root) then
      let root := (h + sqrtd) / a
      if !ray_t.surrounds (Ext.fin root) then none
      else some root
    else some root

/-- `Sphere::hit(r, ray_t, rec)`: the search of the root, then the record it writes. -/
def Sphere.hit (env : Env K G) (s : Sphere K) (r : Ray K) (ray_t : Interval (Ext K))
    (rec : HitRecord K) : Option (HitRecord K) :=
  match Sphere.find_root env s r ray_t with
  | none => none
  | some root =>
      let center := s.center r
      let rec1 := { rec with t := root, p := r.at root }
      let outward_normal := Vec3.div (Vec3.sub rec1.p center) s.radius
      let rec2 := rec1.set_face_normal r outward_normal
      let uv := Sphere.get_sphere_uv env outward_normal
      some { rec2 with u := uv.1, v := uv.2, mat := s.mat }

/-- `Sphere::pdf_value(origin, direction)`. -/
def Sphere.pdf_value (env : Env K G) (s : Sphere K) (origin direction : Vec3 K) : K :=
  match Sphere.hit env s { orig := origin, dir := direction, tm := 0 }
      { min := Ext.fin 0.001, max := Ext.pinf } HitRecord.init with
  | none => 0
  | some _ =>
      let cos_theta_max :=
        env.sqrt (1 - s.radius * s.radius / Vec3.length_squared (Vec3.sub s.center1 origin))
      let solid_angle := 2 * env.pi * (1 - cos_theta_max)
      1 / solid_angle

/-- `Sphere::random_to_sphere(radius, distance_squared)`. -/
def Sphere.random_to_sphere (env : Env K G) (radius distance_squared : K) (g : G) :
    Vec3 K × G :=
  let r1 := env.random_double g
  let r2 := env.random_double r1.2
  let z := 1 + r2.1 * (env.sqrt (1 - radius * radius / distance_squared) - 1)
  let phi := 2 * env.pi * r1.1
  let x := env.cos phi * env.sqrt (1 - z * z)
  let y := env.sin phi * env.sqrt (1 - z * z)
  (⟨x, y, z⟩, r2.2)

/-- `Sphere::random(origin)`. -/
def Sphere.random (env : Env K G) (s : Sphere K) (origin : Vec3 K) (g : G) : Vec3 K × G :=
  let direction := Vec3.sub s.center1 origin
  let distance_squared := Vec3.length_squared direction
  let v := Sphere.random_to_sphere env s.radius distance_squared g
  (env.onb_transform direction v.1, v.2)

/-- A `Sphere` seen through the interface `Hittable`. -/
def Sphere.toHittable (env : Env K G) (s : Sphere K) : Hittable K G :=
  { hit := fun r ray_t rec g => (Sphere.hit env s r ray_t rec, g)
    bounding_box := s.bbox
    pdf_value := Sphere.pdf_value env s
    random := Sphere.random env s }

/-- The class `translate` of `Hittable.h`; `pdf_value` and `random` are inherited from
`Hittable`. -/
def translate (object : Hittable K G) (offset : Vec3 K) : Hittable K G :=
  { hit := fun r ray_t rec g =>
      let offset_r : Ray K := { orig := Vec3.sub r.orig offset, dir := r.dir, tm := r.tm }
      match object.hit offset_r ray_t rec g with
      | (none, g1) => (none, g1)
      | (some rec1, g1) => (some { rec1 with p := Vec3.add rec1.p offset }, g1)
    bounding_box := AABB.shift object.bounding_box offset
    pdf_value := Hittable.base_pdf_value
    random := Hittable.base_random }

/-! ## Quadrilaterals (`Quad.h`) -/

/-- The data members of the class `Quad`. -/
structure Quad (K : Type) where
  Q : Vec3 K
  u : Vec3 K
  v : Vec3 K
  w : Vec3 K
  mat : Option (Material K)
  bbox : AABB K
  normal : Vec3 K
  D : K
  area : K

/-- `Quad::set_bounding_box`: the box of the four vertices, in exact arithmetic. -/
def Quad.set_bounding_box (Q u v : Vec3 K) : AABB K :=
  let bbox_diagonal1 := AABB.ofPoints Q (Vec3.add (Vec3.add Q u) v)
  let bbox_diagonal2 := AABB.ofPoints (Vec3.add Q u) (Vec3.add Q v)
  AABB.ofBoxes bbox_diagonal1 bbox_diagonal2

/-- The constructor `Quad(Q, u, v, mat)`. -/
def Quad.make (env : Env K G) (Q u v : Vec3 K) (mat : Option (Material K)) : Quad K :=
  let n := Vec3.cross u v
  let normal := unit_vector env n
  { Q := Q, u := u, v := v, mat := mat
    normal := normal
    D := Vec3.dot normal Q
    w := Vec3.div n (Vec3.dot n n)
    area := Vec3.length env n
    bbox := Quad.set_bounding_box Q u v }

/-- `Quad::is_interior(a, b, rec)`: `none` when it returns `false`, otherwise the record
with the UV coordinates set. -/
def Quad.is_interior (a b : K) (rec : HitRecord K) : Option (HitRecord K) :=
  let unit_interval : Interval (Ext K) := { min := Ext.fin 0, max := Ext.fin 1 }
  if !unit_interval.contains (Ext.fin a) || !unit_interval.contains (Ext.fin b) then none
  else some { rec with u := a, v := b }

/-- The parameter `t = (D - dot(normal, r.origin())) / denom` at which `Quad::hit` finds the
ray crossing the plane of the quad. -/
def Quad.plane_t (q : Quad K) (r : Ray K) : K :=
  let denom := Vec3.dot q.normal r.dir
  (q.D - Vec3.dot q.normal r.orig) / denom

/-- The planar coordinate `alpha` that `Quad::hit` computes for the ray `r`. -/
def Quad.alpha (q : Quad K) (r : Ray K) : K :=
  let intersection := r.at (q.plane_t r)
  let planar_hitpt_vector := Vec3.sub intersection q.Q
  Vec3.dot q.w (Vec3.cross planar_hitpt_vector q.v)

/-- The planar coordinate `beta` that `Quad::hit` computes for the ray `r`. -/
def Quad.beta (q : Quad K) (r : Ray K) : K :=
  let intersection := r.at (q.plane_t r)
  let planar_hitpt_vector := Vec3.sub intersection q.Q
  Vec3.dot q.w (Vec3.cross q.u planar_hitpt_vector)

/-- `Quad::hit(r, ray_t, rec)`. -/
def Quad.hit (q : Quad K) (r : Ray K) (ray_t : Interval (Ext K)) (rec : HitRecord K) :
    Option (HitRecord K) :=
  let denom := Vec3.dot q.normal r.dir
  if |denom| < 1e-8 then none
  else
    let t := q.plane_t r
    if !ray_t.contains (Ext.fin t) then none
    else
      let intersection := r.at t
      let alpha := q.alpha r
      let beta := q.beta r
      match Quad.is_interior alpha beta rec with
      | none => none
      | some rec1 =>
          let rec2 := { rec1 with t := t, p := intersection, mat := q.mat }
          some (rec2.set_face_normal r q.normal)

/-- `Quad::pdf_value(origin, direction)`. -/
def Quad.pdf_value (env : Env K G) (q : Quad K) (origin direction : Vec3 K) : K :=
  match Quad.hit q { orig := origin, dir := direction, tm := 0 }
      { min := Ext.fin 0.001, max := Ext.pinf } HitRecord.init with
  | none => 0
  | some rec =>
      let distance_squared := rec.t * rec.t * Vec3.length_squared direction
      let cosine := |Vec3.dot direction rec.normal / Vec3.length env direction|
      distance_squared / (cosine * q.area)

/-- The draw that `Quad::random` multiplies by `u` in
`Q + (random_double() * u) + (random_double() * v)`: the first of the two draws when the
left operand of the `+` is evaluated first, the second one otherwise. -/
def Quad.random_u (env : Env K G) (g : G) : K :=
  if env.right_operand_first then (env.random_double (env.random_double g).2).1
  else (env.random_double g).1

/-- The draw that `Quad::random` multiplies by `v`: the other one of the two draws. -/
def Quad.random_v (env : Env K G) (g : G) : K :=
  if env.right_operand_first then (env.random_double g).1
  else (env.random_double (env.random_double g).2).1

/-- `Quad::random(origin)`. The two calls of `random_double()` are operands of one `+`:
the order in which they are made is the one of `env.right_operand_first`. -/
def Quad.random (env : Env K G) (q : Quad K) (origin : Vec3 K) (g : G) : Vec3 K × G :=
  let p := Vec3.add (Vec3.add q.Q (Vec3.smul (Quad.random_u env g) q.u))
    (Vec3.smul (Quad.random_v env g) q.v)
  (Vec3.sub p origin, (env.random_double (env.random_double g).2).2)

/-- A `Quad` seen through the interface `Hittable`. -/
def Quad.toHittable (env : Env K G) (q : Quad K) : Hittable K G :=
  { hit := fun r ray_t rec g => (Quad.hit q r ray_t rec, g)
    bounding_box := q.bbox
    pdf_value := Quad.pdf_value env q
    random := Quad.random env q }

/-! ## The composite list (`HittableList.h`) -/

/-- The data members of the class `HittableList`. -/
structure HittableList (K G : Type) where
  objects : List (Hittable K G)
  bbox : AABB K

/-- The constructor `HittableList()`: no object and the default (empty) box. -/
def HittableList.init : HittableList K G := { objects := [], bbox := AABB.init }

/-- `HittableList::clear`. -/
def HittableList.clear (l : HittableList K G) : HittableList K G := { l with objects := [] }

/-- `HittableList::add(object)`. -/
def HittableList.add (l : HittableList K G) (object : Hittable K G) : HittableList K G :=
  { objects := l.objects ++ [object]
    bbox := AABB.ofBoxes l.bbox object.bounding_box }

/-- The constructor `HittableList(object)`. -/
def HittableList.ofObject (object : Hittable K G) : HittableList K G :=
  HittableList.init.add object

/-- The local variables of the loop of `HittableList::hit`, with the generator state. When
`hit_anything` holds, the out-parameter `rec` is equal to `temp_rec`. -/
structure HitScan (K G : Type) where
  temp_rec : HitRecord K
  hit_anything : Bool
  closest_so_far : Ext K
  rng : G

/-- One iteration of the loop of `HittableList::hit`. -/
def HittableList.hit_step (r : Ray K) (ray_t : Interval (Ext K)) (st : HitScan K G)
    (object : Hittable K G) : HitScan K G :=
  match object.hit r { min := ray_t.min, max := st.closest_so_far } st.temp_rec st.rng with
  | (some rec1, g1) =>
      { temp_rec := rec1, hit_anything := true, closest_so_far := Ext.fin rec1.t, rng := g1 }
  | (none, g1) => { st with rng := g1 }

/-- The loop of `HittableList::hit` over a list of objects. -/
def HittableList.scan (objects : List (Hittable K G)) (r : Ray K) (ray_t : Interval (Ext K))
    (g : G) : HitScan K G :=
  objects.foldl (HittableList.hit_step r ray_t)
    { temp_rec := HitRecord.init, hit_anything := false, closest_so_far := ray_t.max, rng := g }

/-- `HittableList::hit(r, ray_t, rec)`. -/
def HittableList.hit (l : HittableList K G) (r : Ray K) (ray_t : Interval (Ext K))
    (_rec : HitRecord K) (g : G) : Option (HitRecord K) × G :=
  let st := HittableList.scan l.objects r ray_t g
  (if st.hit_anything then some st.temp_rec else none, st.rng)

/-- `HittableList::pdf_value(origin, direction)`. -/
def HittableList.pdf_value (l : HittableList K G) (origin direction : Vec3 K) : K :=
  let weight : K := 1 / (l.objects.length : K)
  l.objects.foldl (fun sum object => sum + weight * object.pdf_value origin direction) 0

/-- `HittableList::random(origin)`. An index outside the vector is undefined behaviour in
C++; the zero vector stands for it. -/
def HittableList.random (env : Env K G) (l : HittableList K G) (origin : Vec3 K) (g : G) :
    Vec3 K × G :=
  let int_size : Int := l.objects.length
  let i := env.random_int 0 (int_size - 1) g
  match (if i.1 < 0 then none else l.objects[i.1.toNat]?) with
  | some object => object.random origin i.2
  | none => (Vec3.zero, i.2)

/-- A `HittableList` seen through the interface `Hittable`. -/
def HittableList.toHittable (env : Env K G) (l : HittableList K G) : Hittable K G :=
  { hit := HittableList.hit l
    bounding_box := l.bbox
    pdf_value := HittableList.pdf_value l
    random := HittableList.random env l }

/-- A member of a scene that is a sphere or a quad. -/
inductive Prim (K : Type) where
  | sphere (s : Sphere K) : Prim K
  | quad (q : Quad K) : Prim K

/-- The `hit` of a sphere or quad member. -/
def Prim.hit (env : Env K G) : Prim K → Ray K → Interval (Ext K) → HitRecord K →
    Option (HitRecord K)
  | Prim.sphere s, r, ray_t, rec => Sphere.hit env s r ray_t rec
  | Prim.quad q, r, ray_t, rec => Quad.hit q r ray_t rec

/-- Whether the member is a quad. -/
def Prim.isQuad : Prim K → Bool
  | Prim.sphere _ => false
  | Prim.quad _ => true

/-- A sphere or quad member seen through the interface `Hittable`. -/
def Prim.toHittable (env : Env K G) : Prim K → Hittable K G
  | Prim.sphere s => Sphere.toHittable env s
  | Prim.quad q => Quad.toHittable env q

/-- The list obtained by adding the given spheres and quads, in order, to a newly
constructed `HittableList`. -/
def HittableList.ofPrims (env : Env K G) (ps : List (Prim K)) : HittableList K G :=
  (ps.map (Prim.toHittable env)).foldl HittableList.add HittableList.init

/-- The smaller root `(h - sqrtd) / a` of the quadratic of `Sphere::hit`. -/
def Sphere.root_near (env : Env K G) (s : Sphere K) (r : Ray K) : K :=
  (Vec3.dot r.dir (Vec3.sub (s.center r) r.orig) - env.sqrt (s.discriminant r))
    / Vec3.length_squared r.dir

/-- The larger root `(h + sqrtd) / a` of the quadratic of `Sphere::hit`. -/
def Sphere.root_far (env : Env K G) (s : Sphere K) (r : Ray K) : K :=
  (Vec3.dot r.dir (Vec3.sub (s.center r) r.orig) + env.sqrt (s.discriminant r))
    / Vec3.length_squared r.dir

/-! ## The render scheduler (`Renderer.cpp`) -/

/-- The frame buffer, the generator state, and the log of the writes `frame_buffer[k] = ..`
as pairs (worker, index `k`) in the order they are made (instrumentation). -/
structure RenderState (K G : Type) where
  frame_buffer : List (Except Fault (Vec3 K))
  rng : G
  writes : List (Nat × Nat)

/-- One camera sample of `render_thread`: `path_tracing(cam.get_ray(i, j, s_i, s_j),
cam.max_depth, world, lights, cam)`. -/
def Renderer.sample (env : Env K G) (world lights : Hittable K G) (cam : Camera K G)
    (i j s_i s_j : Nat) (g : G) : Except Fault (Vec3 K) × G :=
  let rg := cam.get_ray i j s_i s_j g
  let out := path_tracing env world lights cam rg.1 cam.max_depth rg.2
  (out.value, out.rng)

/-- The two inner loops of `render_thread` for the pixel `(i, j)`: the sum of the
`sqrt_spp * sqrt_spp` samples. -/
def Renderer.pixel_color (sample : Nat → Nat → Nat → Nat → G → Except Fault (Vec3 K) × G)
    (cam : Camera K G) (i j : Nat) (g : G) : Except Fault (Vec3 K) × G :=
  (List.range cam.sqrt_spp).foldl
    (fun acc s_j =>
      (List.range cam.sqrt_spp).foldl
        (fun acc s_i =>
          let c := sample i j s_i s_j acc.2
          (acc.1.bind (fun a => c.1.map (fun b => Vec3.add a b)), c.2))
        acc)
    (Except.ok Vec3.zero, g)

/-- The value `cam.pixel_samples_scale * pixel_color` that `render_thread` writes for the
pixel `(i, j)` when the generator is in the state `g`. -/
def Renderer.pixel_value (sample : Nat → Nat → Nat → Nat → G → Except Fault (Vec3 K) × G)
    (cam : Camera K G) (i j : Nat) (g : G) : Except Fault (Vec3 K) :=
  (Renderer.pixel_color sample cam i j g).1.map (fun c => Vec3.smul cam.pixel_samples_scale c)

/-- The body of the loop over `i` in `render_thread`: the pixel `(i, j)` is computed and
written at `frame_buffer[j * cam.image_width + i]`. -/
def Renderer.render_pixel (sample : Nat → Nat → Nat → Nat → G → Except Fault (Vec3 K) × G)
    (cam : Camera K G) (worker j : Nat) (st : RenderState K G) (i : Nat) : RenderState K G :=
  { frame_buffer :=
      st.frame_buffer.set (j * cam.image_width + i) (Renderer.pixel_value sample cam i j st.rng)
    rng := (Renderer.pixel_color sample cam i j st.rng).2
    writes := st.writes ++ [(worker, j * cam.image_width + i)] }

/-- `Renderer::render_thread(start, end, world, lights, cam, frame_buffer)`, run by the
worker number `worker` (the progress output apart). -/
def Renderer.render_thread (sample : Nat → Nat → Nat → Nat → G → Except Fault (Vec3 K) × G)
    (cam : Camera K G) (worker start end_ : Nat) (st : RenderState K G) : RenderState K G :=
  (List.range' start (end_ - start)).foldl
    (fun st j => (List.range cam.image_width).foldl (Renderer.render_pixel sample cam worker j) st)
    st

/-- The row range `[start, end)` that `Renderer::render` gives to the thread `t`. -/
def Renderer.thread_range (image_height num_threads t : Nat) : Nat × Nat :=
  let scanlines_per_thread := image_height / num_threads
  let start := t * scanlines_per_thread
  let end_ := if t = num_threads - 1 then image_height else (t + 1) * scanlines_per_thread
  (start, end_)

/-- The state in which `Renderer::render` starts its threads: a frame buffer of
`image_width * image_height` black pixels. -/
def Renderer.init_state (cam : Camera K G) (g : G) : RenderState K G :=
  { frame_buffer := List.replicate (cam.image_width * cam.image_height) (Except.ok Vec3.zero)
    rng := g
    writes := [] }

/-- The workers of `Renderer::render`, run to completion one after the other in the order
`order` of their thread numbers. -/
def Renderer.run_workers (sample : Nat → Nat → Nat → Nat → G → Except Fault (Vec3 K) × G)
    (cam : Camera K G) (num_threads : Nat) (order : List Nat) (st : RenderState K G) :
    RenderState K G :=
  order.foldl
    (fun st t =>
      Renderer.render_thread sample cam t
        (Renderer.thread_range cam.image_height num_threads t).1
        (Renderer.thread_range cam.image_height num_threads t).2 st)
    st

/-- `Renderer::render` up to the join of the threads, for the thread count `num_threads`
that `hardware_concurrency()` reports; the integer division is guarded. The workers are run
here in the order they are created. -/
def Renderer.render (sample : Nat → Nat → Nat → Nat → G → Except Fault (Vec3 K) × G)
    (cam : Camera K G) (num_threads : Nat) (g : G) : Except Fault (RenderState K G) :=
  if num_threads = 0 then Except.error Fault.division_by_zero
  else
    Except.ok
      (Renderer.run_workers sample cam num_threads (List.range num_threads)
        (Renderer.init_state cam g))

end Field

section Field

variable {K G : Type} [LinearOrderedField K]

/-! ## More of `AABB.h`: the longest axis -/

/-- The comparison `a.size() > b.size()` of `longest_axis`; a comparison with NaN is
false. -/
def Interval.size_gt (a b : Interval (Ext K)) : Bool :=
  match a.size, b.size with
  | some s, some t => decide (t < s)
  | _, _ => false

/-- `AABB::longest_axis`. -/
def AABB.longest_axis (b : AABB K) : Int :=
  if b.x.size_gt b.y then (if b.x.size_gt b.z then 0 else 2)
  else (if b.y.size_gt b.z then 1 else 2)

/-! ## `double` values that may be infinite or NaN, as the constructor of `rotate_y` meets
them -/

/-- The product `c * a` of a finite `double` and a bound; `none` is the NaN of `0 * inf`. -/
def Ext.scale (c : K) : Ext K → Option (Ext K)
  | Ext.fin x => some (Ext.fin (c * x))
  | Ext.pinf => if 0 < c then some Ext.pinf else if c < 0 then some Ext.ninf else none
  | Ext.ninf => if 0 < c then some Ext.ninf else if c < 0 then some Ext.pinf else none

/-- The sum `a + b` of two bounds; `none` is the NaN of `inf - inf`. -/
def Ext.add : Ext K → Ext K → Option (Ext K)
  | Ext.fin a, Ext.fin b => some (Ext.fin (a + b))
  | Ext.fin _, Ext.pinf => some Ext.pinf
  | Ext.fin _, Ext.ninf => some Ext.ninf
  | Ext.pinf, Ext.ninf => none
  | Ext.pinf, _ => some Ext.pinf
  | Ext.ninf, Ext.pinf => none
  | Ext.ninf, _ => some Ext.ninf

/-- The product `c * a` when `a` may be NaN (`none`). -/
def Ext.scaleNaN (c : K) (a : Option (Ext K)) : Option (Ext K) := a.bind (Ext.scale c)

/-- The sum `a + b` when `a` or `b` may be NaN (`none`). -/
def Ext.addNaN (a b : Option (Ext K)) : Option (Ext K) :=
  a.bind (fun x => b.bind (fun y => Ext.add x y))

/-- `std::fmin(a, b)` for `a` not NaN: a NaN `b` is ignored. -/
def Ext.fmin (a : Ext K) (b : Option (Ext K)) : Ext K :=
  match b with
  | none => a
  | some y => if y < a then y else a

/-- `std::fmax(a, b)` for `a` not NaN: a NaN `b` is ignored. -/
def Ext.fmax (a : Ext K) (b : Option (Ext K)) : Ext K :=
  match b with
  | none => a
  | some y => if a < y then y else a

/-- The constructor `AABB(a, b)` from two extreme points, for points whose coordinates may
be infinite. -/
def AABB.ofCorners (a b : Vec3 (Ext K)) : AABB K :=
  AABB.pad_to_minimums
    { x := if a.x ≤ b.x then { min := a.x, max := b.x } else { min := b.x, max := a.x }
      y := if a.y ≤ b.y then { min := a.y, max := b.y } else { min := b.y, max := a.y }
      z := if a.z ≤ b.z then { min := a.z, max := b.z } else { min := b.z, max := a.z } }

/-! ## The rotation about the vertical axis (`rotate_y` of `Hittable.h`) -/

/-- Modelled from the spec: `degrees_to_radians(degrees)` of `utils.h` (not among the
sources), `degrees * pi / 180`. -/
def degrees_to_radians (env : Env K G) (degrees : K) : K := degrees * env.pi / 180

/-- The change from world space to object space that `rotate_y::hit` applies to the origin
and to the direction of the ray. -/
def rotate_y.to_object (sin_theta cos_theta : K) (v : Vec3 K) : Vec3 K :=
  ⟨cos_theta * v.x - sin_theta * v.z, v.y, sin_theta * v.x + cos_theta * v.z⟩

/-- The change from object space to world space that `rotate_y::hit` applies to the hit
point and to the normal. -/
def rotate_y.to_world (sin_theta cos_theta : K) (v : Vec3 K) : Vec3 K :=
  ⟨cos_theta * v.x + sin_theta * v.z, v.y, -sin_theta * v.x + cos_theta * v.z⟩

/-- The ray `rotated_r` of `rotate_y::hit`. -/
def rotate_y.object_ray (sin_theta cos_theta : K) (r : Ray K) : Ray K :=
  { orig := rotate_y.to_object sin_theta cos_theta r.orig
    dir := rotate_y.to_object sin_theta cos_theta r.dir
    tm := r.tm }

/-- The vector `tester` of the constructor of `rotate_y` for the loop indices `i`, `j`,
`k`; a coordinate is NaN (`none`) when the box has an infinite bound. -/
def rotate_y.corner (sin_theta cos_theta : K) (bbox : AABB K) (i j k : Int) :
    Vec3 (Option (Ext K)) :=
  let x := Ext.addNaN (Ext.scale (i : K) bbox.x.max) (Ext.scale ((1 - i : Int) : K) bbox.x.min)
  let y := Ext.addNaN (Ext.scale (j : K) bbox.y.max) (Ext.scale ((1 - j : Int) : K) bbox.y.min)
  let z := Ext.addNaN (Ext.scale (k : K) bbox.z.max) (Ext.scale ((1 - k : Int) : K) bbox.z.min)
  let newx := Ext.addNaN (Ext.scaleNaN cos_theta x) (Ext.scaleNaN sin_theta z)
  let newz := Ext.addNaN (Ext.scaleNaN (-sin_theta) x) (Ext.scaleNaN cos_theta z)
  ⟨newx, y, newz⟩

/-- The innermost loop of the constructor of `rotate_y`: `min` and `max` updated with the
three coordinates of `tester`. -/
def rotate_y.extend (acc : Vec3 (Ext K) × Vec3 (Ext K)) (tester : Vec3 (Option (Ext K))) :
    Vec3 (Ext K) × Vec3 (Ext K) :=
  (⟨Ext.fmin acc.1.x tester.x, Ext.fmin acc.1.y tester.y, Ext.fmin acc.1.z tester.z⟩,
   ⟨Ext.fmax acc.2.x tester.x, Ext.fmax acc.2.y tester.y, Ext.fmax acc.2.z tester.z⟩)

/-- The three nested loops of the constructor of `rotate_y`: the points `min` and `max`
after the 8 corners. -/
def rotate_y.extremes (sin_theta cos_theta : K) (bbox : AABB K) :
    Vec3 (Ext K) × Vec3 (Ext K) :=
  ([0, 1] : List Int).foldl
    (fun acc i =>
      ([0, 1] : List Int).foldl
        (fun acc j =>
          ([0, 1] : List Int).foldl
            (fun acc k => rotate_y.extend acc (rotate_y.corner sin_theta cos_theta bbox i j k))
            acc)
        acc)
    (⟨Ext.pinf, Ext.pinf, Ext.pinf⟩, ⟨Ext.ninf, Ext.ninf, Ext.ninf⟩)

/-- The class `rotate_y` of `Hittable.h`; `pdf_value` and `random` are inherited from
`Hittable`. -/
def rotate_y (env : Env K G) (object : Hittable K G) (angle : K) : Hittable K G :=
  let radians := degrees_to_radians env angle
  let sin_theta := env.sin radians
  let cos_theta := env.cos radians
  let ext := rotate_y.extremes sin_theta cos_theta object.bounding_box
  { hit := fun r ray_t rec g =>
      let rotated_r := rotate_y.object_ray sin_theta cos_theta r
      match object.hit rotated_r ray_t rec g with
      | (none, g1) => (none, g1)
      | (some rec1, g1) =>
          (some { rec1 with p := rotate_y.to_world sin_theta cos_theta rec1.p
                            normal := rotate_y.to_world sin_theta cos_theta rec1.normal }, g1)
    bounding_box := AABB.ofCorners ext.1 ext.2
    pdf_value := Hittable.base_pdf_value
    random := Hittable.base_random }

/-- Modelled from the spec: the component `v[i]` of `Vec3.h`. -/
def Vec3.get (v : Vec3 K) (i : Int) : K := if i = 0 then v.x else if i = 1 then v.y else v.z

/-- The product `a * c` of a bound and a finite `double`; `none` is the NaN of `inf * 0`. -/
def Ext.mulFin (a : Ext K) (c : K) : Option (Ext K) :=
  match a with
  | Ext.fin x => some (Ext.fin (x * c))
  | Ext.pinf => if 0 < c then some Ext.pinf else if c < 0 then some Ext.ninf else none
  | Ext.ninf => if 0 < c then some Ext.ninf else if c < 0 then some Ext.pinf else none

/-- The comparison `a < b` of two `double` values that may be NaN (`none`): false when one
of them is NaN. -/
def Ext.ltNaN (a b : Option (Ext K)) : Bool :=
  match a, b with
  | some x, some y => decide (x < y)
  | _, _ => false

/-- The body of the loop of `AABB::hit` for one axis, up to the test of the window: the
range `ray_t` it leaves. The statement `if (t > ray_t.min) ray_t.min = t` leaves `ray_t.min`
as it is when `t` is NaN. Every arithmetic result passes through `rnd`, the rounding of an
exact result to a `double`: the identity gives exact arithmetic, `binary64` the arithmetic
of the machine. -/
def AABB.hit_axis (rnd : K → K) (b : AABB K) (r : Ray K) (axis : Int)
    (ray_t : Interval (Ext K)) : Interval (Ext K) :=
  let ax := b.axis_interval axis
  let adinv := rnd (1 / r.dir.get axis)
  let t0 := ((Ext.round rnd (ax.min.addFin (-(r.orig.get axis)))).mulFin adinv).map
    (Ext.round rnd)
  let t1 := ((Ext.round rnd (ax.max.addFin (-(r.orig.get axis)))).mulFin adinv).map
    (Ext.round rnd)
  if Ext.ltNaN t0 t1 then
    { min := match t0 with
        | some t => if ray_t.min < t then t else ray_t.min
        | none => ray_t.min
      max := match t1 with
        | some t => if t < ray_t.max then t else ray_t.max
        | none => ray_t.max }
  else
    { min := match t1 with
        | some t => if ray_t.min < t then t else ray_t.min
        | none => ray_t.min
      max := match t0 with
        | some t => if t < ray_t.max then t else ray_t.max
        | none => ray_t.max }

/-- The loop of `AABB::hit` over the axes of the list. The reciprocal `1.0 / ray_dir[axis]`
of a zero component is an IEEE infinity, which the embedding does not represent: the
result is then `division_by_zero`. -/
def AABB.hit_loop (rnd : K → K) (b : AABB K) (r : Ray K) :
    List Int → Interval (Ext K) → Except Fault Bool
  | [], _ => Except.ok true
  | axis :: rest, ray_t =>
      if r.dir.get axis = 0 then Except.error Fault.division_by_zero
      else
        let ray_t1 := AABB.hit_axis rnd b r axis ray_t
        if ray_t1.max ≤ ray_t1.min then Except.ok false
        else AABB.hit_loop rnd b r rest ray_t1

/-- `AABB::hit(r, ray_t)`, in the arithmetic of the rounding `rnd`. -/
def AABB.hit (rnd : K → K) (b : AABB K) (r : Ray K) (ray_t : Interval (Ext K)) :
    Except Fault Bool :=
  AABB.hit_loop rnd b r [0, 1, 2] ray_t

/-! ## The participating medium (`ConstantMedium.h`) -/

/-- The data members of the class `ConstantMedium`. -/
structure ConstantMedium (K G : Type) where
  boundary : Hittable K G
  neg_inv_density : K
  phase_function : Material K

/-- The constructor `ConstantMedium(boundary, density, tex)`. -/
def ConstantMedium.make (boundary : Hittable K G) (density : K) (tex : Texture K) :
    ConstantMedium K G :=
  { boundary := boundary, neg_inv_density := -1 / density,
    phase_function := Material.Isotropic tex }

/-- The constructor `ConstantMedium(boundary, density, albedo)`. -/
def ConstantMedium.ofAlbedo (boundary : Hittable K G) (density : K) (albedo : Vec3 K) :
    ConstantMedium K G :=
  ConstantMedium.make boundary density (SolidColor albedo)

/-- `ConstantMedium::hit(r, ray_t, rec)`. The clipped `rec1.t` and `rec2.t` are bounds
until the test `rec1.t >= rec2.t` has passed; they are finite afterwards. -/
def ConstantMedium.hit (env : Env K G) (m : ConstantMedium K G) (r : Ray K)
    (ray_t : Interval (Ext K)) (rec : HitRecord K) (g : G) : Option (HitRecord K) × G :=
  match m.boundary.hit r Interval.universe HitRecord.init g with
  | (none, g1) => (none, g1)
  | (some rec1, g1) =>
      match m.boundary.hit r { min := Ext.fin (rec1.t + 0.0001), max := Ext.pinf }
          HitRecord.init g1 with
      | (none, g2) => (none, g2)
      | (some rec2, g2) =>
          let t1 : Ext K := if Ext.fin rec1.t < ray_t.min then ray_t.min else Ext.fin rec1.t
          let t2 : Ext K := if Ext.fin rec2.t > ray_t.max then ray_t.max else Ext.fin rec2.t
          if t1 ≥ t2 then (none, g2)
          else
            match t1, t2 with
            | Ext.fin a, Ext.fin b =>
                let a := if a < 0 then 0 else a
                let ray_length := Vec3.length env r.dir
                let distance_inside_boundary := (b - a) * ray_length
                let draw := env.random_double g2
                let hit_distance := m.neg_inv_density * env.log draw.1
                if hit_distance > distance_inside_boundary then (none, draw.2)
                else
                  let t := a + hit_distance / ray_length
                  (some { rec with
                          t := t, p := r.at t, normal := ⟨1, 0, 0⟩, front_face := true
                          mat := some m.phase_function }, draw.2)
            | _, _ => (none, g2)

/-- A `ConstantMedium` seen through the interface `Hittable`; `pdf_value` and `random` are
inherited from `Hittable`. -/
def ConstantMedium.toHittable (env : Env K G) (m : ConstantMedium K G) : Hittable K G :=
  { hit := ConstantMedium.hit env m
    bounding_box := m.boundary.bounding_box
    pdf_value := Hittable.base_pdf_value
    random := Hittable.base_random }

/-! ## Nestings of wrappers, and the scenes of the claims -/

/-- A wrapper of an intersectable: `translate` by an offset or `rotate_y` by an angle. -/
inductive Wrapper (K : Type) where
  | translate (offset : Vec3 K) : Wrapper K
  | rotate_y (angle : K) : Wrapper K

/-- The object wrapped in one wrapper. -/
def Wrapper.wrap (env : Env K G) : Wrapper K → Hittable K G → Hittable K G
  | Wrapper.translate offset, object => PathTracer.translate object offset
  | Wrapper.rotate_y angle, object => PathTracer.rotate_y env object angle

/-- The ray that a wrapper passes to the object it wraps: `offset_r` of `translate::hit`,
`rotated_r` of `rotate_y::hit`. -/
def Wrapper.object_ray (env : Env K G) : Wrapper K → Ray K → Ray K
  | Wrapper.translate offset, r =>
      { orig := Vec3.sub r.orig offset, dir := r.dir, tm := r.tm }
  | Wrapper.rotate_y angle, r =>
      PathTracer.rotate_y.object_ray (env.sin (degrees_to_radians env angle))
        (env.cos (degrees_to_radians env angle)) r

/-- The object wrapped in the wrappers of a list, the first of the list outermost. -/
def Wrapper.wrap_all (env : Env K G) (ws : List (Wrapper K)) (object : Hittable K G) :
    Hittable K G :=
  ws.foldr (Wrapper.wrap env) object

/-- The object-space ray: the world-space ray passed through the wrappers of the list, from
the outermost inwards. -/
def Wrapper.object_ray_all (env : Env K G) (ws : List (Wrapper K)) (r : Ray K) : Ray K :=
  ws.foldl (fun r w => Wrapper.object_ray env w r) r

/-- The cells that the log says were written hold the value of their pixel: the cell `k`
of the frame buffer holds the value that `render_thread` computes for the pixel
`(k % image_width, k / image_width)`, in some state of the generator. -/
def Renderer.cells_hold_pixels
    (sample : Nat → Nat → Nat → Nat → G → Except Fault (Vec3 K) × G) (cam : Camera K G)
    (st : RenderState K G) : Prop :=
  ∀ wk ∈ st.writes, wk.2 < st.frame_buffer.length →
    ∃ g : G, st.frame_buffer[wk.2]? =
      some (Renderer.pixel_value sample cam (wk.2 % cam.image_width) (wk.2 / cam.image_width) g)

end Field

/-! ## A concrete scene over the rationals

The theorems below are stated for every ordered field and every environment; the scene of
this section is the concrete input at which they are evaluated. -/

/-- A rational square root: exact on the squares of rationals. -/
def sqrtQ (x : ℚ) : ℚ := (Nat.sqrt x.num.toNat : ℚ) / (Nat.sqrt x.den : ℚ)

/-- An environment over the rationals, with a fixed stream of random draws. -/
def envQ : Env ℚ Nat :=
  { sqrt := sqrtQ
    pi := 22 / 7
    acos := fun _ => 0
    atan2 := fun _ _ => 0
    cos := fun _ => 1
    sin := fun _ => 0
    log := fun _ => 0
    random_double := fun g => (1 / 4, g + 1)
    random_unit_vector := fun g => (⟨1, 0, 0⟩, g + 1)
    random_int := fun lo _ g => (lo, g + 1)
    random_cosine_direction := fun g => (⟨0, 0, 1⟩, g + 1)
    reflect := fun v n => Vec3.sub v (Vec3.smul (2 * Vec3.dot v n) n)
    refract := fun uv n e =>
      let cos_theta := min (Vec3.dot (Vec3.neg uv) n) 1
      let perp := Vec3.smul e (Vec3.add uv (Vec3.smul cos_theta n))
      let par := Vec3.smul (-(sqrtQ (|1 - Vec3.length_squared perp|))) n
      Vec3.add perp par
    onb_w := fun n => Vec3.div n (sqrtQ (Vec3.length_squared n))
    onb_transform := fun n v => Vec3.add v n
    right_operand_first := true }

/-- The unit sphere at the origin, of material `mat`. -/
def sphereQ (mat : Option (Material ℚ)) : Sphere ℚ := Sphere.mkStationary ⟨0, 0, 0⟩ 1 mat

/-- A ray from `(-2, 0, 0)` along the x axis: it points at the centre of `sphereQ`. -/
def rayQ : Ray ℚ := { orig := ⟨-2, 0, 0⟩, dir := ⟨1, 0, 0⟩, tm := 0 }

/-- The record of the hit of `rayQ` on `sphereQ mat`. -/
def recQ (mat : Option (Material ℚ)) : HitRecord ℚ :=
  { p := ⟨-1, 0, 0⟩, normal := ⟨-1, 0, 0⟩, mat := mat, t := 1, u := 1 / 2, v := 0,
    front_face := true }

/-- A light aggregate that inherits `pdf_value` and `random` from `Hittable`: a translated
sphere. -/
def lightsQ : Hittable ℚ Nat :=
  translate (Sphere.toHittable envQ (Sphere.mkStationary ⟨0, 0, 0⟩ 1 none)) ⟨0, 5, 0⟩

/-- The scene made of the single sphere `sphereQ (some mat)`. -/
def worldQ (mat : Material ℚ) : Hittable ℚ Nat := Sphere.toHittable envQ (sphereQ (some mat))

/-- A ray parallel to `rayQ` that passes above `sphereQ`. -/
def rayMissQ : Ray ℚ := { orig := ⟨-2, 5, 0⟩, dir := ⟨1, 0, 0⟩, tm := 0 }

/-- A grey diffuse material. -/
def greyQ : Material ℚ := Material.Lambertian (SolidColor ⟨1 / 2, 1 / 2, 1 / 2⟩)

/-- The light material of the Cornell box of `main.cpp`. -/
def lightQ : Material ℚ := Material.DiffuseLight (SolidColor ⟨15, 15, 15⟩)

/-- A grey isotropic material. -/
def fogQ : Material ℚ := Material.Isotropic (SolidColor ⟨1 / 2, 1 / 2, 1 / 2⟩)

/-- A perfect mirror: `Metal` with no fuzz. -/
def mirrorQ : Material ℚ := Material.mkMetal ⟨4 / 5, 4 / 5, 4 / 5⟩ 0

/-- What `greyQ` writes into the scatter record at the hit `recQ`. -/
def srecGreyQ : ScatterRecord ℚ Nat :=
  { attenuation := ⟨1 / 2, 1 / 2, 1 / 2⟩, pdf_ptr := some (PDF.CosinePDF ⟨-1, 0, 0⟩),
    skip_pdf := false, skip_pdf_ray := { orig := ⟨0, 0, 0⟩, dir := ⟨0, 0, 0⟩, tm := 0 } }

/-- What `fogQ` writes into the scatter record at the hit `recQ`. -/
def srecFogQ : ScatterRecord ℚ Nat :=
  { attenuation := ⟨1 / 2, 1 / 2, 1 / 2⟩, pdf_ptr := some PDF.SpherePDF,
    skip_pdf := false, skip_pdf_ray := { orig := ⟨0, 0, 0⟩, dir := ⟨0, 0, 0⟩, tm := 0 } }

/-- What `mirrorQ` writes into the scatter record at the hit `recQ` of `rayQ`: the ray is
sent back where it came from. -/
def srecMirrorQ : ScatterRecord ℚ Nat :=
  { attenuation := ⟨4 / 5, 4 / 5, 4 / 5⟩, pdf_ptr := none, skip_pdf := true,
    skip_pdf_ray := { orig := ⟨-1, 0, 0⟩, dir := ⟨-1, 0, 0⟩, tm := 0 } }

/-- A ray that starts inside `sphereQ`, at distance `1/2` from its centre, and points at
the centre with a direction of length 1. -/
def rayInsideQ : Ray ℚ := { orig := ⟨-1 / 2, 0, 0⟩, dir := ⟨1, 0, 0⟩, tm := 0 }

/-- A list of two light aggregates. -/
def lightListQ : HittableList ℚ Nat := (HittableList.init.add lightsQ).add lightsQ

/-- The unit square of the plane `z = 0`, with corner at the origin. -/
def quadQ (mat : Option (Material ℚ)) : Quad ℚ :=
  Quad.make envQ ⟨0, 0, 0⟩ ⟨1, 0, 0⟩ ⟨0, 1, 0⟩ mat

/-- A ray that falls on the plane `z = 0` at the point `(x, y, 0)` with parameter 1. -/
def rayDownQ (x y : ℚ) : Ray ℚ := { orig := ⟨x, y, 1⟩, dir := ⟨0, 0, -1⟩, tm := 0 }

/-- A camera with a white background and a 4 x 3 image, one sample per pixel; every camera
ray is `rayQ`. -/
def camQ : Camera ℚ Nat :=
  { image_width := 4, image_height := 3, sqrt_spp := 1, max_depth := 2,
    pixel_samples_scale := 1, background := ⟨1, 1, 1⟩,
    get_ray := fun _ _ _ _ g => (rayQ, g + 1) }

/-- The record of the hit of `rayDownQ x y` on `quadQ mat`. -/
def recQuadQ (mat : Option (Material ℚ)) (x y : ℚ) : HitRecord ℚ :=
  { p := ⟨x, y, 0⟩, normal := ⟨0, 0, 1⟩, mat := mat, t := 1, u := x, v := y,
    front_face := true }

/-- A list of a sphere and a quad: `sphereQ` and `quadQ`. -/
def primsQ : List (Prim ℚ) :=
  [Prim.sphere (sphereQ (some greyQ)), Prim.quad (quadQ (some lightQ))]

/-- A sample whose colour is a fixed function of the pixel and of the sub-sample indices;
every sample advances the generator. -/
def sampleQ (i j s_i s_j : Nat) (g : Nat) : Except Fault (Vec3 ℚ) × Nat :=
  (Except.ok ⟨(i : ℚ), (j : ℚ), (s_i : ℚ) + (s_j : ℚ)⟩, g + 1)

/-- Two intersectables with different boxes: `sphereQ` and the translated sphere. -/
def objsQ : List (Hittable ℚ Nat) := [Sphere.toHittable envQ (sphereQ none), lightsQ]

/-- The unit cube: the three extents are equal. -/
def cubeQ : AABB ℚ :=
  { x := { min := Ext.fin 0, max := Ext.fin 1 }
    y := { min := Ext.fin 0, max := Ext.fin 1 }
    z := { min := Ext.fin 0, max := Ext.fin 1 } }

/-- A flat box: the `z` interval has size 0. -/
def flatQ : AABB ℚ :=
  { x := { min := Ext.fin 0, max := Ext.fin 3 }
    y := { min := Ext.fin 0, max := Ext.fin 2 }
    z := { min := Ext.fin 1, max := Ext.fin 1 } }

/-- An environment whose cosine and sine are those of an angle of the 3-4-5 triangle. -/
def envRotQ : Env ℚ Nat := { envQ with cos := fun _ => 3 / 5, sin := fun _ => 4 / 5 }

/-- The sphere `sphereQ`, rotated and then translated by `(0, 5, 0)`. -/
def wrappedQ : Hittable ℚ Nat :=
  translate (rotate_y envRotQ (Sphere.toHittable envRotQ (sphereQ (some greyQ))) 30) ⟨0, 5, 0⟩

/-- The world-space ray whose object-space ray, for `wrappedQ`, is `rayQ`. -/
def rayWrappedQ : Ray ℚ := { orig := ⟨-6 / 5, 5, 8 / 5⟩, dir := ⟨3 / 5, 0, -4 / 5⟩, tm := 0 }

/-- The record of the hit of `rayWrappedQ` on `wrappedQ`. -/
def recWrappedQ : HitRecord ℚ :=
  { p := ⟨-3 / 5, 5, 4 / 5⟩, normal := ⟨-3 / 5, 0, 4 / 5⟩, mat := some greyQ, t := 1,
    u := 1 / 2, v := 0, front_face := true }

/-- The integer nearest to `q`; of two nearest integers, the even one. -/
def roundHalfEven (q : ℚ) : ℤ :=
  let f := q.floor
  if q - f < 1 / 2 then f
  else if 1 / 2 < q - f then f + 1
  else if f % 2 = 0 then f else f + 1

/-- The number of halvings that bring `n` below 2, which is the position of the leading
binary digit of `n`; the first argument bounds the number of steps. -/
def leadingBit : Nat → Nat → Nat
  | 0, _ => 0
  | steps + 1, n => if n < 2 then 0 else leadingBit steps (n / 2) + 1

/-- The exponent `e` of a non-zero rational `q`: `2 ^ e <= |q| < 2 ^ (e + 1)`. -/
def binaryExponent (q : ℚ) : ℤ :=
  let e0 : ℤ := (leadingBit q.num.natAbs q.num.natAbs : ℤ) - (leadingBit q.den q.den : ℤ)
  if (2 : ℚ) ^ e0 ≤ |q| then e0 else e0 - 1

/-- The `double` nearest to the rational `q`, a tie going to the even significand (IEEE 754
binary64, round to nearest even): 53 significant bits, the last of them of exponent no less
than `-1074`. It is the rounding of every arithmetic result of the machine, as long as the
result does not overflow. -/
def binary64 (q : ℚ) : ℚ :=
  if q = 0 then 0
  else
    let e := max (binaryExponent q - 52) (-1074)
    (roundHalfEven (q / 2 ^ e) : ℚ) * 2 ^ e

section Field

variable {K G : Type} [LinearOrderedField K]

/-! ## The order of extended bounds -/

theorem Ext.fin_lt_fin (a b : K) : (Ext.fin a < Ext.fin b) ↔ a < b := Iff.rfl

theorem Ext.fin_lt_pinf (a : K) : (Ext.fin a < (Ext.pinf : Ext K)) ↔ True := Iff.rfl

theorem Ext.lt_ninf (a : Ext K) : (a < (Ext.ninf : Ext K)) ↔ False := by
  cases a <;> exact Iff.rfl

/-! ## Unfolding the estimator along each of its return statements -/

theorem path_tracing_exhausted (env : Env K G) (world lights : Hittable K G) (cam : Camera K G)
    (r : Ray K) (depth : Int) (g : G) (hd : depth ≤ 0) :
    path_tracing env world lights cam r depth g =
      { value := Except.ok Vec3.zero, rng := g,
        cost := { calls := 1, hits := 0, samples := 0, divisions := 0 } } := by
  rw [path_tracing, if_pos hd]

theorem path_tracing_miss (env : Env K G) (world lights : Hittable K G) (cam : Camera K G)
    (r : Ray K) (depth : Int) (g g1 : G) (hd : 1 ≤ depth)
    (hmiss : world.hit r estimator_range HitRecord.init g = (none, g1)) :
    path_tracing env world lights cam r depth g =
      { value := Except.ok cam.background, rng := g1,
        cost := { calls := 1, hits := 1, samples := 0, divisions := 0 } } := by
  rw [path_tracing, if_neg (by omega)]
  simp only [hmiss]

theorem path_tracing_null_material (env : Env K G) (world lights : Hittable K G)
    (cam : Camera K G) (r : Ray K) (depth : Int) (g g1 : G) (rec : HitRecord K) (hd : 1 ≤ depth)
    (hhit : world.hit r estimator_range HitRecord.init g = (some rec, g1))
    (hmat : rec.mat = none) :
    path_tracing env world lights cam r depth g =
      { value := Except.error Fault.null_material, rng := g1,
        cost := { calls := 1, hits := 1, samples := 0, divisions := 0 } } := by
  rw [path_tracing, if_neg (by omega)]
  simp only [hhit, hmat]

theorem path_tracing_no_scatter (env : Env K G) (world lights : Hittable K G)
    (cam : Camera K G) (r : Ray K) (depth : Int) (g g1 g2 : G) (rec : HitRecord K)
    (mat : Material K) (hd : 1 ≤ depth)
    (hhit : world.hit r estimator_range HitRecord.init g = (some rec, g1))
    (hmat : rec.mat = some mat)
    (hsc : mat.scatter env r rec g1 = (none, g2)) :
    path_tracing env world lights cam r depth g =
      { value := Except.ok (mat.emitted r rec rec.u rec.v rec.p), rng := g2,
        cost := { calls := 1, hits := 1, samples := 0, divisions := 0 } } := by
  rw [path_tracing, if_neg (by omega)]
  simp only [hhit, hmat, hsc]

theorem path_tracing_skip_pdf (env : Env K G) (world lights : Hittable K G)
    (cam : Camera K G) (r : Ray K) (depth : Int) (g g1 g2 : G) (rec : HitRecord K)
    (mat : Material K) (srec : ScatterRecord K G) (hd : 1 ≤ depth)
    (hhit : world.hit r estimator_range HitRecord.init g = (some rec, g1))
    (hmat : rec.mat = some mat)
    (hsc : mat.scatter env r rec g1 = (some srec, g2))
    (hskip : srec.skip_pdf = true) :
    path_tracing env world lights cam r depth g =
      { value := (path_tracing env world lights cam srec.skip_pdf_ray (depth - 1) g2).value.map
          (fun c => Vec3.mul srec.attenuation c),
        rng := (path_tracing env world lights cam srec.skip_pdf_ray (depth - 1) g2).rng,
        cost :=
          { calls := (path_tracing env world lights cam srec.skip_pdf_ray (depth - 1) g2).cost.calls + 1,
            hits := (path_tracing env world lights cam srec.skip_pdf_ray (depth - 1) g2).cost.hits + 1,
            samples := (path_tracing env world lights cam srec.skip_pdf_ray (depth - 1) g2).cost.samples,
            divisions :=
              (path_tracing env world lights cam srec.skip_pdf_ray (depth - 1) g2).cost.divisions } } := by
  rw [path_tracing, if_neg (by omega)]
  simp only [hhit, hmat, hsc, hskip, if_true]

theorem path_tracing_null_pdf (env : Env K G) (world lights : Hittable K G)
    (cam : Camera K G) (r : Ray K) (depth : Int) (g g1 g2 : G) (rec : HitRecord K)
    (mat : Material K) (srec : ScatterRecord K G) (hd : 1 ≤ depth)
    (hhit : world.hit r estimator_range HitRecord.init g = (some rec, g1))
    (hmat : rec.mat = some mat)
    (hsc : mat.scatter env r rec g1 = (some srec, g2))
    (hskip : srec.skip_pdf = false) (hq : srec.pdf_ptr = none) :
    path_tracing env world lights cam r depth g =
      { value := Except.error Fault.null_pdf, rng := g2,
        cost := { calls := 1, hits := 1, samples := 0, divisions := 0 } } := by
  rw [path_tracing, if_neg (by omega)]
  simp [hhit, hmat, hsc, hskip, hq]

theorem path_tracing_mixture (env : Env K G) (world lights : Hittable K G)
    (cam : Camera K G) (r : Ray K) (depth : Int) (g g1 g2 : G) (rec : HitRecord K)
    (mat : Material K) (srec : ScatterRecord K G) (q : PDF K G) (hd : 1 ≤ depth)
    (hhit : world.hit r estimator_range HitRecord.init g = (some rec, g1))
    (hmat : rec.mat = some mat)
    (hsc : mat.scatter env r rec g1 = (some srec, g2))
    (hskip : srec.skip_pdf = false) (hq : srec.pdf_ptr = some q) :
    path_tracing env world lights cam r depth g =
      { value :=
          (path_tracing env world lights cam
              { orig := rec.p, dir := (PDF.generate env (estimator_mixture lights rec.p q) g2).1,
                tm := r.tm } (depth - 1)
              (PDF.generate env (estimator_mixture lights rec.p q) g2).2).value.bind
            (fun sample_color =>
              (Vec3.divGuarded
                (Vec3.mul
                  (Vec3.smul
                    (mat.scattering_pdf env r rec
                      { orig := rec.p,
                        dir := (PDF.generate env (estimator_mixture lights rec.p q) g2).1,
                        tm := r.tm })
                    srec.attenuation)
                  sample_color)
                (PDF.value env (estimator_mixture lights rec.p q)
                  (PDF.generate env (estimator_mixture lights rec.p q) g2).1)).map
                (fun color_from_scatter =>
                  Vec3.add (mat.emitted r rec rec.u rec.v rec.p) color_from_scatter)),
        rng :=
          (path_tracing env world lights cam
              { orig := rec.p, dir := (PDF.generate env (estimator_mixture lights rec.p q) g2).1,
                tm := r.tm } (depth - 1)
              (PDF.generate env (estimator_mixture lights rec.p q) g2).2).rng,
        cost :=
          { calls := (path_tracing env world lights cam
              { orig := rec.p, dir := (PDF.generate env (estimator_mixture lights rec.p q) g2).1,
                tm := r.tm } (depth - 1)
              (PDF.generate env (estimator_mixture lights rec.p q) g2).2).cost.calls + 1,
            hits := (path_tracing env world lights cam
              { orig := rec.p, dir := (PDF.generate env (estimator_mixture lights rec.p q) g2).1,
                tm := r.tm } (depth - 1)
              (PDF.generate env (estimator_mixture lights rec.p q) g2).2).cost.hits + 1,
            samples := (path_tracing env world lights cam
              { orig := rec.p, dir := (PDF.generate env (estimator_mixture lights rec.p q) g2).1,
                tm := r.tm } (depth - 1)
              (PDF.generate env (estimator_mixture lights rec.p q) g2).2).cost.samples + 1,
            divisions := (path_tracing env world lights cam
              { orig := rec.p, dir := (PDF.generate env (estimator_mixture lights rec.p q) g2).1,
                tm := r.tm } (depth - 1)
              (PDF.generate env (estimator_mixture lights rec.p q) g2).2).cost.divisions + 1 } } := by
  rw [path_tracing, if_neg (by omega)]
  simp [hhit, hmat, hsc, hskip, hq]

/-- `Metal::scatter` always returns `true` with `skip_pdf = true` and the albedo as
attenuation. -/
theorem Material.scatter_Metal (env : Env K G) (albedo : Vec3 K) (fuzz : K) (r : Ray K)
    (rec : HitRecord K) (g : G) :
    ∃ srec g2, (Material.Metal albedo fuzz).scatter env r rec g = (some srec, g2) ∧
      srec.skip_pdf = true ∧ srec.attenuation = albedo :=
  ⟨_, _, rfl, rfl, rfl⟩

/-- `Dielectric::scatter` always returns `true` with `skip_pdf = true` and a white
attenuation. -/
theorem Material.scatter_Dielectric (env : Env K G) (ri : K) (r : Ray K)
    (rec : HitRecord K) (g : G) :
    ∃ srec g2, (Material.Dielectric ri).scatter env r rec g = (some srec, g2) ∧
      srec.skip_pdf = true ∧ srec.attenuation = ⟨1, 1, 1⟩ := by
  simp only [Material.scatter]
  split_ifs <;> exact ⟨_, _, rfl, rfl, rfl⟩

/-- Every material that scatters without `skip_pdf` supplies a density: `pdf_ptr` is not
null. -/
theorem Material.scatter_pdf_ptr (env : Env K G) (mat : Material K) (r : Ray K)
    (rec : HitRecord K) (g g2 : G) (srec : ScatterRecord K G)
    (hsc : mat.scatter env r rec g = (some srec, g2)) (hskip : srec.skip_pdf = false) :
    ∃ q, srec.pdf_ptr = some q := by
  cases mat with
  | base => simp [Material.scatter] at hsc
  | DiffuseLight tex => simp [Material.scatter] at hsc
  | Lambertian tex =>
      simp only [Material.scatter, Prod.mk.injEq, Option.some.injEq] at hsc
      exact ⟨PDF.CosinePDF rec.normal, by rw [← hsc.1]⟩
  | Isotropic tex =>
      simp only [Material.scatter, Prod.mk.injEq, Option.some.injEq] at hsc
      exact ⟨PDF.SpherePDF, by rw [← hsc.1]⟩
  | Metal albedo fuzz =>
      simp only [Material.scatter, Prod.mk.injEq, Option.some.injEq] at hsc
      rw [← hsc.1] at hskip
      simp at hskip
  | Dielectric ri =>
      obtain ⟨s1, g3, h1, h2, _⟩ := Material.scatter_Dielectric env ri r rec g
      rw [h1] at hsc
      simp only [Prod.mk.injEq, Option.some.injEq] at hsc
      rw [← hsc.1, h2] at hskip
      simp at hskip

theorem path_tracing_cost_bound (env : Env K G) (world lights : Hittable K G) (cam : Camera K G)
    (n : Nat) : ∀ (depth : Int) (r : Ray K) (g : G), depth.toNat = n →
      (path_tracing env world lights cam r depth g).cost.hits ≤ n ∧
      (path_tracing env world lights cam r depth g).cost.calls ≤ n + 1 := by
  induction n with
  | zero =>
      intro depth r g h
      have hd : depth ≤ 0 := by omega
      rw [path_tracing_exhausted env world lights cam r depth g hd]
      simp
  | succ k ih =>
      intro depth r g h
      have hd : 1 ≤ depth := by omega
      have hk : (depth - 1).toNat = k := by omega
      rcases hhit : world.hit r estimator_range HitRecord.init g with ⟨_ | rec, g1⟩
      · rw [path_tracing_miss env world lights cam r depth g g1 hd hhit]
        simp
      · rcases hmat : rec.mat with _ | mat
        · rw [path_tracing_null_material env world lights cam r depth g g1 rec hd hhit hmat]
          simp
        · rcases hsc : mat.scatter env r rec g1 with ⟨_ | srec, g2⟩
          · rw [path_tracing_no_scatter env world lights cam r depth g g1 g2 rec mat hd hhit
              hmat hsc]
            simp
          · by_cases hskip : srec.skip_pdf = true
            · rw [path_tracing_skip_pdf env world lights cam r depth g g1 g2 rec mat srec hd
                hhit hmat hsc hskip]
              have := ih (depth - 1) srec.skip_pdf_ray g2 hk
              simp only
              omega
            · have hskip2 : srec.skip_pdf = false := by simpa using hskip
              obtain ⟨q, hq⟩ := Material.scatter_pdf_ptr env mat r rec g1 g2 srec hsc hskip2
              rw [path_tracing_mixture env world lights cam r depth g g1 g2 rec mat srec q hd
                hhit hmat hsc hskip2 hq]
              have := ih (depth - 1) { orig := rec.p, dir := (PDF.generate env (estimator_mixture lights rec.p q) g2).1, tm := r.tm } (PDF.generate env (estimator_mixture lights rec.p q) g2).2 hk
              simp only
              omega

end Field

/-! ## Evaluation of the concrete scene -/

theorem sqrtQ_one : sqrtQ 1 = 1 := by simp [sqrtQ]

theorem sqrtQ_zero : sqrtQ 0 = 0 := by simp [sqrtQ]

theorem sphereQ_discriminant (mat : Option (Material ℚ)) :
    Sphere.discriminant (sphereQ mat) rayQ = 1 := by
  simp [Sphere.discriminant, Sphere.center, sphereQ, Sphere.mkStationary, rayQ, Vec3.sub,
    Vec3.dot, Vec3.length_squared]

theorem sphereQ_find_root (mat : Option (Material ℚ)) :
    Sphere.find_root envQ (sphereQ mat) rayQ estimator_range = some 1 := by
  have hsq : envQ.sqrt 1 = 1 := sqrtQ_one
  simp only [Sphere.find_root, sphereQ_discriminant, hsq]
  simp [Sphere.center, sphereQ, Sphere.mkStationary, rayQ, Vec3.sub, Vec3.dot,
    Vec3.length_squared, Interval.surrounds, estimator_range, Ext.fin_lt_fin, Ext.fin_lt_pinf]
  norm_num

theorem sphereQ_hit (mat : Option (Material ℚ)) (rec : HitRecord ℚ) :
    Sphere.hit envQ (sphereQ mat) rayQ estimator_range rec = some (recQ mat) := by
  simp only [Sphere.hit, sphereQ_find_root]
  simp [Sphere.center, sphereQ, Sphere.mkStationary, rayQ, Vec3.sub, HitRecord.set_face_normal,
    Ray.at, Vec3.add, Vec3.smul, Vec3.div, Vec3.dot, Vec3.neg, Sphere.get_sphere_uv, envQ, recQ]
  norm_num

theorem worldQ_hit (mat : Material ℚ) (g : Nat) :
    (worldQ mat).hit rayQ estimator_range HitRecord.init g = (some (recQ (some mat)), g) := by
  simp only [worldQ, Sphere.toHittable, sphereQ_hit]

theorem worldQ_miss (mat : Material ℚ) (g : Nat) :
    (worldQ mat).hit rayMissQ estimator_range HitRecord.init g = (none, g) := by
  have hdisc : Sphere.discriminant (sphereQ (some mat)) rayMissQ = -24 := by
    simp [Sphere.discriminant, Sphere.center, sphereQ, Sphere.mkStationary, rayMissQ, Vec3.sub,
      Vec3.dot, Vec3.length_squared]
    norm_num
  simp [worldQ, Sphere.toHittable, Sphere.hit, Sphere.find_root, hdisc]

theorem lightsQ_generate (p : Vec3 ℚ) (q : PDF ℚ Nat) (g : Nat) :
    PDF.generate envQ (estimator_mixture lightsQ p q) g = (⟨1, 0, 0⟩, g + 1) := by
  have h : ((1 : ℚ) / 4 < 0.5) := by norm_num
  simp [estimator_mixture, PDF.generate, envQ, lightsQ, translate, Hittable.base_random]
  norm_num

theorem lightsQ_density_cosine :
    PDF.value envQ (estimator_mixture lightsQ ⟨-1, 0, 0⟩ (PDF.CosinePDF ⟨-1, 0, 0⟩)) ⟨1, 0, 0⟩
      = 0 := by
  have hsq : envQ.sqrt 1 = 1 := sqrtQ_one
  simp [estimator_mixture, PDF.value, lightsQ, translate, Hittable.base_pdf_value, unit_vector,
    Vec3.length, Vec3.length_squared, hsq, Vec3.div, Vec3.dot]
  simp [envQ, sqrtQ_one, Vec3.div, Vec3.length_squared]
  norm_num

theorem greyQ_scatter (r : Ray ℚ) (g : Nat) (mat : Option (Material ℚ)) :
    greyQ.scatter envQ r (recQ mat) g = (some srecGreyQ, g) := by
  simp [greyQ, Material.scatter, srecGreyQ, recQ, SolidColor, ScatterRecord.init, Vec3.zero]

theorem fogQ_scatter (r : Ray ℚ) (g : Nat) (rec : HitRecord ℚ) :
    fogQ.scatter envQ r rec g = (some srecFogQ, g) := by
  simp [fogQ, Material.scatter, srecFogQ, SolidColor, ScatterRecord.init, Vec3.zero]

theorem mirrorQ_scatter (g : Nat) (mat : Option (Material ℚ)) :
    mirrorQ.scatter envQ rayQ (recQ mat) g = (some srecMirrorQ, g + 1) := by
  have hsq : envQ.sqrt 1 = 1 := sqrtQ_one
  have hr : envQ.reflect ⟨1, 0, 0⟩ ⟨-1, 0, 0⟩ = ⟨-1, 0, 0⟩ := by
    simp [envQ, Vec3.sub, Vec3.smul, Vec3.dot]
    norm_num
  have hv : envQ.random_unit_vector g = (⟨1, 0, 0⟩, g + 1) := rfl
  simp [mirrorQ, Material.mkMetal, Material.scatter, srecMirrorQ, recQ, rayQ, hr, hv, unit_vector,
    Vec3.length, Vec3.length_squared, hsq, Vec3.div, Vec3.add, Vec3.smul]

/-! ## Colours that stay non-negative -/

section Field

variable {K G : Type} [LinearOrderedField K]

theorem Vec3.nonneg_zero : (Vec3.zero : Vec3 K).nonneg := ⟨le_refl _, le_refl _, le_refl _⟩

theorem Vec3.nonneg_add {a b : Vec3 K} (ha : a.nonneg) (hb : b.nonneg) :
    (Vec3.add a b).nonneg :=
  ⟨add_nonneg ha.1 hb.1, add_nonneg ha.2.1 hb.2.1, add_nonneg ha.2.2 hb.2.2⟩

theorem Vec3.nonneg_mul {a b : Vec3 K} (ha : a.nonneg) (hb : b.nonneg) :
    (Vec3.mul a b).nonneg :=
  ⟨mul_nonneg ha.1 hb.1, mul_nonneg ha.2.1 hb.2.1, mul_nonneg ha.2.2 hb.2.2⟩

theorem Vec3.nonneg_smul {t : K} {a : Vec3 K} (ht : 0 ≤ t) (ha : a.nonneg) :
    (Vec3.smul t a).nonneg :=
  ⟨mul_nonneg ht ha.1, mul_nonneg ht ha.2.1, mul_nonneg ht ha.2.2⟩

theorem Vec3.nonneg_div {t : K} {a : Vec3 K} (ha : a.nonneg) (ht : 0 ≤ t) :
    (Vec3.div a t).nonneg :=
  ⟨div_nonneg ha.1 ht, div_nonneg ha.2.1 ht, div_nonneg ha.2.2 ht⟩

/-! ## The radiance estimator: claims C1 to C7 -/

/-- C2. With `depth <= 0` the estimator returns black, leaves the random generator as it
found it and does not query the world (no hit query, no sample, no division). -/
theorem path_tracing_depth_zero (env : Env K G) (world lights : Hittable K G)
    (cam : Camera K G) (r : Ray K) (depth : Int) (g : G) (hd : depth ≤ 0) :
    path_tracing env world lights cam r depth g =
      { value := Except.ok ⟨0, 0, 0⟩, rng := g,
        cost := { calls := 1, hits := 0, samples := 0, divisions := 0 } } := by
  rw [path_tracing, if_pos hd]
  rfl

/-- C3. The estimator is a total function, and for every depth, scene and generator state
one run queries `world.hit` at most `depth` times and is a chain of at most `depth`
recursive calls after the first one (for a negative depth: none). -/
theorem path_tracing_terminates (env : Env K G) (world lights : Hittable K G)
    (cam : Camera K G) (r : Ray K) (depth : Int) (g : G) :
    (path_tracing env world lights cam r depth g).cost.hits ≤ depth.toNat ∧
    (path_tracing env world lights cam r depth g).cost.calls ≤ depth.toNat + 1 :=
  path_tracing_cost_bound env world lights cam depth.toNat depth r g rfl

/-- C4. With `depth >= 1`, when `world.hit` reports no intersection the estimator returns
the background colour of the camera, whatever the lights are, and draws nothing. -/
theorem path_tracing_background (env : Env K G) (world lights : Hittable K G)
    (cam : Camera K G) (r : Ray K) (depth : Int) (g g1 : G) (hd : 1 ≤ depth)
    (hmiss : world.hit r estimator_range HitRecord.init g = (none, g1)) :
    path_tracing env world lights cam r depth g =
      { value := Except.ok cam.background, rng := g1,
        cost := { calls := 1, hits := 1, samples := 0, divisions := 0 } } := by
  rw [path_tracing, if_neg (by omega)]
  simp only [hmiss]

/-- C5. With `depth >= 1`, a hit on a `DiffuseLight` returns the texture value at
`(rec.u, rec.v, rec.p)` on the front face and black on the back face, in a single
invocation (no recursive call); `DiffuseLight::scatter` always returns `false`. -/
theorem path_tracing_diffuse_light (env : Env K G) (world lights : Hittable K G)
    (cam : Camera K G) (r : Ray K) (depth : Int) (g g1 : G) (rec : HitRecord K)
    (tex : Texture K) (hd : 1 ≤ depth)
    (hhit : world.hit r estimator_range HitRecord.init g = (some rec, g1))
    (hmat : rec.mat = some (Material.DiffuseLight tex)) :
    path_tracing env world lights cam r depth g =
      { value := Except.ok (if rec.front_face then tex rec.u rec.v rec.p else ⟨0, 0, 0⟩),
        rng := g1,
        cost := { calls := 1, hits := 1, samples := 0, divisions := 0 } } ∧
    ∀ (r2 : Ray K) (rec2 : HitRecord K) (g3 : G),
      (Material.DiffuseLight tex).scatter env r2 rec2 g3 = (none, g3) := by
  refine ⟨?_, fun _ _ _ => rfl⟩
  rw [path_tracing_no_scatter env world lights cam r depth g g1 g1 rec
    (Material.DiffuseLight tex) hd hhit hmat rfl]
  cases hff : rec.front_face <;> simp [Material.emitted, hff, Vec3.zero]

/-- C6. With `depth >= 1`, when the scatter of the hit material succeeds with
`skip_pdf = true` the estimator returns `srec.attenuation * path_tracing(srec.skip_pdf_ray,
depth - 1)` component-wise: the emission is not added, and the run samples no PDF and
divides by no density beyond what the recursive call does. `Metal::scatter` and
`Dielectric::scatter` always succeed with `skip_pdf = true`. -/
theorem path_tracing_specular (env : Env K G) (world lights : Hittable K G)
    (cam : Camera K G) (r : Ray K) (depth : Int) (g g1 g2 : G) (rec : HitRecord K)
    (mat : Material K) (srec : ScatterRecord K G) (hd : 1 ≤ depth)
    (hhit : world.hit r estimator_range HitRecord.init g = (some rec, g1))
    (hmat : rec.mat = some mat)
    (hsc : mat.scatter env r rec g1 = (some srec, g2))
    (hskip : srec.skip_pdf = true) :
    ((path_tracing env world lights cam r depth g).value =
        (path_tracing env world lights cam srec.skip_pdf_ray (depth - 1) g2).value.map
          (fun c => Vec3.mul srec.attenuation c)) ∧
    ((path_tracing env world lights cam r depth g).cost.samples =
        (path_tracing env world lights cam srec.skip_pdf_ray (depth - 1) g2).cost.samples) ∧
    ((path_tracing env world lights cam r depth g).cost.divisions =
        (path_tracing env world lights cam srec.skip_pdf_ray (depth - 1) g2).cost.divisions) ∧
    (∀ (albedo : Vec3 K) (fuzz : K) (r2 : Ray K) (rec2 : HitRecord K) (g3 : G),
      ∃ s g4, (Material.Metal albedo fuzz).scatter env r2 rec2 g3 = (some s, g4) ∧
        s.skip_pdf = true) ∧
    (∀ (ri : K) (r2 : Ray K) (rec2 : HitRecord K) (g3 : G),
      ∃ s g4, (Material.Dielectric ri).scatter env r2 rec2 g3 = (some s, g4) ∧
        s.skip_pdf = true) := by
  rw [path_tracing_skip_pdf env world lights cam r depth g g1 g2 rec mat srec hd hhit hmat hsc
    hskip]
  refine ⟨rfl, rfl, rfl, ?_, ?_⟩
  · intro albedo fuzz r2 rec2 g3
    obtain ⟨s, g4, h1, h2, _⟩ := Material.scatter_Metal env albedo fuzz r2 rec2 g3
    exact ⟨s, g4, h1, h2⟩
  · intro ri r2 rec2 g3
    obtain ⟨s, g4, h1, h2, _⟩ := Material.scatter_Dielectric env ri r2 rec2 g3
    exact ⟨s, g4, h1, h2⟩

/-- The induction behind C7, on the number of bounces left. -/
theorem path_tracing_nonneg_aux (env : Env K G) (world lights : Hittable K G)
    (cam : Camera K G) (hbg : cam.background.nonneg)
    (hscene : ∀ (r : Ray K) (g g1 : G) (rec : HitRecord K),
      world.hit r estimator_range HitRecord.init g = (some rec, g1) →
      ∃ mat, rec.mat = some mat ∧ (mat.emitted r rec rec.u rec.v rec.p).nonneg ∧
        ∀ (srec : ScatterRecord K G) (g2 : G), mat.scatter env r rec g1 = (some srec, g2) →
          srec.attenuation.nonneg ∧
          ∀ q, srec.skip_pdf = false → srec.pdf_ptr = some q →
            0 ≤ mat.scattering_pdf env r rec
              { orig := rec.p, dir := (PDF.generate env (estimator_mixture lights rec.p q) g2).1,
                tm := r.tm } ∧
            0 < PDF.value env (estimator_mixture lights rec.p q)
              (PDF.generate env (estimator_mixture lights rec.p q) g2).1)
    (n : Nat) : ∀ (depth : Int) (r : Ray K) (g : G), depth.toNat = n →
      ∃ c, (path_tracing env world lights cam r depth g).value = Except.ok c ∧ c.nonneg := by
  induction n with
  | zero =>
      intro depth r g h
      have hd : depth ≤ 0 := by omega
      rw [path_tracing_exhausted env world lights cam r depth g hd]
      exact ⟨_, rfl, Vec3.nonneg_zero⟩
  | succ k ih =>
      intro depth r g h
      have hd : 1 ≤ depth := by omega
      have hk : (depth - 1).toNat = k := by omega
      rcases hhit : world.hit r estimator_range HitRecord.init g with ⟨_ | rec, g1⟩
      · rw [path_tracing_miss env world lights cam r depth g g1 hd hhit]
        exact ⟨_, rfl, hbg⟩
      · obtain ⟨mat, hmat, hem, hsrec⟩ := hscene r g g1 rec hhit
        rcases hsc : mat.scatter env r rec g1 with ⟨_ | srec, g2⟩
        · rw [path_tracing_no_scatter env world lights cam r depth g g1 g2 rec mat hd hhit
            hmat hsc]
          exact ⟨_, rfl, hem⟩
        · obtain ⟨hatt, hpdf⟩ := hsrec srec g2 hsc
          by_cases hskip : srec.skip_pdf = true
          · rw [path_tracing_skip_pdf env world lights cam r depth g g1 g2 rec mat srec hd
              hhit hmat hsc hskip]
            obtain ⟨c, hc, hcn⟩ := ih (depth - 1) srec.skip_pdf_ray g2 hk
            refine ⟨Vec3.mul srec.attenuation c, ?_, Vec3.nonneg_mul hatt hcn⟩
            simp only [hc]
            rfl
          · have hskip2 : srec.skip_pdf = false := by simpa using hskip
            obtain ⟨q, hq⟩ := Material.scatter_pdf_ptr env mat r rec g1 g2 srec hsc hskip2
            obtain ⟨hsp, hden⟩ := hpdf q hskip2 hq
            rw [path_tracing_mixture env world lights cam r depth g g1 g2 rec mat srec q hd
              hhit hmat hsc hskip2 hq]
            obtain ⟨c, hc, hcn⟩ := ih (depth - 1)
              { orig := rec.p, dir := (PDF.generate env (estimator_mixture lights rec.p q) g2).1,
                tm := r.tm }
              (PDF.generate env (estimator_mixture lights rec.p q) g2).2 hk
            refine ⟨_, ?_, Vec3.nonneg_add hem
              (Vec3.nonneg_div (Vec3.nonneg_mul (Vec3.nonneg_smul hsp hatt) hcn) hden.le)⟩
            simp only [hc, Vec3.divGuarded, if_neg hden.ne.symm]
            rfl

/-- C7. If the background, every emitted colour and every attenuation are component-wise
non-negative, every scattering_pdf value at a sampled direction is non-negative and the
mixture density at every sampled direction is positive (every hit carrying a material),
then for every ray, depth and generator state the estimator returns a colour, and that
colour is component-wise non-negative. -/
theorem path_tracing_nonneg (env : Env K G) (world lights : Hittable K G)
    (cam : Camera K G) (hbg : cam.background.nonneg)
    (hscene : ∀ (r : Ray K) (g g1 : G) (rec : HitRecord K),
      world.hit r estimator_range HitRecord.init g = (some rec, g1) →
      ∃ mat, rec.mat = some mat ∧ (mat.emitted r rec rec.u rec.v rec.p).nonneg ∧
        ∀ (srec : ScatterRecord K G) (g2 : G), mat.scatter env r rec g1 = (some srec, g2) →
          srec.attenuation.nonneg ∧
          ∀ q, srec.skip_pdf = false → srec.pdf_ptr = some q →
            0 ≤ mat.scattering_pdf env r rec
              { orig := rec.p, dir := (PDF.generate env (estimator_mixture lights rec.p q) g2).1,
                tm := r.tm } ∧
            0 < PDF.value env (estimator_mixture lights rec.p q)
              (PDF.generate env (estimator_mixture lights rec.p q) g2).1)
    (r : Ray K) (depth : Int) (g : G) :
    ∃ c, (path_tracing env world lights cam r depth g).value = Except.ok c ∧ c.nonneg :=
  path_tracing_nonneg_aux env world lights cam hbg hscene depth.toNat depth r g rfl

/-- C1, as the code has it. With `depth >= 1`, when the scatter of the hit material
succeeds with `skip_pdf = false` and the mixture density at the sampled direction is 0, the
estimator still makes its recursive call and then divides by the zero density: it does not
return the emission term, and its result is no colour at all (a division-by-zero fault,
unless the recursive call already failed). -/
theorem path_tracing_zero_density (env : Env K G) (world lights : Hittable K G)
    (cam : Camera K G) (r : Ray K) (depth : Int) (g g1 g2 : G) (rec : HitRecord K)
    (mat : Material K) (srec : ScatterRecord K G) (q : PDF K G) (hd : 1 ≤ depth)
    (hhit : world.hit r estimator_range HitRecord.init g = (some rec, g1))
    (hmat : rec.mat = some mat)
    (hsc : mat.scatter env r rec g1 = (some srec, g2))
    (hskip : srec.skip_pdf = false) (hq : srec.pdf_ptr = some q)
    (hzero : PDF.value env (estimator_mixture lights rec.p q)
      (PDF.generate env (estimator_mixture lights rec.p q) g2).1 = 0) :
    (∀ c, (path_tracing env world lights cam r depth g).value ≠ Except.ok c) ∧
    (path_tracing env world lights cam r depth g).value =
      (path_tracing env world lights cam
        { orig := rec.p, dir := (PDF.generate env (estimator_mixture lights rec.p q) g2).1,
          tm := r.tm } (depth - 1)
        (PDF.generate env (estimator_mixture lights rec.p q) g2).2).value.bind
        (fun _ => Except.error Fault.division_by_zero) ∧
    1 ≤ (path_tracing env world lights cam r depth g).cost.divisions := by
  rw [path_tracing_mixture env world lights cam r depth g g1 g2 rec mat srec q hd hhit hmat hsc
    hskip hq]
  simp only [hzero, Vec3.divGuarded, if_true]
  refine ⟨?_, ?_, by omega⟩
  · intro c
    cases (path_tracing env world lights cam
        { orig := rec.p, dir := (PDF.generate env (estimator_mixture lights rec.p q) g2).1,
          tm := r.tm } (depth - 1)
        (PDF.generate env (estimator_mixture lights rec.p q) g2).2).value <;>
      simp [Except.bind, Except.map]
  · cases (path_tracing env world lights cam
        { orig := rec.p, dir := (PDF.generate env (estimator_mixture lights rec.p q) g2).1,
          tm := r.tm } (depth - 1)
        (PDF.generate env (estimator_mixture lights rec.p q) g2).2).value <;>
      simp [Except.bind, Except.map]

/-- C8. `MixturePDF(p0, p1).value(d)` is the arithmetic mean of the two sub-densities at
`d`; it is symmetric in `p0` and `p1` and lies between the two sub-densities. -/
theorem MixturePDF_value_mean (env : Env K G) (p0 p1 : PDF K G) (d : Vec3 K) :
    PDF.value env (PDF.MixturePDF p0 p1) d = (PDF.value env p0 d + PDF.value env p1 d) / 2 ∧
    PDF.value env (PDF.MixturePDF p0 p1) d = PDF.value env (PDF.MixturePDF p1 p0) d ∧
    min (PDF.value env p0 d) (PDF.value env p1 d) ≤ PDF.value env (PDF.MixturePDF p0 p1) d ∧
    PDF.value env (PDF.MixturePDF p0 p1) d ≤ max (PDF.value env p0 d) (PDF.value env p1 d) := by
  simp only [PDF.value]
  refine ⟨by ring, by ring, ?_, ?_⟩
  · rcases le_total (PDF.value env p0 d) (PDF.value env p1 d) with h | h
    · rw [min_eq_left h]; norm_num; linarith
    · rw [min_eq_right h]; norm_num; linarith
  · rcases le_total (PDF.value env p0 d) (PDF.value env p1 d) with h | h
    · rw [max_eq_right h]; norm_num; linarith
    · rw [max_eq_left h]; norm_num; linarith

/-- The record written by `Sphere::hit` carries the material of the sphere. -/
theorem Sphere.hit_mat (env : Env K G) (s : Sphere K) (r : Ray K) (ray_t : Interval (Ext K))
    (rec rec2 : HitRecord K) (h : Sphere.hit env s r ray_t rec = some rec2) :
    rec2.mat = s.mat := by
  simp only [Sphere.hit] at h
  split at h
  · exact absurd h (by simp)
  · simp only [Option.some.injEq] at h
    rw [← h]

/-! ## The sphere intersection: the quadratic and its roots -/

theorem Interval.surrounds_fin (ray_t : Interval (Ext K)) (x : K) :
    ray_t.surrounds (Ext.fin x) = true ↔ ray_t.min < Ext.fin x ∧ Ext.fin x < ray_t.max := by
  simp [Interval.surrounds]

theorem Vec3.length_squared_pos (v : Vec3 K) (hv : v ≠ ⟨0, 0, 0⟩) :
    0 < Vec3.length_squared v := by
  rcases v with ⟨x, y, z⟩
  have hne : ¬ (x = 0 ∧ y = 0 ∧ z = 0) := by
    rintro ⟨rfl, rfl, rfl⟩
    exact hv rfl
  simp only [Vec3.length_squared]
  by_contra hcon
  apply hne
  have hx := mul_self_nonneg x
  have hy := mul_self_nonneg y
  have hz := mul_self_nonneg z
  refine ⟨?_, ?_, ?_⟩
  · exact mul_self_eq_zero.1 (by linarith)
  · exact mul_self_eq_zero.1 (by linarith)
  · exact mul_self_eq_zero.1 (by linarith)

/-- What a successful `Sphere::hit` writes, in terms of the chosen root. -/
theorem Sphere.hit_some (env : Env K G) (s : Sphere K) (r : Ray K) (ray_t : Interval (Ext K))
    (rec rec2 : HitRecord K) (h : Sphere.hit env s r ray_t rec = some rec2) :
    Sphere.find_root env s r ray_t = some rec2.t ∧ rec2.p = r.at rec2.t ∧
    rec2.front_face =
      decide (Vec3.dot r.dir (Vec3.div (Vec3.sub (r.at rec2.t) (s.center r)) s.radius) < 0) := by
  simp only [Sphere.hit] at h
  split at h
  · exact absurd h (by simp)
  · rename_i root hroot
    simp only [Option.some.injEq] at h
    rw [← h]
    exact ⟨hroot, rfl, rfl⟩

end Field

/-! ## The claims at the concrete scene -/

theorem path_tracing_depth_zero_witness :
    (0 : Int) ≤ 0 ∧
    path_tracing envQ (worldQ greyQ) lightsQ camQ rayQ 0 0 =
      { value := Except.ok ⟨0, 0, 0⟩, rng := 0,
        cost := { calls := 1, hits := 0, samples := 0, divisions := 0 } } :=
  ⟨le_refl 0, path_tracing_depth_zero envQ (worldQ greyQ) lightsQ camQ rayQ 0 0 (le_refl 0)⟩

theorem path_tracing_background_witness :
    (worldQ greyQ).hit rayMissQ estimator_range HitRecord.init 0 = (none, 0) ∧
    path_tracing envQ (worldQ greyQ) lightsQ camQ rayMissQ 3 0 =
      { value := Except.ok ⟨1, 1, 1⟩, rng := 0,
        cost := { calls := 1, hits := 1, samples := 0, divisions := 0 } } :=
  ⟨worldQ_miss greyQ 0,
   path_tracing_background envQ (worldQ greyQ) lightsQ camQ rayMissQ 3 0 0 (by decide)
     (worldQ_miss greyQ 0)⟩

theorem path_tracing_diffuse_light_witness :
    (worldQ lightQ).hit rayQ estimator_range HitRecord.init 0 = (some (recQ (some lightQ)), 0) ∧
    path_tracing envQ (worldQ lightQ) lightsQ camQ rayQ 3 0 =
      { value := Except.ok ⟨15, 15, 15⟩, rng := 0,
        cost := { calls := 1, hits := 1, samples := 0, divisions := 0 } } :=
  ⟨worldQ_hit lightQ 0,
   (path_tracing_diffuse_light envQ (worldQ lightQ) lightsQ camQ rayQ 3 0 0 (recQ (some lightQ))
     (SolidColor ⟨15, 15, 15⟩) (by decide) (worldQ_hit lightQ 0) rfl).1⟩

theorem path_tracing_specular_witness :
    mirrorQ.scatter envQ rayQ (recQ (some mirrorQ)) 0 = (some srecMirrorQ, 1) ∧
    (path_tracing envQ (worldQ mirrorQ) lightsQ camQ rayQ 2 0).value =
      (path_tracing envQ (worldQ mirrorQ) lightsQ camQ
        { orig := ⟨-1, 0, 0⟩, dir := ⟨-1, 0, 0⟩, tm := 0 } (2 - 1) 1).value.map
        (fun c => Vec3.mul ⟨4 / 5, 4 / 5, 4 / 5⟩ c) :=
  ⟨mirrorQ_scatter 0 (some mirrorQ),
   (path_tracing_specular envQ (worldQ mirrorQ) lightsQ camQ rayQ 2 0 0 1 (recQ (some mirrorQ))
     mirrorQ srecMirrorQ (by decide) (worldQ_hit mirrorQ 0) rfl
     (mirrorQ_scatter 0 (some mirrorQ)) rfl).1⟩

theorem path_tracing_zero_density_witness :
    PDF.value envQ (estimator_mixture lightsQ ⟨-1, 0, 0⟩ (PDF.CosinePDF ⟨-1, 0, 0⟩))
      (PDF.generate envQ (estimator_mixture lightsQ ⟨-1, 0, 0⟩ (PDF.CosinePDF ⟨-1, 0, 0⟩)) 0).1
      = 0 ∧
    ∀ c, (path_tracing envQ (worldQ greyQ) lightsQ camQ rayQ 1 0).value ≠ Except.ok c :=
  have hzero : PDF.value envQ (estimator_mixture lightsQ ⟨-1, 0, 0⟩ (PDF.CosinePDF ⟨-1, 0, 0⟩))
      (PDF.generate envQ (estimator_mixture lightsQ ⟨-1, 0, 0⟩ (PDF.CosinePDF ⟨-1, 0, 0⟩)) 0).1
      = 0 := by
    rw [lightsQ_generate]
    exact lightsQ_density_cosine
  ⟨hzero,
   (path_tracing_zero_density envQ (worldQ greyQ) lightsQ camQ rayQ 1 0 0 0 (recQ (some greyQ))
     greyQ srecGreyQ (PDF.CosinePDF ⟨-1, 0, 0⟩) (by decide) (worldQ_hit greyQ 0) rfl
     (greyQ_scatter rayQ 0 (some greyQ)) rfl rfl hzero).1⟩

/-- C1, counterexample. A grey diffuse unit sphere, lights that inherit the default
`pdf_value` (0) and `random` (the x axis), and the ray from `(-2, 0, 0)` along the x axis
with `depth = 1`: the hit is at `(-1, 0, 0)` with normal `(-1, 0, 0)`, the scatter succeeds
with `skip_pdf = false`, the mixture samples the direction `(1, 0, 0)` whose density is
`0.5 * 0 + 0.5 * max(0, -1/pi) = 0`, and the estimator divides by it: the result is a
division-by-zero fault and not the (black) emission term. -/
theorem path_tracing_zero_density_counterexample :
    (worldQ greyQ).hit rayQ estimator_range HitRecord.init 0 = (some (recQ (some greyQ)), 0) ∧
    greyQ.scatter envQ rayQ (recQ (some greyQ)) 0 = (some srecGreyQ, 0) ∧
    srecGreyQ.skip_pdf = false ∧
    PDF.value envQ (estimator_mixture lightsQ (recQ (some greyQ)).p (PDF.CosinePDF ⟨-1, 0, 0⟩))
      (PDF.generate envQ
        (estimator_mixture lightsQ (recQ (some greyQ)).p (PDF.CosinePDF ⟨-1, 0, 0⟩)) 0).1 = 0 ∧
    (path_tracing envQ (worldQ greyQ) lightsQ camQ rayQ 1 0).value
      = Except.error Fault.division_by_zero ∧
    (path_tracing envQ (worldQ greyQ) lightsQ camQ rayQ 1 0).value
      ≠ Except.ok (greyQ.emitted rayQ (recQ (some greyQ)) (recQ (some greyQ)).u
          (recQ (some greyQ)).v (recQ (some greyQ)).p) ∧
    (path_tracing envQ (worldQ greyQ) lightsQ camQ rayQ 1 0).cost.divisions = 1 := by
  have hzero : PDF.value envQ
      (estimator_mixture lightsQ (recQ (some greyQ)).p (PDF.CosinePDF ⟨-1, 0, 0⟩))
      (PDF.generate envQ
        (estimator_mixture lightsQ (recQ (some greyQ)).p (PDF.CosinePDF ⟨-1, 0, 0⟩)) 0).1 = 0 := by
    rw [lightsQ_generate]
    exact lightsQ_density_cosine
  have hrun := path_tracing_mixture envQ (worldQ greyQ) lightsQ camQ rayQ 1 0 0 0
    (recQ (some greyQ)) greyQ srecGreyQ (PDF.CosinePDF ⟨-1, 0, 0⟩) (by decide)
    (worldQ_hit greyQ 0) rfl (greyQ_scatter rayQ 0 (some greyQ)) rfl rfl
  have hsub : ∀ (r : Ray ℚ) (g : Nat),
      path_tracing envQ (worldQ greyQ) lightsQ camQ r (1 - 1) g =
        { value := Except.ok Vec3.zero, rng := g,
          cost := { calls := 1, hits := 0, samples := 0, divisions := 0 } } :=
    fun r g => path_tracing_exhausted envQ (worldQ greyQ) lightsQ camQ r (1 - 1) g (by decide)
  have hval : (path_tracing envQ (worldQ greyQ) lightsQ camQ rayQ 1 0).value
      = Except.error Fault.division_by_zero := by
    rw [hrun]
    simp only [hsub, hzero, Vec3.divGuarded, if_true]
    rfl
  refine ⟨worldQ_hit greyQ 0, greyQ_scatter rayQ 0 (some greyQ), rfl, hzero, hval, ?_, ?_⟩
  · rw [hval]
    simp
  · rw [hrun]
    simp only [hsub]

theorem lightsQ_density_sphere (p d : Vec3 ℚ) :
    PDF.value envQ (estimator_mixture lightsQ p PDF.SpherePDF) d = 7 / 176 := by
  simp [estimator_mixture, PDF.value, lightsQ, translate, Hittable.base_pdf_value, envQ]
  norm_num

theorem fogQ_scene (r : Ray ℚ) (g g1 : Nat) (rec : HitRecord ℚ)
    (hhit : (worldQ fogQ).hit r estimator_range HitRecord.init g = (some rec, g1)) :
    ∃ mat, rec.mat = some mat ∧ (mat.emitted r rec rec.u rec.v rec.p).nonneg ∧
      ∀ (srec : ScatterRecord ℚ Nat) (g2 : Nat), mat.scatter envQ r rec g1 = (some srec, g2) →
        srec.attenuation.nonneg ∧
        ∀ q, srec.skip_pdf = false → srec.pdf_ptr = some q →
          0 ≤ mat.scattering_pdf envQ r rec
            { orig := rec.p, dir := (PDF.generate envQ (estimator_mixture lightsQ rec.p q) g2).1,
              tm := r.tm } ∧
          0 < PDF.value envQ (estimator_mixture lightsQ rec.p q)
            (PDF.generate envQ (estimator_mixture lightsQ rec.p q) g2).1 := by
  simp only [worldQ, Sphere.toHittable, Prod.mk.injEq] at hhit
  have hmat : rec.mat = some fogQ :=
    Sphere.hit_mat envQ (sphereQ (some fogQ)) r estimator_range HitRecord.init rec hhit.1
  refine ⟨fogQ, hmat, ?_, ?_⟩
  · simp [fogQ, Material.emitted, Vec3.zero, Vec3.nonneg]
  · intro srec g2 hsc
    rw [fogQ_scatter] at hsc
    simp only [Prod.mk.injEq, Option.some.injEq] at hsc
    rw [← hsc.1]
    refine ⟨?_, ?_⟩
    · simp [srecFogQ, Vec3.nonneg]
    · intro q _ hq
      simp only [srecFogQ, Option.some.injEq] at hq
      rw [← hq, lightsQ_density_sphere]
      refine ⟨?_, by norm_num⟩
      simp [fogQ, Material.scattering_pdf, envQ]

theorem path_tracing_nonneg_witness :
    camQ.background.nonneg ∧
    ∃ c, (path_tracing envQ (worldQ fogQ) lightsQ camQ rayQ 2 0).value = Except.ok c ∧
      c.nonneg :=
  have hbg : camQ.background.nonneg := by simp [camQ, Vec3.nonneg]
  ⟨hbg, path_tracing_nonneg envQ (worldQ fogQ) lightsQ camQ hbg fogQ_scene rayQ 2 0⟩

section Field

variable {K G : Type} [LinearOrderedField K]

/-! ## The sphere intersection: claim C11 -/

/-- C11. For a sphere of radius `R` and a ray of unit-length direction whose point at
parameter `d` is the centre of the sphere (the origin is at distance `d` from the centre and
the direction points exactly at it), with `0 <= d < R` (the square root being exact at the
discriminant): the quadratic of `Sphere::hit` has `a = 1`, `h = d` and discriminant
`R^2 >= 0`, and its two roots are `d - R` and `d + R`, symmetric about `d`. -/
theorem Sphere.roots_through_centre (env : Env K G) (s : Sphere K) (r : Ray K) (d : K)
    (hunit : Vec3.length_squared r.dir = 1) (hd : 0 ≤ d) (hlt : d < s.radius)
    (hcentre : s.center r = r.at d)
    (hsqrt : 0 ≤ s.discriminant r → 0 ≤ env.sqrt (s.discriminant r) ∧
      env.sqrt (s.discriminant r) * env.sqrt (s.discriminant r) = s.discriminant r) :
    Vec3.length_squared (Vec3.sub (s.center r) r.orig) = d * d ∧
    Vec3.length_squared r.dir = 1 ∧
    Vec3.dot r.dir (Vec3.sub (s.center r) r.orig) = d ∧
    s.discriminant r = s.radius * s.radius ∧
    0 ≤ s.discriminant r ∧
    (Vec3.dot r.dir (Vec3.sub (s.center r) r.orig) - env.sqrt (s.discriminant r))
        / Vec3.length_squared r.dir = d - s.radius ∧
    (Vec3.dot r.dir (Vec3.sub (s.center r) r.orig) + env.sqrt (s.discriminant r))
        / Vec3.length_squared r.dir = d + s.radius ∧
    ((Vec3.dot r.dir (Vec3.sub (s.center r) r.orig) - env.sqrt (s.discriminant r))
        / Vec3.length_squared r.dir +
      (Vec3.dot r.dir (Vec3.sub (s.center r) r.orig) + env.sqrt (s.discriminant r))
        / Vec3.length_squared r.dir) / 2 = d := by
  have hoc : Vec3.sub (s.center r) r.orig = Vec3.smul d r.dir := by
    rw [hcentre]
    simp only [Ray.at, Vec3.sub, Vec3.add, Vec3.smul]
    congr 1 <;> ring
  have hlen : Vec3.length_squared (Vec3.sub (s.center r) r.orig) = d * d := by
    have : Vec3.length_squared (Vec3.smul d r.dir) = d * d * Vec3.length_squared r.dir := by
      simp only [Vec3.length_squared, Vec3.smul]
      ring
    rw [hoc, this, hunit, mul_one]
  have hh : Vec3.dot r.dir (Vec3.sub (s.center r) r.orig) = d := by
    have : Vec3.dot r.dir (Vec3.smul d r.dir) = d * Vec3.length_squared r.dir := by
      simp only [Vec3.length_squared, Vec3.smul, Vec3.dot]
      ring
    rw [hoc, this, hunit, mul_one]
  have hdisc : s.discriminant r = s.radius * s.radius := by
    have : s.discriminant r =
        Vec3.dot r.dir (Vec3.sub (s.center r) r.orig) *
            Vec3.dot r.dir (Vec3.sub (s.center r) r.orig)
          - Vec3.length_squared r.dir *
            (Vec3.length_squared (Vec3.sub (s.center r) r.orig) - s.radius * s.radius) := rfl
    rw [this, hh, hlen, hunit]
    ring
  have hRpos : 0 < s.radius := lt_of_le_of_lt hd hlt
  have hdnn : 0 ≤ s.discriminant r := by
    rw [hdisc]
    exact (mul_pos hRpos hRpos).le
  obtain ⟨hs0, hss⟩ := hsqrt hdnn
  have hsq : env.sqrt (s.discriminant r) = s.radius := by
    rw [hdisc] at hss
    have hprod : (env.sqrt (s.discriminant r) - s.radius)
        * (env.sqrt (s.discriminant r) + s.radius) = 0 := by
      rw [hdisc]
      linear_combination hss
    rcases mul_eq_zero.1 hprod with h1 | h1
    · linarith
    · linarith
  refine ⟨hlen, hunit, hh, hdisc, hdnn, ?_, ?_, ?_⟩
  · rw [hh, hsq, hunit, div_one]
  · rw [hh, hsq, hunit, div_one]
  · rw [hh, hsq, hunit, div_one, div_one]
    ring

/-! ## The translation wrapper: claim C17 -/

/-- C17. For every intersectable `obj`, offset `v`, ray, range, incoming record and
generator state, `translate(translate(obj, v), -v).hit` returns what `obj.hit` returns: the
same boolean and, on a hit, the same record (same `t`, `p`, normal, `front_face`, and every
other member), in exact arithmetic. -/
theorem translate_roundtrip (obj : Hittable K G) (v : Vec3 K) (r : Ray K)
    (ray_t : Interval (Ext K)) (rec : HitRecord K) (g : G) :
    (translate (translate obj v) (Vec3.neg v)).hit r ray_t rec g = obj.hit r ray_t rec g := by
  have hray : ({ orig := Vec3.sub (Vec3.sub r.orig (Vec3.neg v)) v, dir := r.dir, tm := r.tm }
      : Ray K) = r := by
    rcases r with ⟨⟨ox, oy, oz⟩, dir, tm⟩
    simp only [Vec3.sub, Vec3.neg]
    congr 2 <;> ring
  simp only [translate, hray]
  rcases hobj : obj.hit r ray_t rec g with ⟨_ | rec1, g1⟩
  · rfl
  · rcases rec1 with ⟨⟨px, py, pz⟩, normal, mat, t, u, w, ff⟩
    simp only [Vec3.add, Vec3.neg]
    congr 4 <;> ring

/-! ## The composite list: claim C16 -/

theorem HittableList.foldl_pdf (weight : K) (f : Hittable K G → K) (objects : List (Hittable K G))
    (acc : K) :
    objects.foldl (fun sum object => sum + weight * f object) acc =
      acc + weight * (objects.map f).sum := by
  induction objects generalizing acc with
  | nil => simp
  | cons o rest ih =>
      simp only [List.foldl_cons, List.map_cons, List.sum_cons]
      rw [ih]
      ring

/-- C16. For a `HittableList` with `n >= 1` members, `pdf_value(origin, direction)` is the
unweighted mean `(1/n) *` the sum of the members' `pdf_value(origin, direction)`; it is 0
when every member's density is 0. -/
theorem HittableList.pdf_value_mean (l : HittableList K G) (origin direction : Vec3 K)
    (_hn : 1 ≤ l.objects.length) :
    l.pdf_value origin direction =
      (1 / (l.objects.length : K)) *
        (l.objects.map (fun object => object.pdf_value origin direction)).sum ∧
    ((∀ object ∈ l.objects, object.pdf_value origin direction = 0) →
      l.pdf_value origin direction = 0) := by
  have hmean : l.pdf_value origin direction =
      (1 / (l.objects.length : K)) *
        (l.objects.map (fun object => object.pdf_value origin direction)).sum := by
    simp only [HittableList.pdf_value]
    rw [HittableList.foldl_pdf (1 / (l.objects.length : K))
      (fun object => object.pdf_value origin direction) l.objects 0]
    ring
  refine ⟨hmean, ?_⟩
  intro hzero
  rw [hmean]
  have : (l.objects.map (fun object => object.pdf_value origin direction)).sum = 0 := by
    apply List.sum_eq_zero
    intro x hx
    obtain ⟨o, ho, rfl⟩ := List.mem_map.1 hx
    exact hzero o ho
  rw [this, mul_zero]

end Field

/-! ## The render scheduler: claim C18 -/

/-- The rows of the first `m` workers, one range after the other, are the rows
`0 .. m * (height / n) - 1`, as long as none of them is the last worker. -/
theorem Renderer.rows_before_last (height n m : Nat) (hm : m + 1 ≤ n) :
    (List.range m).flatMap
        (fun t => List.range' (Renderer.thread_range height n t).1
          ((Renderer.thread_range height n t).2 - (Renderer.thread_range height n t).1))
      = List.range (m * (height / n)) := by
  induction m with
  | zero => simp
  | succ k ih =>
      rw [List.range_succ, List.flatMap_append, ih (by omega), List.flatMap_singleton]
      have hk : k ≠ n - 1 := by omega
      simp only [Renderer.thread_range, if_neg hk]
      generalize height / n = q
      have h1 : (k + 1) * q - k * q = q := by
        rw [Nat.succ_mul]
        omega
      rw [h1, List.range_eq_range', List.range_eq_range']
      have h2 := List.range'_append 0 (k * q) q 1
      simp only [Nat.zero_add, Nat.one_mul] at h2
      rw [h2, Nat.succ_mul, Nat.add_comm]

/-- The rows of all the workers, one range after the other, are the rows
`0 .. height - 1`. -/
theorem Renderer.rows_of_workers (height n : Nat) (hn : 1 ≤ n) :
    (List.range n).flatMap
        (fun t => List.range' (Renderer.thread_range height n t).1
          ((Renderer.thread_range height n t).2 - (Renderer.thread_range height n t).1))
      = List.range height := by
  obtain ⟨m, rfl⟩ : ∃ m, n = m + 1 := ⟨n - 1, by omega⟩
  rw [List.range_succ, List.flatMap_append,
    Renderer.rows_before_last height (m + 1) m (le_refl _), List.flatMap_singleton]
  simp only [Renderer.thread_range, Nat.add_sub_cancel, if_true]
  have hle : m * (height / (m + 1)) ≤ height := by
    have h1 := Nat.div_mul_le_self height (m + 1)
    have h3 : height / (m + 1) * (m + 1) = m * (height / (m + 1)) + height / (m + 1) := by
      ring
    generalize height / (m + 1) = q at h1 h3
    omega
  generalize height / (m + 1) = q at hle
  rw [List.range_eq_range', List.range_eq_range']
  have h2 := List.range'_append 0 (m * q) (height - m * q) 1
  simp only [Nat.zero_add, Nat.one_mul] at h2
  rw [h2]
  congr 1
  omega

/-- C18. For every image height and thread count `n >= 1`, the row ranges
`[start_t, end_t)` of `Renderer::render` satisfy `start_0 = 0`, `end_t = start_(t+1)`,
`end_(n-1) = image_height` and `start_t <= end_t`; put one after the other they are exactly
the rows `0 .. image_height - 1`, each once (contiguous, pairwise disjoint, covering); every
range but the last has `image_height / n` rows and the last has
`image_height / n + image_height mod n` rows. -/
theorem Renderer.thread_range_partition (height n : Nat) (hn : 1 ≤ n) :
    (Renderer.thread_range height n 0).1 = 0 ∧
    (∀ t, t + 1 < n →
      (Renderer.thread_range height n t).2 = (Renderer.thread_range height n (t + 1)).1) ∧
    (Renderer.thread_range height n (n - 1)).2 = height ∧
    (∀ t, t < n → (Renderer.thread_range height n t).1 ≤ (Renderer.thread_range height n t).2) ∧
    (List.range n).flatMap
        (fun t => List.range' (Renderer.thread_range height n t).1
          ((Renderer.thread_range height n t).2 - (Renderer.thread_range height n t).1))
      = List.range height ∧
    (∀ t, t + 1 < n →
      (Renderer.thread_range height n t).2 - (Renderer.thread_range height n t).1
        = height / n) ∧
    (Renderer.thread_range height n (n - 1)).2 - (Renderer.thread_range height n (n - 1)).1
      = height / n + height % n := by
  have hrows := Renderer.rows_of_workers height n hn
  have hdm : n * (height / n) + height % n = height := Nat.div_add_mod height n
  have hlast : (n - 1) * (height / n) + (height / n) = n * (height / n) := by
    obtain ⟨m, rfl⟩ : ∃ m, n = m + 1 := ⟨n - 1, by omega⟩
    rw [Nat.add_sub_cancel, Nat.succ_mul]
  refine ⟨?_, ?_, ?_, ?_, hrows, ?_, ?_⟩
  · simp [Renderer.thread_range]
  · intro t ht
    have h1 : t ≠ n - 1 := by omega
    simp only [Renderer.thread_range, if_neg h1]
  · simp [Renderer.thread_range]
  · intro t _
    simp only [Renderer.thread_range]
    generalize height / n = q at hdm hlast
    generalize height % n = m at hdm
    split_ifs with h1
    · rw [h1]
      omega
    · rw [Nat.succ_mul]
      omega
  · intro t ht
    have h1 : t ≠ n - 1 := by omega
    simp only [Renderer.thread_range, if_neg h1]
    generalize height / n = q
    rw [Nat.succ_mul]
    omega
  · simp only [Renderer.thread_range, if_true]
    generalize height / n = q at hdm hlast
    generalize height % n = m at hdm
    omega

section Field

variable {K G : Type} [LinearOrderedField K]

/-! ## The quadrilateral: claim C12 -/

theorem Ext.fin_le_fin (a b : K) : (Ext.fin a ≤ Ext.fin b) ↔ a ≤ b := Iff.rfl

theorem Vec3.dot_div (n y : Vec3 K) (c : K) :
    Vec3.dot (Vec3.div n c) y = Vec3.dot n y / c := by
  simp only [Vec3.dot, Vec3.div]
  ring

theorem Vec3.dot_self_pos (n : Vec3 K) (hn : n ≠ ⟨0, 0, 0⟩) : 0 < Vec3.dot n n :=
  Vec3.length_squared_pos n hn

/-- A vector orthogonal to `cross(u, v)` is the combination of `u` and `v` with the
coefficients that `Quad::hit` computes. -/
theorem Quad.planar_decomposition (u v x : Vec3 K)
    (hnd : Vec3.cross u v ≠ ⟨0, 0, 0⟩) (hx : Vec3.dot (Vec3.cross u v) x = 0) :
    x = Vec3.add
      (Vec3.smul
        (Vec3.dot (Vec3.div (Vec3.cross u v) (Vec3.dot (Vec3.cross u v) (Vec3.cross u v)))
          (Vec3.cross x v)) u)
      (Vec3.smul
        (Vec3.dot (Vec3.div (Vec3.cross u v) (Vec3.dot (Vec3.cross u v) (Vec3.cross u v)))
          (Vec3.cross u x)) v) := by
  have hN := ne_of_gt (Vec3.dot_self_pos (Vec3.cross u v) hnd)
  rw [Vec3.dot_div, Vec3.dot_div]
  rcases x with ⟨x1, x2, x3⟩
  rcases u with ⟨u1, u2, u3⟩
  rcases v with ⟨v1, v2, v3⟩
  simp only [Vec3.dot, Vec3.cross] at hx hN
  simp only [Vec3.dot, Vec3.cross, Vec3.add, Vec3.smul]
  congr 1
  · field_simp
    linear_combination (u2 * v3 - u3 * v2) * hx
  · field_simp
    linear_combination (u3 * v1 - u1 * v3) * hx
  · field_simp
    linear_combination (u1 * v2 - u2 * v1) * hx

theorem Quad.is_interior_eq (a b : K) (rec : HitRecord K) :
    Quad.is_interior a b rec =
      if 0 ≤ a ∧ a ≤ 1 ∧ 0 ≤ b ∧ b ≤ 1 then some { rec with u := a, v := b } else none := by
  simp only [Quad.is_interior, Interval.contains, Ext.fin_le_fin]
  by_cases h : 0 ≤ a ∧ a ≤ 1 ∧ 0 ≤ b ∧ b ≤ 1
  · obtain ⟨h1, h2, h3, h4⟩ := h
    simp [h1, h2, h3, h4]
  · rw [if_neg h]
    simp only [not_and_or, not_le] at h
    rcases h with h | h | h | h
    · simp [not_le.2 h]
    · simp [not_le.2 h]
    · simp [not_le.2 h]
    · simp [not_le.2 h]

/-- `Quad::hit` in terms of the plane parameter and the planar coordinates. -/
theorem Quad.hit_eq (q : Quad K) (r : Ray K) (ray_t : Interval (Ext K)) (rec : HitRecord K)
    (hdenom : 1e-8 ≤ |Vec3.dot q.normal r.dir|)
    (ht : ray_t.contains (Ext.fin (q.plane_t r)) = true) :
    Quad.hit q r ray_t rec =
      if 0 ≤ q.alpha r ∧ q.alpha r ≤ 1 ∧ 0 ≤ q.beta r ∧ q.beta r ≤ 1 then
        some (HitRecord.set_face_normal
          { rec with u := q.alpha r, v := q.beta r, t := q.plane_t r,
                     p := r.at (q.plane_t r), mat := q.mat } r q.normal)
      else none := by
  simp only [Quad.hit, if_neg (not_lt.2 hdenom), ht, Quad.is_interior_eq]
  by_cases h : 0 ≤ q.alpha r ∧ q.alpha r ≤ 1 ∧ 0 ≤ q.beta r ∧ q.beta r ≤ 1
  · simp [h]
  · simp [h]

/-- The crossing point of the plane always has planar coordinates: it is
`Q + alpha*u + beta*v` for the `alpha` and `beta` that `Quad::hit` computes. -/
theorem Quad.crossing_point_planar (env : Env K G) (Q u v : Vec3 K) (mat : Option (Material K))
    (r : Ray K) (hnd : Vec3.cross u v ≠ ⟨0, 0, 0⟩)
    (hdenom : 1e-8 ≤ |Vec3.dot (Quad.make env Q u v mat).normal r.dir|) :
    r.at ((Quad.make env Q u v mat).plane_t r) =
      Vec3.add (Vec3.add Q (Vec3.smul ((Quad.make env Q u v mat).alpha r) u))
        (Vec3.smul ((Quad.make env Q u v mat).beta r) v) := by
  have hpos : (0 : K) < 1e-8 := by norm_num
  have hdne : Vec3.dot (Quad.make env Q u v mat).normal r.dir ≠ 0 := by
    intro h0
    rw [h0, abs_zero] at hdenom
    exact absurd hdenom (not_le.2 hpos)
  have hnormal : (Quad.make env Q u v mat).normal =
      Vec3.div (Vec3.cross u v) (env.sqrt (Vec3.length_squared (Vec3.cross u v))) := rfl
  have hL : env.sqrt (Vec3.length_squared (Vec3.cross u v)) ≠ 0 := by
    intro h0
    apply hdne
    rw [hnormal, h0]
    simp [Vec3.dot, Vec3.div]
  have hplane : Vec3.dot (Quad.make env Q u v mat).normal
      (Vec3.sub (r.at ((Quad.make env Q u v mat).plane_t r)) Q) = 0 := by
    have hD : (Quad.make env Q u v mat).D = Vec3.dot (Quad.make env Q u v mat).normal Q := rfl
    have ht : (Quad.make env Q u v mat).plane_t r * Vec3.dot (Quad.make env Q u v mat).normal r.dir
        = (Quad.make env Q u v mat).D - Vec3.dot (Quad.make env Q u v mat).normal r.orig := by
      simp only [Quad.plane_t]
      exact div_mul_cancel₀ _ hdne
    rw [hD] at ht
    generalize (Quad.make env Q u v mat).plane_t r = t at ht
    generalize (Quad.make env Q u v mat).normal = nrm at ht
    simp only [Vec3.dot, Vec3.sub, Ray.at, Vec3.add, Vec3.smul] at ht
    simp only [Vec3.dot, Vec3.sub, Ray.at, Vec3.add, Vec3.smul]
    linear_combination ht
  have hortho : Vec3.dot (Vec3.cross u v)
      (Vec3.sub (r.at ((Quad.make env Q u v mat).plane_t r)) Q) = 0 := by
    rw [hnormal, Vec3.dot_div, div_eq_zero_iff] at hplane
    exact hplane.resolve_right hL
  have hdec := Quad.planar_decomposition u v
    (Vec3.sub (r.at ((Quad.make env Q u v mat).plane_t r)) Q) hnd hortho
  have halpha : (Quad.make env Q u v mat).alpha r =
      Vec3.dot (Vec3.div (Vec3.cross u v) (Vec3.dot (Vec3.cross u v) (Vec3.cross u v)))
        (Vec3.cross (Vec3.sub (r.at ((Quad.make env Q u v mat).plane_t r)) Q) v) := rfl
  have hbeta : (Quad.make env Q u v mat).beta r =
      Vec3.dot (Vec3.div (Vec3.cross u v) (Vec3.dot (Vec3.cross u v) (Vec3.cross u v)))
        (Vec3.cross u (Vec3.sub (r.at ((Quad.make env Q u v mat).plane_t r)) Q)) := rfl
  rw [← halpha, ← hbeta] at hdec
  generalize (Quad.make env Q u v mat).alpha r = al at hdec
  generalize (Quad.make env Q u v mat).beta r = be at hdec
  generalize r.at ((Quad.make env Q u v mat).plane_t r) = P at hdec
  have hx := congrArg Vec3.x hdec
  have hy := congrArg Vec3.y hdec
  have hz := congrArg Vec3.z hdec
  rcases P with ⟨p1, p2, p3⟩
  simp only [Vec3.sub, Vec3.add, Vec3.smul] at hx hy hz
  simp only [Vec3.add, Vec3.smul]
  congr 1
  · linarith
  · linarith
  · linarith

/-! ## The composite list: claim C15 -/

theorem Ext.le_refl_ext (a : Ext K) : a ≤ a := by
  cases a with
  | ninf => trivial
  | fin x => exact le_refl x
  | pinf => trivial

theorem Ext.le_trans_ext {a b c : Ext K} (hab : a ≤ b) (hbc : b ≤ c) : a ≤ c := by
  cases a <;> cases b <;> cases c <;> first
    | trivial
    | exact absurd hab (fun h => h)
    | exact absurd hbc (fun h => h)
    | exact le_trans hab hbc

theorem Ext.le_of_not_le_ext {a b : Ext K} (h : ¬ a ≤ b) : b ≤ a := by
  cases a <;> cases b <;> first
    | trivial
    | exact absurd trivial h
    | exact le_of_not_le h

theorem Ext.pinf_le {a : Ext K} (h : (Ext.pinf : Ext K) ≤ a) : a = Ext.pinf := by
  cases a with
  | ninf => exact absurd h (fun h => h)
  | fin x => exact absurd h (fun h => h)
  | pinf => rfl

theorem Ext.le_ninf {a : Ext K} (h : a ≤ (Ext.ninf : Ext K)) : a = Ext.ninf := by
  cases a with
  | ninf => rfl
  | fin x => exact absurd h (fun h => h)
  | pinf => exact absurd h (fun h => h)

/-- The enclosing interval built step by step from `acc`: its `min` is below `acc.min` and
every `min` of the list, and is one of them; likewise for `max`. -/
theorem Interval.foldl_ofIntervals (is : List (Interval (Ext K))) (acc : Interval (Ext K)) :
    ((is.foldl Interval.ofIntervals acc).min ≤ acc.min ∧
      (∀ i ∈ is, (is.foldl Interval.ofIntervals acc).min ≤ i.min) ∧
      ((is.foldl Interval.ofIntervals acc).min = acc.min ∨
        ∃ i ∈ is, (is.foldl Interval.ofIntervals acc).min = i.min)) ∧
    (acc.max ≤ (is.foldl Interval.ofIntervals acc).max ∧
      (∀ i ∈ is, i.max ≤ (is.foldl Interval.ofIntervals acc).max) ∧
      ((is.foldl Interval.ofIntervals acc).max = acc.max ∨
        ∃ i ∈ is, (is.foldl Interval.ofIntervals acc).max = i.max)) := by
  induction is generalizing acc with
  | nil =>
      exact ⟨⟨Ext.le_refl_ext _, by simp, Or.inl rfl⟩, ⟨Ext.le_refl_ext _, by simp, Or.inl rfl⟩⟩
  | cons j rest ih =>
      simp only [List.foldl_cons]
      obtain ⟨⟨h1, h2, h3⟩, ⟨k1, k2, k3⟩⟩ := ih (Interval.ofIntervals acc j)
      have hmin : (Interval.ofIntervals acc j).min ≤ acc.min ∧
          (Interval.ofIntervals acc j).min ≤ j.min ∧
          ((Interval.ofIntervals acc j).min = acc.min ∨
            (Interval.ofIntervals acc j).min = j.min) := by
        simp only [Interval.ofIntervals]
        by_cases h : acc.min ≤ j.min
        · rw [if_pos h]
          exact ⟨Ext.le_refl_ext _, h, Or.inl rfl⟩
        · rw [if_neg h]
          exact ⟨Ext.le_of_not_le_ext h, Ext.le_refl_ext _, Or.inr rfl⟩
      have hmax : acc.max ≤ (Interval.ofIntervals acc j).max ∧
          j.max ≤ (Interval.ofIntervals acc j).max ∧
          ((Interval.ofIntervals acc j).max = acc.max ∨
            (Interval.ofIntervals acc j).max = j.max) := by
        simp only [Interval.ofIntervals]
        by_cases h : acc.max ≥ j.max
        · rw [if_pos h]
          exact ⟨Ext.le_refl_ext _, h, Or.inl rfl⟩
        · rw [if_neg h]
          exact ⟨Ext.le_of_not_le_ext h, Ext.le_refl_ext _, Or.inr rfl⟩
      refine ⟨⟨Ext.le_trans_ext h1 hmin.1, ?_, ?_⟩, ⟨Ext.le_trans_ext hmax.1 k1, ?_, ?_⟩⟩
      · intro i hi
        rcases List.mem_cons.1 hi with rfl | hi
        · exact Ext.le_trans_ext h1 hmin.2.1
        · exact h2 i hi
      · rcases h3 with h3 | ⟨i, hi, h3⟩
        · rcases hmin.2.2 with h4 | h4
          · exact Or.inl (h3.trans h4)
          · exact Or.inr ⟨j, List.mem_cons_self _ _, h3.trans h4⟩
        · exact Or.inr ⟨i, List.mem_cons_of_mem _ hi, h3⟩
      · intro i hi
        rcases List.mem_cons.1 hi with rfl | hi
        · exact Ext.le_trans_ext hmax.2.1 k1
        · exact k2 i hi
      · rcases k3 with k3 | ⟨i, hi, k3⟩
        · rcases hmax.2.2 with h4 | h4
          · exact Or.inl (k3.trans h4)
          · exact Or.inr ⟨j, List.mem_cons_self _ _, k3.trans h4⟩
        · exact Or.inr ⟨i, List.mem_cons_of_mem _ hi, k3⟩

/-- The enclosing interval of a non-empty list, built from the empty interval: the least
`min` and the greatest `max` of the list, both attained. -/
theorem Interval.foldl_ofIntervals_empty (is : List (Interval (Ext K))) (hne : is ≠ []) :
    ((∀ i ∈ is, (is.foldl Interval.ofIntervals Interval.empty).min ≤ i.min) ∧
      ∃ i ∈ is, (is.foldl Interval.ofIntervals Interval.empty).min = i.min) ∧
    ((∀ i ∈ is, i.max ≤ (is.foldl Interval.ofIntervals Interval.empty).max) ∧
      ∃ i ∈ is, (is.foldl Interval.ofIntervals Interval.empty).max = i.max) := by
  obtain ⟨⟨_, h2, h3⟩, ⟨_, k2, k3⟩⟩ := Interval.foldl_ofIntervals is Interval.empty
  obtain ⟨j, hj⟩ := List.exists_mem_of_ne_nil is hne
  refine ⟨⟨h2, ?_⟩, ⟨k2, ?_⟩⟩
  · rcases h3 with h3 | h3
    · have hle := h2 j hj
      rw [h3] at hle
      have : j.min = Ext.pinf := Ext.pinf_le hle
      exact ⟨j, hj, by rw [h3, this]; rfl⟩
    · exact h3
  · rcases k3 with k3 | k3
    · have hle := k2 j hj
      rw [k3] at hle
      have : j.max = Ext.ninf := Ext.le_ninf hle
      exact ⟨j, hj, by rw [k3, this]; rfl⟩
    · exact k3

/-- After a sequence of `add`, the objects are the added ones in order and each axis of the
box is the enclosing interval of the members' intervals, built from the empty interval. -/
theorem HittableList.foldl_add (objs : List (Hittable K G)) (l : HittableList K G) (n : Int) :
    (objs.foldl HittableList.add l).objects = l.objects ++ objs ∧
    (objs.foldl HittableList.add l).bbox.axis_interval n =
      (objs.map (fun o => o.bounding_box.axis_interval n)).foldl Interval.ofIntervals
        (l.bbox.axis_interval n) := by
  induction objs generalizing l with
  | nil => simp
  | cons o rest ih =>
      simp only [List.foldl_cons, List.map_cons]
      obtain ⟨h1, h2⟩ := ih (l.add o)
      refine ⟨?_, ?_⟩
      · rw [h1]
        simp [HittableList.add]
      · rw [h2]
        congr 1
        simp only [HittableList.add, AABB.ofBoxes, AABB.axis_interval]
        split_ifs <;> rfl

/-- C15. After adding the members `o1..on` (`n >= 1`) to a newly constructed
`HittableList`, on each axis the `min` of `bounding_box()` is the least of the members'
mins and its `max` the greatest of their maxes (both attained by a member): the box is the
axis-wise union of the members' boxes and contains each of them. -/
theorem HittableList.bbox_union (objs : List (Hittable K G)) (hne : objs ≠ []) (n : Int) :
    (objs.foldl HittableList.add HittableList.init).objects = objs ∧
    (∀ o ∈ objs,
      ((objs.foldl HittableList.add HittableList.init).bbox.axis_interval n).min
        ≤ (o.bounding_box.axis_interval n).min) ∧
    (∃ o ∈ objs,
      ((objs.foldl HittableList.add HittableList.init).bbox.axis_interval n).min
        = (o.bounding_box.axis_interval n).min) ∧
    (∀ o ∈ objs,
      (o.bounding_box.axis_interval n).max
        ≤ ((objs.foldl HittableList.add HittableList.init).bbox.axis_interval n).max) ∧
    (∃ o ∈ objs,
      ((objs.foldl HittableList.add HittableList.init).bbox.axis_interval n).max
        = (o.bounding_box.axis_interval n).max) := by
  obtain ⟨hobj, hbox⟩ := HittableList.foldl_add objs (HittableList.init : HittableList K G) n
  have hinit : (HittableList.init : HittableList K G).bbox.axis_interval n = Interval.empty := by
    simp only [HittableList.init, AABB.init, AABB.axis_interval]
    split_ifs <;> rfl
  rw [hinit] at hbox
  have hne2 : objs.map (fun o => o.bounding_box.axis_interval n) ≠ [] := by
    simpa using hne
  obtain ⟨⟨h1, i, hi, h2⟩, ⟨k1, j, hj, k2⟩⟩ :=
    Interval.foldl_ofIntervals_empty (objs.map (fun o => o.bounding_box.axis_interval n)) hne2
  rw [← hbox] at h1 h2 k1 k2
  obtain ⟨oi, hoi, rfl⟩ := List.mem_map.1 hi
  obtain ⟨oj, hoj, rfl⟩ := List.mem_map.1 hj
  refine ⟨?_, ?_, ⟨oi, hoi, h2⟩, ?_, ⟨oj, hoj, k2⟩⟩
  · rw [hobj]
    simp [HittableList.init]
  · intro o ho
    exact h1 _ (List.mem_map.2 ⟨o, ho, rfl⟩)
  · intro o ho
    exact k1 _ (List.mem_map.2 ⟨o, ho, rfl⟩)

/-! ## Members of a list under a narrowed range -/

theorem Ext.lt_of_lt_of_le_ext {a b c : Ext K} (hab : a < b) (hbc : b ≤ c) : a < c := by
  cases a <;> cases b <;> cases c <;> first
    | trivial
    | exact absurd hab (fun h => h)
    | exact absurd hbc (fun h => h)
    | exact lt_of_lt_of_le hab hbc

theorem Ext.le_of_lt_ext {a b : Ext K} (hab : a < b) : a ≤ b := by
  cases a <;> cases b <;> first
    | trivial
    | exact absurd hab (fun h => h)
    | exact le_of_lt hab

theorem Interval.contains_fin (ray_t : Interval (Ext K)) (x : K) :
    ray_t.contains (Ext.fin x) = true ↔ ray_t.min ≤ Ext.fin x ∧ Ext.fin x ≤ ray_t.max := by
  simp [Interval.contains]

/-- The choice of root in `Sphere::hit`, case by case. -/
theorem Sphere.find_root_cases (env : Env K G) (s : Sphere K) (r : Ray K)
    (ray_t : Interval (Ext K)) (x : K) :
    Sphere.find_root env s r ray_t = some x ↔
      ¬ s.discriminant r < 0 ∧
      ((ray_t.surrounds (Ext.fin (s.root_near env r)) = true ∧ x = s.root_near env r) ∨
       (ray_t.surrounds (Ext.fin (s.root_near env r)) = false ∧
        ray_t.surrounds (Ext.fin (s.root_far env r)) = true ∧ x = s.root_far env r)) := by
  simp only [Sphere.find_root, Sphere.root_near, Sphere.root_far]
  by_cases hneg : s.discriminant r < 0
  · simp [hneg]
  · simp only [if_neg hneg, hneg, not_false_eq_true, true_and]
    cases h1 : ray_t.surrounds (Ext.fin
        ((Vec3.dot r.dir (Vec3.sub (s.center r) r.orig) - env.sqrt (s.discriminant r))
          / Vec3.length_squared r.dir))
    · cases h2 : ray_t.surrounds (Ext.fin
          ((Vec3.dot r.dir (Vec3.sub (s.center r) r.orig) + env.sqrt (s.discriminant r))
            / Vec3.length_squared r.dir))
      · simp
      · simp
        exact eq_comm
    · simp
      exact eq_comm

theorem Sphere.root_near_le_far (env : Env K G) (s : Sphere K) (r : Ray K)
    (hsqrt : ∀ x : K, 0 ≤ x → 0 ≤ env.sqrt x) (hd : ¬ s.discriminant r < 0) :
    s.root_near env r ≤ s.root_far env r := by
  have hs := hsqrt (s.discriminant r) (not_lt.1 hd)
  have ha : 0 ≤ Vec3.length_squared r.dir := by
    simp only [Vec3.length_squared]
    have h1 := mul_self_nonneg r.dir.x
    have h2 := mul_self_nonneg r.dir.y
    have h3 := mul_self_nonneg r.dir.z
    linarith
  exact div_le_div_of_nonneg_right (by linarith) ha

/-- The record written by `Sphere::hit` does not depend on the incoming record, and its
`t` is the chosen root. -/
theorem Sphere.hit_eq_map (env : Env K G) (s : Sphere K) (r : Ray K)
    (ray_t : Interval (Ext K)) (rec : HitRecord K) :
    Sphere.hit env s r ray_t rec =
      (Sphere.find_root env s r ray_t).map (fun root =>
        { p := r.at root
          normal :=
            if decide (Vec3.dot r.dir
                (Vec3.div (Vec3.sub (r.at root) (s.center r)) s.radius) < 0) = true
            then Vec3.div (Vec3.sub (r.at root) (s.center r)) s.radius
            else Vec3.neg (Vec3.div (Vec3.sub (r.at root) (s.center r)) s.radius)
          mat := s.mat
          t := root
          u := (Sphere.get_sphere_uv env
            (Vec3.div (Vec3.sub (r.at root) (s.center r)) s.radius)).1
          v := (Sphere.get_sphere_uv env
            (Vec3.div (Vec3.sub (r.at root) (s.center r)) s.radius)).2
          front_face := decide (Vec3.dot r.dir
            (Vec3.div (Vec3.sub (r.at root) (s.center r)) s.radius) < 0) }) := by
  simp only [Sphere.hit]
  cases Sphere.find_root env s r ray_t with
  | none => rfl
  | some root => simp [HitRecord.set_face_normal]

/-- `Quad::hit` depends on the range only through the test `contains(t)`, and the record
it writes does not depend on the incoming record. -/
theorem Quad.hit_eq_ite (q : Quad K) (r : Ray K) (ray_t : Interval (Ext K))
    (rec : HitRecord K) :
    Quad.hit q r ray_t rec =
      if ray_t.contains (Ext.fin (q.plane_t r)) = true then
        Quad.hit q r { min := Ext.fin (q.plane_t r), max := Ext.fin (q.plane_t r) }
          HitRecord.init
      else none := by
  have hself : ({ min := Ext.fin (q.plane_t r), max := Ext.fin (q.plane_t r) }
      : Interval (Ext K)).contains (Ext.fin (q.plane_t r)) = true := by
    rw [Interval.contains_fin]
    exact ⟨Ext.le_refl_ext _, Ext.le_refl_ext _⟩
  simp only [Quad.hit, hself, Quad.is_interior_eq]
  by_cases hden : |Vec3.dot q.normal r.dir| < 1e-8
  · simp [hden]
  · simp only [if_neg hden]
    cases hc : ray_t.contains (Ext.fin (q.plane_t r))
    · simp
    · simp only [Bool.not_true, Bool.false_eq_true, if_false, if_true, Bool.not_false]
      by_cases hin : 0 ≤ q.alpha r ∧ q.alpha r ≤ 1 ∧ 0 ≤ q.beta r ∧ q.beta r ≤ 1
      · simp [hin, HitRecord.set_face_normal]
      · simp [hin]

theorem Quad.hit_t (q : Quad K) (r : Ray K) (ray_t : Interval (Ext K))
    (rec x : HitRecord K) (h : Quad.hit q r ray_t rec = some x) :
    x.t = q.plane_t r ∧ ray_t.contains (Ext.fin (q.plane_t r)) = true := by
  simp only [Quad.hit, Quad.is_interior_eq] at h
  split_ifs at h with h1 h2 h3
  · simp only [Option.some.injEq] at h
    rw [← h]
    refine ⟨rfl, ?_⟩
    simpa using h2

theorem Interval.surrounds_narrow (lo hi : Ext K) (c y : K) (hc : Ext.fin c ≤ hi)
    (h : ({ min := lo, max := Ext.fin c } : Interval (Ext K)).surrounds (Ext.fin y) = true) :
    ({ min := lo, max := hi } : Interval (Ext K)).surrounds (Ext.fin y) = true ∧ y < c := by
  rw [Interval.surrounds_fin] at h
  rw [Interval.surrounds_fin]
  exact ⟨⟨h.1, Ext.lt_of_lt_of_le_ext h.2 hc⟩, h.2⟩

theorem Interval.surrounds_widen (lo hi : Ext K) (c y : K)
    (h : ({ min := lo, max := hi } : Interval (Ext K)).surrounds (Ext.fin y) = true)
    (hy : y < c) :
    ({ min := lo, max := Ext.fin c } : Interval (Ext K)).surrounds (Ext.fin y) = true := by
  rw [Interval.surrounds_fin] at h
  rw [Interval.surrounds_fin]
  exact ⟨h.1, hy⟩

/-- A root found by `Sphere::hit` in the range narrowed to `(lo, c)` is the root it finds
in `(lo, hi)`, and it is below `c`. -/
theorem Sphere.find_root_narrow (env : Env K G) (s : Sphere K) (r : Ray K) (lo hi : Ext K)
    (c x : K) (hsqrt : ∀ y : K, 0 ≤ y → 0 ≤ env.sqrt y) (hc : Ext.fin c ≤ hi)
    (h : Sphere.find_root env s r { min := lo, max := Ext.fin c } = some x) :
    Sphere.find_root env s r { min := lo, max := hi } = some x ∧ x < c := by
  rw [Sphere.find_root_cases] at h
  obtain ⟨hd, h⟩ := h
  have hle := Sphere.root_near_le_far env s r hsqrt hd
  rw [Sphere.find_root_cases]
  rcases h with ⟨h1, rfl⟩ | ⟨h1, h2, rfl⟩
  · obtain ⟨k1, k2⟩ := Interval.surrounds_narrow lo hi c _ hc h1
    exact ⟨⟨hd, Or.inl ⟨k1, rfl⟩⟩, k2⟩
  · obtain ⟨k1, k2⟩ := Interval.surrounds_narrow lo hi c _ hc h2
    refine ⟨⟨hd, Or.inr ⟨?_, k1, rfl⟩⟩, k2⟩
    cases hn : ({ min := lo, max := hi } : Interval (Ext K)).surrounds
        (Ext.fin (s.root_near env r)) with
    | false => rfl
    | true =>
        have := Interval.surrounds_widen lo hi c _ hn (lt_of_le_of_lt hle k2)
        rw [h1] at this
        exact absurd this (by simp)

/-- A root found by `Sphere::hit` in `(lo, hi)` that is below `c` is the root it finds in
the range narrowed to `(lo, c)`. -/
theorem Sphere.find_root_widen (env : Env K G) (s : Sphere K) (r : Ray K) (lo hi : Ext K)
    (c x : K) (hc : Ext.fin c ≤ hi)
    (h : Sphere.find_root env s r { min := lo, max := hi } = some x) (hx : x < c) :
    Sphere.find_root env s r { min := lo, max := Ext.fin c } = some x := by
  rw [Sphere.find_root_cases] at h
  obtain ⟨hd, h⟩ := h
  rw [Sphere.find_root_cases]
  rcases h with ⟨h1, rfl⟩ | ⟨h1, h2, rfl⟩
  · exact ⟨hd, Or.inl ⟨Interval.surrounds_widen lo hi c _ h1 hx, rfl⟩⟩
  · refine ⟨hd, Or.inr ⟨?_, Interval.surrounds_widen lo hi c _ h2 hx, rfl⟩⟩
    cases hn : ({ min := lo, max := Ext.fin c } : Interval (Ext K)).surrounds
        (Ext.fin (s.root_near env r)) with
    | false => rfl
    | true =>
        have := (Interval.surrounds_narrow lo hi c _ hc hn).1
        rw [h1] at this
        exact absurd this (by simp)

theorem Sphere.find_root_lt_max (env : Env K G) (s : Sphere K) (r : Ray K)
    (ray_t : Interval (Ext K)) (x : K) (h : Sphere.find_root env s r ray_t = some x) :
    Ext.fin x < ray_t.max := by
  rw [Sphere.find_root_cases] at h
  rcases h.2 with ⟨h1, rfl⟩ | ⟨_, h2, rfl⟩
  · exact ((Interval.surrounds_fin ray_t _).1 h1).2
  · exact ((Interval.surrounds_fin ray_t _).1 h2).2

theorem Sphere.hit_find_root (env : Env K G) (s : Sphere K) (r : Ray K)
    (ray_t : Interval (Ext K)) (rec x : HitRecord K)
    (h : Sphere.hit env s r ray_t rec = some x) :
    Sphere.find_root env s r ray_t = some x.t := by
  rw [Sphere.hit_eq_map] at h
  cases hfr : Sphere.find_root env s r ray_t with
  | none =>
      rw [hfr] at h
      exact absurd h (by simp)
  | some root =>
      rw [hfr] at h
      simp only [Option.map, Option.some.injEq] at h
      rw [← h]

/-- The `hit` of a sphere or quad does not depend on the incoming record. -/
theorem Prim.hit_rec (env : Env K G) (p : Prim K) (r : Ray K) (ray_t : Interval (Ext K))
    (rec1 rec2 : HitRecord K) :
    Prim.hit env p r ray_t rec1 = Prim.hit env p r ray_t rec2 := by
  cases p with
  | sphere s =>
      simp only [Prim.hit]
      rw [Sphere.hit_eq_map env s r ray_t rec1, Sphere.hit_eq_map env s r ray_t rec2]
  | quad q =>
      simp only [Prim.hit]
      rw [Quad.hit_eq_ite q r ray_t rec1, Quad.hit_eq_ite q r ray_t rec2]

/-- A hit in the range narrowed to `c` is the hit in the full range; its `t` is at most
`c`, and below `c` for a sphere. -/
theorem Prim.hit_narrow (env : Env K G) (p : Prim K) (r : Ray K) (lo hi : Ext K) (c : K)
    (rec1 rec2 x : HitRecord K) (hsqrt : ∀ y : K, 0 ≤ y → 0 ≤ env.sqrt y)
    (hc : Ext.fin c ≤ hi)
    (h : Prim.hit env p r { min := lo, max := Ext.fin c } rec1 = some x) :
    Prim.hit env p r { min := lo, max := hi } rec2 = some x ∧ x.t ≤ c ∧
      (p.isQuad = false → x.t < c) := by
  cases p with
  | sphere s =>
      simp only [Prim.hit] at h
      simp only [Prim.hit]
      have hroot := Sphere.hit_find_root env s r _ rec1 x h
      obtain ⟨k1, k2⟩ := Sphere.find_root_narrow env s r lo hi c x.t hsqrt hc hroot
      rw [Sphere.hit_eq_map] at h
      rw [hroot] at h
      rw [Sphere.hit_eq_map, k1]
      exact ⟨h, k2.le, fun _ => k2⟩
  | quad q =>
      simp only [Prim.hit] at h
      simp only [Prim.hit]
      obtain ⟨ht, hin⟩ := Quad.hit_t q r _ rec1 x h
      rw [Quad.hit_eq_ite, if_pos hin] at h
      rw [Interval.contains_fin] at hin
      have hin2 : ({ min := lo, max := hi } : Interval (Ext K)).contains
          (Ext.fin (q.plane_t r)) = true := by
        rw [Interval.contains_fin]
        exact ⟨hin.1, Ext.le_trans_ext hin.2 hc⟩
      rw [Quad.hit_eq_ite, if_pos hin2]
      refine ⟨h, ?_, fun hq => absurd hq (by simp [Prim.isQuad])⟩
      rw [ht]
      exact hin.2

/-- A hit in the full range whose `t` is below `c` (or equal to `c`, for a quad) is the
hit in the range narrowed to `c`. -/
theorem Prim.hit_widen (env : Env K G) (p : Prim K) (r : Ray K) (lo hi : Ext K) (c : K)
    (rec1 rec2 x : HitRecord K) (hc : Ext.fin c ≤ hi)
    (h : Prim.hit env p r { min := lo, max := hi } rec1 = some x)
    (hx : x.t < c ∨ (p.isQuad = true ∧ x.t ≤ c)) :
    Prim.hit env p r { min := lo, max := Ext.fin c } rec2 = some x := by
  cases p with
  | sphere s =>
      simp only [Prim.hit] at h
      simp only [Prim.hit]
      have hlt : x.t < c := by
        rcases hx with hx | hx
        · exact hx
        · exact absurd hx.1 (by simp [Prim.isQuad])
      have hroot := Sphere.hit_find_root env s r _ rec1 x h
      have k1 := Sphere.find_root_widen env s r lo hi c x.t hc hroot hlt
      rw [Sphere.hit_eq_map, hroot] at h
      rw [Sphere.hit_eq_map, k1]
      exact h
  | quad q =>
      simp only [Prim.hit] at h
      simp only [Prim.hit]
      obtain ⟨ht, hin⟩ := Quad.hit_t q r _ rec1 x h
      rw [Quad.hit_eq_ite, if_pos hin] at h
      rw [Interval.contains_fin] at hin
      have hle : x.t ≤ c := by
        rcases hx with hx | hx
        · exact hx.le
        · exact hx.2
      have hin2 : ({ min := lo, max := Ext.fin c } : Interval (Ext K)).contains
          (Ext.fin (q.plane_t r)) = true := by
        rw [Interval.contains_fin]
        refine ⟨hin.1, ?_⟩
        rw [← ht]
        exact hle
      rw [Quad.hit_eq_ite, if_pos hin2]
      exact h

theorem Prim.hit_le_max (env : Env K G) (p : Prim K) (r : Ray K) (ray_t : Interval (Ext K))
    (rec x : HitRecord K) (h : Prim.hit env p r ray_t rec = some x) :
    Ext.fin x.t ≤ ray_t.max := by
  cases p with
  | sphere s =>
      simp only [Prim.hit] at h
      exact Ext.le_of_lt_ext
        (Sphere.find_root_lt_max env s r ray_t x.t (Sphere.hit_find_root env s r ray_t rec x h))
  | quad q =>
      simp only [Prim.hit] at h
      obtain ⟨ht, hin⟩ := Quad.hit_t q r ray_t rec x h
      rw [Interval.contains_fin] at hin
      rw [ht]
      exact hin.2

/-! ## The scan of `HittableList::hit` over spheres and quads -/

theorem HittableList.hit_step_prim (env : Env K G) (p : Prim K) (r : Ray K)
    (ray_t : Interval (Ext K)) (st : HitScan K G) :
    HittableList.hit_step r ray_t st (Prim.toHittable env p) =
      match Prim.hit env p r { min := ray_t.min, max := st.closest_so_far } st.temp_rec with
      | some rec1 =>
          { temp_rec := rec1, hit_anything := true, closest_so_far := Ext.fin rec1.t,
            rng := st.rng }
      | none => st := by
  cases p with
  | sphere s =>
      simp only [HittableList.hit_step, Prim.toHittable, Sphere.toHittable, Prim.hit]
      cases Sphere.hit env s r { min := ray_t.min, max := st.closest_so_far } st.temp_rec <;> rfl
  | quad q =>
      simp only [HittableList.hit_step, Prim.toHittable, Quad.toHittable, Prim.hit]
      cases Quad.hit q r { min := ray_t.min, max := st.closest_so_far } st.temp_rec <;> rfl

theorem HittableList.scan_append (objects : List (Hittable K G)) (object : Hittable K G)
    (r : Ray K) (ray_t : Interval (Ext K)) (g : G) :
    HittableList.scan (objects ++ [object]) r ray_t g =
      HittableList.hit_step r ray_t (HittableList.scan objects r ray_t g) object := by
  simp only [HittableList.scan, List.foldl_append, List.foldl_cons, List.foldl_nil]

/-- The state of the loop of `HittableList::hit` after a list of spheres and quads: nothing
hit so far and no member hits in the full range, or the record kept is the hit in the full
range of a member, with the least `t` of all such hits. -/
theorem HittableList.scan_prims (env : Env K G) (ps : List (Prim K)) (r : Ray K)
    (lo hi : Ext K) (rec0 : HitRecord K) (g : G)
    (hsqrt : ∀ y : K, 0 ≤ y → 0 ≤ env.sqrt y) :
    (HittableList.scan (ps.map (Prim.toHittable env)) r { min := lo, max := hi } g).rng = g ∧
    ((HittableList.scan (ps.map (Prim.toHittable env)) r { min := lo, max := hi } g).hit_anything
        = false →
      (HittableList.scan (ps.map (Prim.toHittable env)) r { min := lo, max := hi }
        g).closest_so_far = hi ∧
      ∀ p ∈ ps, Prim.hit env p r { min := lo, max := hi } rec0 = none) ∧
    ((HittableList.scan (ps.map (Prim.toHittable env)) r { min := lo, max := hi } g).hit_anything
        = true →
      (HittableList.scan (ps.map (Prim.toHittable env)) r { min := lo, max := hi }
        g).closest_so_far =
        Ext.fin (HittableList.scan (ps.map (Prim.toHittable env)) r { min := lo, max := hi }
          g).temp_rec.t ∧
      Ext.fin (HittableList.scan (ps.map (Prim.toHittable env)) r { min := lo, max := hi }
          g).temp_rec.t ≤ hi ∧
      (∃ p ∈ ps, Prim.hit env p r { min := lo, max := hi } rec0 =
        some (HittableList.scan (ps.map (Prim.toHittable env)) r { min := lo, max := hi }
          g).temp_rec) ∧
      ∀ p ∈ ps, ∀ y, Prim.hit env p r { min := lo, max := hi } rec0 = some y →
        (HittableList.scan (ps.map (Prim.toHittable env)) r { min := lo, max := hi }
          g).temp_rec.t ≤ y.t) := by
  induction ps using List.reverseRecOn with
  | nil =>
      refine ⟨rfl, fun _ => ⟨rfl, by simp⟩, fun h => ?_⟩
      simp [HittableList.scan] at h
  | append_singleton ps p ih =>
      rw [List.map_append, List.map_cons, List.map_nil, HittableList.scan_append,
        HittableList.hit_step_prim]
      generalize HittableList.scan (ps.map (Prim.toHittable env)) r { min := lo, max := hi } g
        = st at ih
      obtain ⟨hrng, hfalse, htrue⟩ := ih
      cases hany : st.hit_anything with
      | false =>
          obtain ⟨hclosest, hnone⟩ := hfalse hany
          rw [hclosest]
          cases hq : Prim.hit env p r { min := lo, max := hi } st.temp_rec with
          | none =>
              simp only
              refine ⟨hrng, fun _ => ⟨hclosest, ?_⟩, fun h => ?_⟩
              · intro p2 hp2
                rcases List.mem_append.1 hp2 with hp2 | hp2
                · exact hnone p2 hp2
                · rw [List.mem_singleton.1 hp2, Prim.hit_rec env p r _ rec0 st.temp_rec]
                  exact hq
              · rw [hany] at h
                exact absurd h (by simp)
          | some x =>
              simp only
              have hown : Prim.hit env p r { min := lo, max := hi } rec0 = some x := by
                rw [Prim.hit_rec env p r _ rec0 st.temp_rec]
                exact hq
              refine ⟨hrng, fun h => absurd h (by simp), fun _ => ⟨trivial, ?_, ?_, ?_⟩⟩
              · exact Prim.hit_le_max env p r { min := lo, max := hi } rec0 x hown
              · exact ⟨p, by simp, hown⟩
              · intro p2 hp2 y hy
                rcases List.mem_append.1 hp2 with hp2 | hp2
                · rw [hnone p2 hp2] at hy
                  exact absurd hy (by simp)
                · rw [List.mem_singleton.1 hp2, hown, Option.some.injEq] at hy
                  rw [hy]
      | true =>
          obtain ⟨hclosest, hle, ⟨p0, hp0, hown0⟩, hmin⟩ := htrue hany
          rw [hclosest]
          cases hq : Prim.hit env p r { min := lo, max := Ext.fin st.temp_rec.t } st.temp_rec with
          | none =>
              simp only
              refine ⟨hrng, fun h => ?_, fun _ => ⟨hclosest, hle, ⟨p0, by simp [hp0], hown0⟩, ?_⟩⟩
              · rw [hany] at h
                exact absurd h (by simp)
              · intro p2 hp2 y hy
                rcases List.mem_append.1 hp2 with hp2 | hp2
                · exact hmin p2 hp2 y hy
                · rw [List.mem_singleton.1 hp2] at hy
                  by_contra hlt
                  have := Prim.hit_widen env p r lo hi st.temp_rec.t rec0 st.temp_rec y hle hy
                    (Or.inl (not_le.1 hlt))
                  rw [hq] at this
                  exact absurd this (by simp)
          | some x =>
              simp only
              obtain ⟨hown, hxle, _⟩ :=
                Prim.hit_narrow env p r lo hi st.temp_rec.t st.temp_rec rec0 x hsqrt hle hq
              refine ⟨hrng, fun h => absurd h (by simp), fun _ => ⟨trivial, ?_, ?_, ?_⟩⟩
              · exact Prim.hit_le_max env p r { min := lo, max := hi } rec0 x hown
              · exact ⟨p, by simp, hown⟩
              · intro p2 hp2 y hy
                rcases List.mem_append.1 hp2 with hp2 | hp2
                · exact le_trans hxle (hmin p2 hp2 y hy)
                · rw [List.mem_singleton.1 hp2, hown, Option.some.injEq] at hy
                  rw [hy]

theorem HittableList.ofPrims_objects (env : Env K G) (ps : List (Prim K)) :
    (HittableList.ofPrims env ps : HittableList K G).objects = ps.map (Prim.toHittable env) := by
  have h := (HittableList.foldl_add (ps.map (Prim.toHittable env))
    (HittableList.init : HittableList K G) 0).1
  simp only [HittableList.ofPrims]
  rw [h]
  simp [HittableList.init]

/-- The state of the loop after the first member `m` that is hit at the least `t`, when
every member before it is hit farther away or not at all: the record kept is the one of
`m`. -/
theorem HittableList.scan_first (env : Env K G) (pre : List (Prim K)) (m : Prim K)
    (x : HitRecord K) (r : Ray K) (lo hi : Ext K) (rec0 : HitRecord K) (g : G)
    (hsqrt : ∀ y : K, 0 ≤ y → 0 ≤ env.sqrt y)
    (hm : Prim.hit env m r { min := lo, max := hi } rec0 = some x)
    (hpre : ∀ p ∈ pre, ∀ y, Prim.hit env p r { min := lo, max := hi } rec0 = some y →
      x.t < y.t) :
    HittableList.scan ((pre ++ [m]).map (Prim.toHittable env)) r { min := lo, max := hi } g =
      { temp_rec := x, hit_anything := true, closest_so_far := Ext.fin x.t, rng := g } := by
  rw [List.map_append, List.map_cons, List.map_nil, HittableList.scan_append,
    HittableList.hit_step_prim]
  obtain ⟨hrng, hfalse, htrue⟩ := HittableList.scan_prims env pre r lo hi rec0 g hsqrt
  generalize HittableList.scan (pre.map (Prim.toHittable env)) r { min := lo, max := hi } g
    = st at hrng hfalse htrue
  have hmax := Prim.hit_le_max env m r { min := lo, max := hi } rec0 x hm
  cases hany : st.hit_anything with
  | false =>
      obtain ⟨hclosest, _⟩ := hfalse hany
      rw [hclosest, Prim.hit_rec env m r _ st.temp_rec rec0, hm, hrng]
  | true =>
      obtain ⟨hclosest, hle, ⟨p0, hp0, hown0⟩, _⟩ := htrue hany
      have hlt := hpre p0 hp0 _ hown0
      rw [hclosest, Prim.hit_widen env m r lo hi st.temp_rec.t rec0 st.temp_rec x hle hm
        (Or.inl hlt), hrng]

/-- Once the record `x` is kept with `closest_so_far = x.t`, members that are not hit
nearer, and quads that are hit strictly farther, leave the state of the loop as it is. -/
theorem HittableList.scan_post (env : Env K G) (post : List (Prim K)) (x : HitRecord K)
    (r : Ray K) (lo hi : Ext K) (rec0 : HitRecord K) (g : G)
    (hsqrt : ∀ y : K, 0 ≤ y → 0 ≤ env.sqrt y) (hx : Ext.fin x.t ≤ hi)
    (hpost : ∀ p ∈ post, ∀ y, Prim.hit env p r { min := lo, max := hi } rec0 = some y →
      x.t ≤ y.t ∧ (p.isQuad = true → x.t < y.t)) :
    (post.map (Prim.toHittable env)).foldl (HittableList.hit_step r { min := lo, max := hi })
        { temp_rec := x, hit_anything := true, closest_so_far := Ext.fin x.t, rng := g } =
      { temp_rec := x, hit_anything := true, closest_so_far := Ext.fin x.t, rng := g } := by
  induction post with
  | nil => rfl
  | cons p rest ih =>
      rw [List.map_cons, List.foldl_cons, HittableList.hit_step_prim]
      have hnone : Prim.hit env p r { min := lo, max := Ext.fin x.t } x = none := by
        cases hq : Prim.hit env p r { min := lo, max := Ext.fin x.t } x with
        | none => rfl
        | some y =>
            obtain ⟨hown, hle, hstrict⟩ :=
              Prim.hit_narrow env p r lo hi x.t x rec0 y hsqrt hx hq
            obtain ⟨h1, h2⟩ := hpost p (List.mem_cons_self _ _) y hown
            cases hk : p.isQuad with
            | false => exact absurd (hstrict hk) (not_lt.2 h1)
            | true => exact absurd (h2 hk) (not_lt.2 hle)
      simp only [hnone]
      exact ih (fun p2 hp2 => hpost p2 (List.mem_cons_of_mem _ hp2))

/-! ## The composite list: claims C13 and C14 -/

/-- C13. For a `HittableList` whose members are spheres and quads (the square root being
non-negative), `hit(r, ray_t)` returns `true` exactly when the own `hit(r, ray_t)` of some
member returns `true`; the record it then returns is the full record that a member reports
over `ray_t`, and its `t` is the least of the `t` that the members report over `ray_t`. The
generator state is left as it was. -/
theorem HittableList.hit_closest (env : Env K G) (ps : List (Prim K)) (r : Ray K)
    (ray_t : Interval (Ext K)) (rec rec0 : HitRecord K) (g : G)
    (hsqrt : ∀ y : K, 0 ≤ y → 0 ≤ env.sqrt y) :
    ((HittableList.ofPrims env ps).hit r ray_t rec g).2 = g ∧
    ((((HittableList.ofPrims env ps).hit r ray_t rec g).1.isSome = true) ↔
      ∃ p ∈ ps, (Prim.hit env p r ray_t rec0).isSome = true) ∧
    (∀ x, ((HittableList.ofPrims env ps).hit r ray_t rec g).1 = some x →
      (∃ p ∈ ps, Prim.hit env p r ray_t rec0 = some x) ∧
      ∀ p ∈ ps, ∀ y, Prim.hit env p r ray_t rec0 = some y → x.t ≤ y.t) := by
  rcases ray_t with ⟨lo, hi⟩
  obtain ⟨hrng, hfalse, htrue⟩ := HittableList.scan_prims env ps r lo hi rec0 g hsqrt
  simp only [HittableList.hit, HittableList.ofPrims_objects]
  generalize HittableList.scan (ps.map (Prim.toHittable env)) r { min := lo, max := hi } g
    = st at hrng hfalse htrue
  cases hany : st.hit_anything with
  | false =>
      obtain ⟨_, hnone⟩ := hfalse hany
      refine ⟨hrng, ?_, ?_⟩
      · simp only [Bool.false_eq_true, if_false, Option.isSome_none, false_iff]
        rintro ⟨p, hp, hsome⟩
        rw [hnone p hp] at hsome
        exact absurd hsome (by simp)
      · intro x hx
        simp at hx
  | true =>
      obtain ⟨_, _, ⟨p0, hp0, hown0⟩, hmin⟩ := htrue hany
      refine ⟨hrng, ?_, ?_⟩
      · simp only [if_true, Option.isSome_some, true_iff]
        exact ⟨p0, hp0, by rw [hown0]; rfl⟩
      · intro x hx
        simp only [if_true, Option.some.injEq] at hx
        rw [← hx]
        exact ⟨⟨p0, hp0, hown0⟩, hmin⟩

/-- C14, as the code has it. When the member `m` is hit at `t` over `ray_t`, every member
before it in scan order is hit strictly farther or not at all, and no member after it is hit
nearer: `HittableList::hit` returns the record of `m` provided no quad after `m` is hit at
exactly `t` (a sphere tests the narrowed range with `surrounds` and does not replace it);
a quad right after `m` that is hit at exactly `t` replaces it (a quad tests the narrowed
range with `contains`). -/
theorem HittableList.hit_tie (env : Env K G) (pre post : List (Prim K)) (m : Prim K)
    (x : HitRecord K) (r : Ray K) (ray_t : Interval (Ext K)) (rec rec0 : HitRecord K) (g : G)
    (hsqrt : ∀ y : K, 0 ≤ y → 0 ≤ env.sqrt y)
    (hm : Prim.hit env m r ray_t rec0 = some x)
    (hpre : ∀ p ∈ pre, ∀ y, Prim.hit env p r ray_t rec0 = some y → x.t < y.t)
    (hpost : ∀ p ∈ post, ∀ y, Prim.hit env p r ray_t rec0 = some y →
      x.t ≤ y.t ∧ (p.isQuad = true → x.t < y.t)) :
    (HittableList.ofPrims env (pre ++ m :: post)).hit r ray_t rec g = (some x, g) ∧
    (∀ (q : Quad K) (y : HitRecord K), Prim.hit env (Prim.quad q) r ray_t rec0 = some y →
      y.t = x.t →
      (HittableList.ofPrims env (pre ++ [m, Prim.quad q])).hit r ray_t rec g = (some y, g)) := by
  rcases ray_t with ⟨lo, hi⟩
  have hfirst := HittableList.scan_first env pre m x r lo hi rec0 g hsqrt hm hpre
  have hmax := Prim.hit_le_max env m r { min := lo, max := hi } rec0 x hm
  constructor
  · have hsplit : pre ++ m :: post = (pre ++ [m]) ++ post := by simp
    simp only [HittableList.hit, HittableList.ofPrims_objects]
    rw [hsplit, List.map_append]
    simp only [HittableList.scan, List.foldl_append]
    have h1 : List.foldl (HittableList.hit_step r { min := lo, max := hi })
        { temp_rec := HitRecord.init, hit_anything := false, closest_so_far := hi, rng := g }
        ((pre ++ [m]).map (Prim.toHittable env)) =
        { temp_rec := x, hit_anything := true, closest_so_far := Ext.fin x.t, rng := g } :=
      hfirst
    rw [h1, HittableList.scan_post env post x r lo hi rec0 g hsqrt hmax hpost]
    rfl
  · intro q y hy hty
    have hsplit : pre ++ [m, Prim.quad q] = (pre ++ [m]) ++ [Prim.quad q] := by simp
    simp only [HittableList.hit, HittableList.ofPrims_objects]
    rw [hsplit, List.map_append, List.map_cons, List.map_nil, HittableList.scan_append, hfirst,
      HittableList.hit_step_prim]
    have hq := Prim.hit_widen env (Prim.quad q) r lo hi x.t rec0 x y hmax hy
      (Or.inr ⟨rfl, hty.le⟩)
    simp only [hq, if_true]

/-! ## The render scheduler: the writes to the frame buffer (claim C19) -/

/-- The indices `j * w + i` of the rows `0 .. h - 1`, row after row, are `0 .. h * w - 1`. -/
theorem Renderer.row_major (h w : Nat) :
    (List.range h).flatMap (fun j => (List.range w).map (fun i => j * w + i))
      = List.range (h * w) := by
  induction h with
  | zero => simp
  | succ k ih =>
      rw [List.range_succ, List.flatMap_append, ih, List.flatMap_singleton]
      have h1 : (List.range w).map (fun i => k * w + i) = List.range' (k * w) w := by
        rw [List.range'_eq_map_range]
      rw [h1, List.range_eq_range', List.range_eq_range']
      have h2 := List.range'_append 0 (k * w) w 1
      simp only [Nat.zero_add, Nat.one_mul] at h2
      rw [h2, Nat.succ_mul, Nat.add_comm]

/-- The log of a loop whose every iteration appends to the log. -/
theorem Renderer.foldl_writes {F S α : Type} (step : RenderState F S → α → RenderState F S)
    (f : α → List (Nat × Nat))
    (hstep : ∀ st x, (step st x).writes = st.writes ++ f x) (l : List α)
    (st : RenderState F S) :
    (l.foldl step st).writes = st.writes ++ l.flatMap f := by
  induction l generalizing st with
  | nil => simp
  | cons x rest ih =>
      rw [List.foldl_cons, ih, hstep, List.flatMap_cons, List.append_assoc]

/-- The writes of one worker: its rows in increasing order, each from left to right. -/
theorem Renderer.render_thread_writes
    (sample : Nat → Nat → Nat → Nat → G → Except Fault (Vec3 K) × G) (cam : Camera K G)
    (worker start end_ : Nat) (st : RenderState K G) :
    (Renderer.render_thread sample cam worker start end_ st).writes =
      st.writes ++ (List.range' start (end_ - start)).flatMap
        (fun j => (List.range cam.image_width).map
          (fun i => (worker, j * cam.image_width + i))) := by
  simp only [Renderer.render_thread]
  apply Renderer.foldl_writes
  intro st2 j
  have hrow := Renderer.foldl_writes (Renderer.render_pixel sample cam worker j)
    (fun i => [(worker, j * cam.image_width + i)]) (fun _ _ => rfl)
    (List.range cam.image_width) st2
  rw [hrow]
  congr 1
  induction (List.range cam.image_width) with
  | nil => rfl
  | cons a rest ih => simp [List.flatMap_cons, ih]

/-- The writes of all the workers run in the order `order`. -/
theorem Renderer.run_workers_writes
    (sample : Nat → Nat → Nat → Nat → G → Except Fault (Vec3 K) × G) (cam : Camera K G)
    (n : Nat) (order : List Nat) (st : RenderState K G) :
    (Renderer.run_workers sample cam n order st).writes =
      st.writes ++ order.flatMap (fun t =>
        (List.range' (Renderer.thread_range cam.image_height n t).1
          ((Renderer.thread_range cam.image_height n t).2
            - (Renderer.thread_range cam.image_height n t).1)).flatMap
          (fun j => (List.range cam.image_width).map
            (fun i => (t, j * cam.image_width + i)))) := by
  simp only [Renderer.run_workers]
  apply Renderer.foldl_writes
  intro st2 t
  exact Renderer.render_thread_writes sample cam t _ _ st2

theorem Renderer.foldl_length {F S α : Type} (step : RenderState F S → α → RenderState F S)
    (hstep : ∀ st x, (step st x).frame_buffer.length = st.frame_buffer.length) (l : List α)
    (st : RenderState F S) :
    (l.foldl step st).frame_buffer.length = st.frame_buffer.length := by
  induction l generalizing st with
  | nil => rfl
  | cons x rest ih => rw [List.foldl_cons, ih, hstep]

theorem Renderer.render_thread_length
    (sample : Nat → Nat → Nat → Nat → G → Except Fault (Vec3 K) × G) (cam : Camera K G)
    (worker start end_ : Nat) (st : RenderState K G) :
    (Renderer.render_thread sample cam worker start end_ st).frame_buffer.length =
      st.frame_buffer.length := by
  simp only [Renderer.render_thread]
  apply Renderer.foldl_length
  intro st2 j
  apply Renderer.foldl_length
  intro st3 i
  simp only [Renderer.render_pixel, List.length_set]

theorem Renderer.run_workers_length
    (sample : Nat → Nat → Nat → Nat → G → Except Fault (Vec3 K) × G) (cam : Camera K G)
    (n : Nat) (order : List Nat) (st : RenderState K G) :
    (Renderer.run_workers sample cam n order st).frame_buffer.length =
      st.frame_buffer.length := by
  simp only [Renderer.run_workers]
  apply Renderer.foldl_length
  intro st2 t
  exact Renderer.render_thread_length sample cam t _ _ st2

/-- A property of the state that every iteration of a loop keeps is kept by the loop. -/
theorem Renderer.foldl_invariant {F S α : Type} (P : RenderState F S → Prop)
    (step : RenderState F S → α → RenderState F S) (l : List α)
    (hstep : ∀ st x, x ∈ l → P st → P (step st x)) (st : RenderState F S) (h : P st) :
    P (l.foldl step st) := by
  induction l generalizing st with
  | nil => exact h
  | cons x rest ih =>
      rw [List.foldl_cons]
      exact ih (fun st2 y hy => hstep st2 y (List.mem_cons_of_mem _ hy)) _
        (hstep st x (List.mem_cons_self _ _) h)

/-- The write of one pixel: the cell `j * image_width + i` now holds the value of the pixel
`(i, j)`, and the other cells are as they were. -/
theorem Renderer.render_pixel_cells
    (sample : Nat → Nat → Nat → Nat → G → Except Fault (Vec3 K) × G) (cam : Camera K G)
    (worker j : Nat) (st : RenderState K G) (i : Nat) (hi : i < cam.image_width)
    (h : Renderer.cells_hold_pixels sample cam st) :
    Renderer.cells_hold_pixels sample cam (Renderer.render_pixel sample cam worker j st i) := by
  intro wk hwk hlt
  simp only [Renderer.render_pixel, List.length_set, List.mem_append, List.mem_singleton]
    at hwk hlt ⊢
  rw [List.getElem?_set]
  by_cases hk : j * cam.image_width + i = wk.2
  · rw [if_pos hk, if_pos (by rw [hk]; exact hlt)]
    refine ⟨st.rng, ?_⟩
    have hmod : wk.2 % cam.image_width = i := by
      rw [← hk, Nat.add_comm, Nat.add_mul_mod_self_right]
      exact Nat.mod_eq_of_lt hi
    have hdiv : wk.2 / cam.image_width = j := by
      rw [← hk, Nat.add_comm, Nat.add_mul_div_right _ _ (by omega), Nat.div_eq_of_lt hi,
        Nat.zero_add]
    rw [hmod, hdiv]
  · rw [if_neg hk]
    rcases hwk with hold | hnew
    · exact h wk hold hlt
    · exact absurd (by rw [hnew]) hk

/-- The cells written by a worker hold the values of their pixels. -/
theorem Renderer.render_thread_cells
    (sample : Nat → Nat → Nat → Nat → G → Except Fault (Vec3 K) × G) (cam : Camera K G)
    (worker start end_ : Nat) (st : RenderState K G)
    (h : Renderer.cells_hold_pixels sample cam st) :
    Renderer.cells_hold_pixels sample cam
      (Renderer.render_thread sample cam worker start end_ st) := by
  simp only [Renderer.render_thread]
  apply Renderer.foldl_invariant (Renderer.cells_hold_pixels sample cam) _ _ _ st h
  intro st2 j _ h2
  apply Renderer.foldl_invariant (Renderer.cells_hold_pixels sample cam) _ _ _ st2 h2
  intro st3 i hi h3
  exact Renderer.render_pixel_cells sample cam worker j st3 i (List.mem_range.1 hi) h3

/-- The cells written by the workers hold the values of their pixels. -/
theorem Renderer.run_workers_cells
    (sample : Nat → Nat → Nat → Nat → G → Except Fault (Vec3 K) × G) (cam : Camera K G)
    (n : Nat) (order : List Nat) (st : RenderState K G)
    (h : Renderer.cells_hold_pixels sample cam st) :
    Renderer.cells_hold_pixels sample cam (Renderer.run_workers sample cam n order st) := by
  simp only [Renderer.run_workers]
  apply Renderer.foldl_invariant (Renderer.cells_hold_pixels sample cam) _ _ _ st h
  intro st2 t _ h2
  exact Renderer.render_thread_cells sample cam t _ _ st2 h2

/-- C19. For every image width `w >= 1`, height `h` and thread count `n >= 1`, the render
succeeds and the indices `j * w + i` written by the workers are, in the order of the log,
exactly `0 .. w * h - 1`: every write is inside the frame buffer (of `w * h` cells), every
cell is written exactly once, hence by exactly one worker, and each write `(t, k)` is the
cell `k = j * w + i` of a pixel `(i, j)` with `j` in the row range of the worker `t` and
`0 <= i < w`. The pixel `(i, j)` lands at the row-major index `j * w + i`: after the
render that cell of the frame buffer holds the value computed for the pixel `(i, j)`. -/
theorem Renderer.render_writes_once
    (sample : Nat → Nat → Nat → Nat → G → Except Fault (Vec3 K) × G) (cam : Camera K G)
    (n : Nat) (g : G) (hw : 1 ≤ cam.image_width) (hn : 1 ≤ n) :
    ∃ st, Renderer.render sample cam n g = Except.ok st ∧
      st.frame_buffer.length = cam.image_width * cam.image_height ∧
      st.writes.map Prod.snd = List.range (cam.image_width * cam.image_height) ∧
      (∀ k, k < cam.image_width * cam.image_height →
        (st.writes.map Prod.snd).count k = 1) ∧
      (∀ wk ∈ st.writes, wk.2 < cam.image_width * cam.image_height ∧ wk.1 < n ∧
        ∃ j i, (Renderer.thread_range cam.image_height n wk.1).1 ≤ j ∧
          j < (Renderer.thread_range cam.image_height n wk.1).2 ∧
          i < cam.image_width ∧ wk.2 = j * cam.image_width + i) ∧
      (∀ i j, i < cam.image_width → j < cam.image_height →
        ∃ g1 : G, st.frame_buffer[j * cam.image_width + i]? =
          some (Renderer.pixel_value sample cam i j g1)) := by
  have hn0 : n ≠ 0 := by omega
  have hrange : (Renderer.run_workers sample cam n (List.range n)
      (Renderer.init_state cam g)).writes.map Prod.snd
      = List.range (cam.image_width * cam.image_height) := by
    rw [Renderer.run_workers_writes]
    simp only [Renderer.init_state, List.nil_append, List.map_flatMap, List.map_map]
    have hcomp : ∀ (t j : Nat),
        List.map (Prod.snd ∘ fun i => (t, j * cam.image_width + i))
          (List.range cam.image_width)
          = (List.range cam.image_width).map (fun i => j * cam.image_width + i) :=
      fun _ _ => rfl
    simp only [hcomp]
    rw [← List.flatMap_assoc, Renderer.rows_of_workers cam.image_height n hn,
      Renderer.row_major, Nat.mul_comm]
  have hlen : (Renderer.run_workers sample cam n (List.range n)
      (Renderer.init_state cam g)).frame_buffer.length
      = cam.image_width * cam.image_height := by
    rw [Renderer.run_workers_length]
    simp [Renderer.init_state]
  refine ⟨Renderer.run_workers sample cam n (List.range n) (Renderer.init_state cam g), ?_,
    hlen, hrange, ?_, ?_, ?_⟩
  · simp only [Renderer.render, if_neg hn0]
  · intro k hk
    rw [hrange]
    exact List.count_eq_one_of_mem (List.nodup_range _) (List.mem_range.2 hk)
  · intro wk hwk
    have hin : wk.2 ∈ List.range (cam.image_width * cam.image_height) := by
      rw [← hrange]
      exact List.mem_map.2 ⟨wk, hwk, rfl⟩
    refine ⟨List.mem_range.1 hin, ?_⟩
    rw [Renderer.run_workers_writes] at hwk
    simp only [Renderer.init_state, List.nil_append, List.mem_flatMap, List.mem_map,
      List.mem_range, List.mem_range'] at hwk
    obtain ⟨t, ht, j, ⟨d, hd, hj⟩, i, hi, rfl⟩ := hwk
    refine ⟨ht, j, i, ?_, ?_, hi, rfl⟩
    · simp only
      omega
    · simp only
      omega
  · intro i j hi hj
    have hcells := Renderer.run_workers_cells sample cam n (List.range n)
      (Renderer.init_state cam g)
      (fun wk hwk => absurd hwk (by simp [Renderer.init_state]))
    have hk : j * cam.image_width + i < cam.image_width * cam.image_height := by
      have h1 : (j + 1) * cam.image_width ≤ cam.image_height * cam.image_width :=
        Nat.mul_le_mul_right _ hj
      rw [Nat.add_mul, Nat.one_mul, Nat.mul_comm cam.image_height] at h1
      omega
    have hmem : j * cam.image_width + i ∈ (Renderer.run_workers sample cam n (List.range n)
        (Renderer.init_state cam g)).writes.map Prod.snd := by
      rw [hrange]
      exact List.mem_range.2 hk
    obtain ⟨wk, hwk, hwk2⟩ := List.mem_map.1 hmem
    obtain ⟨g1, hg1⟩ := hcells wk hwk (by rw [hlen, hwk2]; exact hk)
    refine ⟨g1, ?_⟩
    rw [hwk2] at hg1
    rw [hg1]
    have hmod : (j * cam.image_width + i) % cam.image_width = i := by
      rw [Nat.add_comm, Nat.add_mul_mod_self_right]
      exact Nat.mod_eq_of_lt hi
    have hdiv : (j * cam.image_width + i) / cam.image_width = j := by
      rw [Nat.add_comm, Nat.add_mul_div_right _ _ (by omega), Nat.div_eq_of_lt hi,
        Nat.zero_add]
    rw [hmod, hdiv]

/-! ## The render scheduler: the frame buffer cell by cell (claim C20) -/

/-- With samples that do not depend on the generator state, the sums of the sub-samples of
a pixel do not depend on it either. -/
theorem Renderer.pixel_color_fixed
    (sample : Nat → Nat → Nat → Nat → G → Except Fault (Vec3 K) × G) (cam : Camera K G)
    (hsample : ∀ i j s_i s_j g1 g2, (sample i j s_i s_j g1).1 = (sample i j s_i s_j g2).1)
    (i j : Nat) (g1 g2 : G) :
    (Renderer.pixel_color sample cam i j g1).1 = (Renderer.pixel_color sample cam i j g2).1 := by
  have hinner : ∀ (s_j : Nat) (l : List Nat) (acc1 acc2 : Except Fault (Vec3 K) × G),
      acc1.1 = acc2.1 →
      (l.foldl (fun acc s_i =>
          ((acc.1.bind (fun a => (sample i j s_i s_j acc.2).1.map (fun b => Vec3.add a b)),
            (sample i j s_i s_j acc.2).2) : Except Fault (Vec3 K) × G)) acc1).1 =
      (l.foldl (fun acc s_i =>
          ((acc.1.bind (fun a => (sample i j s_i s_j acc.2).1.map (fun b => Vec3.add a b)),
            (sample i j s_i s_j acc.2).2) : Except Fault (Vec3 K) × G)) acc2).1 := by
    intro s_j l
    induction l with
    | nil => intro acc1 acc2 h; exact h
    | cons a rest ih =>
        intro acc1 acc2 h
        simp only [List.foldl_cons]
        apply ih
        simp only [h, hsample i j a s_j acc1.2 acc2.2]
  have houter : ∀ (l : List Nat) (acc1 acc2 : Except Fault (Vec3 K) × G),
      acc1.1 = acc2.1 →
      (l.foldl (fun acc s_j =>
          (List.range cam.sqrt_spp).foldl (fun acc s_i =>
            ((acc.1.bind (fun a => (sample i j s_i s_j acc.2).1.map (fun b => Vec3.add a b)),
              (sample i j s_i s_j acc.2).2) : Except Fault (Vec3 K) × G)) acc) acc1).1 =
      (l.foldl (fun acc s_j =>
          (List.range cam.sqrt_spp).foldl (fun acc s_i =>
            ((acc.1.bind (fun a => (sample i j s_i s_j acc.2).1.map (fun b => Vec3.add a b)),
              (sample i j s_i s_j acc.2).2) : Except Fault (Vec3 K) × G)) acc) acc2).1 := by
    intro l
    induction l with
    | nil => intro acc1 acc2 h; exact h
    | cons a rest ih =>
        intro acc1 acc2 h
        simp only [List.foldl_cons]
        apply ih
        exact hinner a (List.range cam.sqrt_spp) acc1 acc2 h
  exact houter (List.range cam.sqrt_spp) _ _ rfl

theorem Renderer.pixel_value_fixed
    (sample : Nat → Nat → Nat → Nat → G → Except Fault (Vec3 K) × G) (cam : Camera K G)
    (hsample : ∀ i j s_i s_j g1 g2, (sample i j s_i s_j g1).1 = (sample i j s_i s_j g2).1)
    (i j : Nat) (g1 g2 : G) :
    Renderer.pixel_value sample cam i j g1 = Renderer.pixel_value sample cam i j g2 := by
  simp only [Renderer.pixel_value, Renderer.pixel_color_fixed sample cam hsample i j g1 g2]

/-- The cells of the frame buffer after the first `m` pixels of the row `j`. -/
theorem Renderer.row_get
    (sample : Nat → Nat → Nat → Nat → G → Except Fault (Vec3 K) × G) (cam : Camera K G)
    (hsample : ∀ i j s_i s_j g1 g2, (sample i j s_i s_j g1).1 = (sample i j s_i s_j g2).1)
    (worker j m : Nat) (st : RenderState K G) (k : Nat) (g0 : G) :
    ((List.range m).foldl (Renderer.render_pixel sample cam worker j) st).frame_buffer[k]? =
      if j * cam.image_width ≤ k ∧ k < j * cam.image_width + m ∧ k < st.frame_buffer.length
      then some (Renderer.pixel_value sample cam (k - j * cam.image_width) j g0)
      else st.frame_buffer[k]? := by
  induction m with
  | zero =>
      have : ¬ (j * cam.image_width ≤ k ∧ k < j * cam.image_width + 0 ∧
          k < st.frame_buffer.length) := by omega
      rw [if_neg this]
      rfl
  | succ m ih =>
      rw [List.range_succ, List.foldl_append, List.foldl_cons, List.foldl_nil]
      have hlen := Renderer.foldl_length (Renderer.render_pixel sample cam worker j)
        (fun st2 i => by simp only [Renderer.render_pixel, List.length_set])
        (List.range m) st
      generalize (List.range m).foldl (Renderer.render_pixel sample cam worker j) st = st2
        at ih hlen
      simp only [Renderer.render_pixel, List.getElem?_set]
      rw [Renderer.pixel_value_fixed sample cam hsample m j st2.rng g0, hlen]
      by_cases hk : j * cam.image_width + m = k
      · rw [if_pos hk]
        by_cases hl : k < st.frame_buffer.length
        · have h1 : j * cam.image_width + m < st.frame_buffer.length := by omega
          have h2 : j * cam.image_width ≤ k ∧ k < j * cam.image_width + (m + 1) ∧
              k < st.frame_buffer.length := by omega
          have h3 : k - j * cam.image_width = m := by omega
          rw [if_pos h1, if_pos h2, h3]
        · have h1 : ¬ j * cam.image_width + m < st.frame_buffer.length := by omega
          have h2 : ¬ (j * cam.image_width ≤ k ∧ k < j * cam.image_width + (m + 1) ∧
              k < st.frame_buffer.length) := by omega
          rw [if_neg h1, if_neg h2, List.getElem?_eq_none (by omega)]
      · rw [if_neg hk, ih]
        by_cases h2 : j * cam.image_width ≤ k ∧ k < j * cam.image_width + m ∧
            k < st.frame_buffer.length
        · have h3 : j * cam.image_width ≤ k ∧ k < j * cam.image_width + (m + 1) ∧
              k < st.frame_buffer.length := by omega
          rw [if_pos h2, if_pos h3]
        · have h3 : ¬ (j * cam.image_width ≤ k ∧ k < j * cam.image_width + (m + 1) ∧
              k < st.frame_buffer.length) := by omega
          rw [if_neg h2, if_neg h3]

/-- The cells of the frame buffer after a worker has rendered the rows `a .. a + len - 1`:
the cells of these rows hold the value of their pixel, the others are as before. -/
theorem Renderer.rows_get
    (sample : Nat → Nat → Nat → Nat → G → Except Fault (Vec3 K) × G) (cam : Camera K G)
    (hsample : ∀ i j s_i s_j g1 g2, (sample i j s_i s_j g1).1 = (sample i j s_i s_j g2).1)
    (hw : 0 < cam.image_width) (worker a len : Nat) (st : RenderState K G) (k : Nat) (g0 : G) :
    (Renderer.render_thread sample cam worker a (a + len) st).frame_buffer[k]? =
      if a * cam.image_width ≤ k ∧ k < (a + len) * cam.image_width ∧
          k < st.frame_buffer.length
      then some (Renderer.pixel_value sample cam (k % cam.image_width) (k / cam.image_width) g0)
      else st.frame_buffer[k]? := by
  simp only [Renderer.render_thread, Nat.add_sub_cancel_left]
  induction len with
  | zero =>
      have : ¬ (a * cam.image_width ≤ k ∧ k < (a + 0) * cam.image_width ∧
          k < st.frame_buffer.length) := by
        rw [Nat.add_zero]
        omega
      rw [if_neg this]
      rfl
  | succ len ih =>
      rw [List.range'_concat, List.foldl_append, List.foldl_cons, List.foldl_nil, Nat.one_mul]
      have hlen := Renderer.foldl_length
        (fun st j => (List.range cam.image_width).foldl
          (Renderer.render_pixel sample cam worker j) st)
        (fun st2 j => Renderer.foldl_length (Renderer.render_pixel sample cam worker j)
          (fun st3 i => by simp only [Renderer.render_pixel, List.length_set])
          (List.range cam.image_width) st2)
        (List.range' a len) st
      generalize (List.range' a len).foldl
        (fun st j => (List.range cam.image_width).foldl
          (Renderer.render_pixel sample cam worker j) st) st = st2 at ih hlen
      rw [Renderer.row_get sample cam hsample worker (a + len) cam.image_width st2 k g0, hlen, ih]
      have hmul1 : (a + (len + 1)) * cam.image_width
          = (a + len) * cam.image_width + cam.image_width := by ring
      have hmul2 : a * cam.image_width ≤ (a + len) * cam.image_width :=
        Nat.mul_le_mul_right _ (Nat.le_add_right a len)
      by_cases hrow : (a + len) * cam.image_width ≤ k ∧
          k < (a + len) * cam.image_width + cam.image_width ∧ k < st.frame_buffer.length
      · have hdiv : k / cam.image_width = a + len :=
          Nat.div_eq_of_lt_le hrow.1 (by rw [Nat.succ_mul]; exact hrow.2.1)
        have hmod : k % cam.image_width = k - (a + len) * cam.image_width := by
          have := Nat.div_add_mod k cam.image_width
          rw [hdiv, Nat.mul_comm] at this
          omega
        have h3 : a * cam.image_width ≤ k ∧ k < (a + (len + 1)) * cam.image_width ∧
            k < st.frame_buffer.length := by
          rw [hmul1]
          omega
        rw [if_pos hrow, if_pos h3, hdiv, hmod]
      · rw [if_neg hrow]
        by_cases h2 : a * cam.image_width ≤ k ∧ k < (a + len) * cam.image_width ∧
            k < st.frame_buffer.length
        · have h3 : a * cam.image_width ≤ k ∧ k < (a + (len + 1)) * cam.image_width ∧
              k < st.frame_buffer.length := by
            rw [hmul1]
            omega
          rw [if_pos h2, if_pos h3]
        · have h3 : ¬ (a * cam.image_width ≤ k ∧ k < (a + (len + 1)) * cam.image_width ∧
              k < st.frame_buffer.length) := by
            rw [hmul1]
            omega
          rw [if_neg h2, if_neg h3]

/-- The cells of the frame buffer after the worker of the rows `[a, b)`. -/
theorem Renderer.render_thread_get
    (sample : Nat → Nat → Nat → Nat → G → Except Fault (Vec3 K) × G) (cam : Camera K G)
    (hsample : ∀ i j s_i s_j g1 g2, (sample i j s_i s_j g1).1 = (sample i j s_i s_j g2).1)
    (hw : 0 < cam.image_width) (worker a b : Nat) (st : RenderState K G) (k : Nat) (g0 : G) :
    (Renderer.render_thread sample cam worker a b st).frame_buffer[k]? =
      if a * cam.image_width ≤ k ∧ k < b * cam.image_width ∧ k < st.frame_buffer.length
      then some (Renderer.pixel_value sample cam (k % cam.image_width) (k / cam.image_width) g0)
      else st.frame_buffer[k]? := by
  by_cases hab : a ≤ b
  · obtain ⟨len, rfl⟩ : ∃ len, b = a + len := ⟨b - a, by omega⟩
    exact Renderer.rows_get sample cam hsample hw worker a len st k g0
  · have hba : b * cam.image_width ≤ a * cam.image_width :=
      Nat.mul_le_mul_right _ (by omega)
    have hnone : ¬ (a * cam.image_width ≤ k ∧ k < b * cam.image_width ∧
        k < st.frame_buffer.length) := by omega
    have hzero : b - a = 0 := by omega
    rw [if_neg hnone]
    simp only [Renderer.render_thread, hzero, List.range'_zero, List.foldl_nil]

/-- The cells of the frame buffer after the workers of the list `order`, in that order. -/
theorem Renderer.run_workers_get
    (sample : Nat → Nat → Nat → Nat → G → Except Fault (Vec3 K) × G) (cam : Camera K G)
    (hsample : ∀ i j s_i s_j g1 g2, (sample i j s_i s_j g1).1 = (sample i j s_i s_j g2).1)
    (hw : 0 < cam.image_width) (n : Nat) (order : List Nat) (st : RenderState K G) (k : Nat)
    (g0 : G) :
    (Renderer.run_workers sample cam n order st).frame_buffer[k]? =
      if (∃ t ∈ order, (Renderer.thread_range cam.image_height n t).1 * cam.image_width ≤ k ∧
            k < (Renderer.thread_range cam.image_height n t).2 * cam.image_width) ∧
          k < st.frame_buffer.length
      then some (Renderer.pixel_value sample cam (k % cam.image_width) (k / cam.image_width) g0)
      else st.frame_buffer[k]? := by
  induction order generalizing st with
  | nil =>
      simp [Renderer.run_workers]
  | cons t rest ih =>
      have hcons : Renderer.run_workers sample cam n (t :: rest) st =
          Renderer.run_workers sample cam n rest
            (Renderer.render_thread sample cam t
              (Renderer.thread_range cam.image_height n t).1
              (Renderer.thread_range cam.image_height n t).2 st) := rfl
      rw [hcons, ih, Renderer.render_thread_length,
        Renderer.render_thread_get sample cam hsample hw t _ _ st k g0]
      by_cases hrest : (∃ t2 ∈ rest,
          (Renderer.thread_range cam.image_height n t2).1 * cam.image_width ≤ k ∧
            k < (Renderer.thread_range cam.image_height n t2).2 * cam.image_width) ∧
          k < st.frame_buffer.length
      · have hall : (∃ t2 ∈ t :: rest,
            (Renderer.thread_range cam.image_height n t2).1 * cam.image_width ≤ k ∧
              k < (Renderer.thread_range cam.image_height n t2).2 * cam.image_width) ∧
            k < st.frame_buffer.length := by
          obtain ⟨⟨t2, ht2, h2⟩, hl⟩ := hrest
          exact ⟨⟨t2, List.mem_cons_of_mem _ ht2, h2⟩, hl⟩
        rw [if_pos hrest, if_pos hall]
      · rw [if_neg hrest]
        by_cases hthis : (Renderer.thread_range cam.image_height n t).1 * cam.image_width ≤ k ∧
            k < (Renderer.thread_range cam.image_height n t).2 * cam.image_width ∧
            k < st.frame_buffer.length
        · have hall : (∃ t2 ∈ t :: rest,
              (Renderer.thread_range cam.image_height n t2).1 * cam.image_width ≤ k ∧
                k < (Renderer.thread_range cam.image_height n t2).2 * cam.image_width) ∧
              k < st.frame_buffer.length :=
            ⟨⟨t, List.mem_cons_self _ _, hthis.1, hthis.2.1⟩, hthis.2.2⟩
          rw [if_pos hthis, if_pos hall]
        · have hall : ¬ ((∃ t2 ∈ t :: rest,
              (Renderer.thread_range cam.image_height n t2).1 * cam.image_width ≤ k ∧
                k < (Renderer.thread_range cam.image_height n t2).2 * cam.image_width) ∧
              k < st.frame_buffer.length) := by
            rintro ⟨⟨t2, ht2, h2⟩, hl⟩
            rcases List.mem_cons.1 ht2 with rfl | ht2
            · exact hthis ⟨h2.1, h2.2, hl⟩
            · exact hrest ⟨⟨t2, ht2, h2⟩, hl⟩
          rw [if_neg hthis, if_neg hall]

/-- With samples that do not depend on the generator state, the workers of `n` threads, run
in any order, leave the frame buffer of one worker that renders all the rows. -/
theorem Renderer.run_workers_frame_buffer
    (sample : Nat → Nat → Nat → Nat → G → Except Fault (Vec3 K) × G) (cam : Camera K G)
    (hsample : ∀ i j s_i s_j g1 g2, (sample i j s_i s_j g1).1 = (sample i j s_i s_j g2).1)
    (n : Nat) (hn : 1 ≤ n) (order : List Nat) (horder : order.Perm (List.range n))
    (g g2 : G) :
    (Renderer.run_workers sample cam n order (Renderer.init_state cam g)).frame_buffer =
      (Renderer.render_thread sample cam 0 0 cam.image_height
        (Renderer.init_state cam g2)).frame_buffer := by
  have hlen : ∀ g3 : G, (Renderer.init_state cam g3).frame_buffer.length
      = cam.image_width * cam.image_height := by
    intro g3
    simp only [Renderer.init_state, List.length_replicate]
  have hbuf : (Renderer.init_state cam g).frame_buffer
      = (Renderer.init_state cam g2).frame_buffer := rfl
  rcases Nat.eq_zero_or_pos cam.image_width with hw | hw
  · have h1 : (Renderer.run_workers sample cam n order
        (Renderer.init_state cam g)).frame_buffer.length = 0 := by
      rw [Renderer.run_workers_length, hlen, hw, Nat.zero_mul]
    have h2 : (Renderer.render_thread sample cam 0 0 cam.image_height
        (Renderer.init_state cam g2)).frame_buffer.length = 0 := by
      rw [Renderer.render_thread_length, hlen, hw, Nat.zero_mul]
    rw [List.length_eq_zero.1 h1, List.length_eq_zero.1 h2]
  · apply List.ext_getElem?
    intro k
    rw [Renderer.run_workers_get sample cam hsample hw n order _ k g,
      Renderer.render_thread_get sample cam hsample hw 0 0 cam.image_height _ k g,
      hlen, hlen, hbuf]
    by_cases hk : k < cam.image_width * cam.image_height
    · have hkh : k < cam.image_height * cam.image_width := by
        rw [Nat.mul_comm]
        exact hk
      have hj : k / cam.image_width < cam.image_height := (Nat.div_lt_iff_lt_mul hw).2 hkh
      have hmem : k / cam.image_width ∈ List.range cam.image_height := List.mem_range.2 hj
      rw [← Renderer.rows_of_workers cam.image_height n hn] at hmem
      obtain ⟨t, ht, hjt⟩ := List.mem_flatMap.1 hmem
      rw [List.mem_range'_1] at hjt
      have hlow : (Renderer.thread_range cam.image_height n t).1 * cam.image_width ≤ k :=
        le_trans (Nat.mul_le_mul_right _ hjt.1) (Nat.div_mul_le_self k cam.image_width)
      have hup : k < (Renderer.thread_range cam.image_height n t).2 * cam.image_width := by
        have h3 : (k / cam.image_width + 1) * cam.image_width
            ≤ (Renderer.thread_range cam.image_height n t).2 * cam.image_width :=
          Nat.mul_le_mul_right _ (by omega)
        have h4 := Nat.div_add_mod k cam.image_width
        have h5 := Nat.mod_lt k hw
        rw [Nat.add_mul, Nat.one_mul, Nat.mul_comm] at h3
        generalize k / cam.image_width = q at h3 h4
        generalize k % cam.image_width = m at h4 h5
        omega
      have hall : (∃ t2 ∈ order,
          (Renderer.thread_range cam.image_height n t2).1 * cam.image_width ≤ k ∧
            k < (Renderer.thread_range cam.image_height n t2).2 * cam.image_width) ∧
          k < cam.image_width * cam.image_height :=
        ⟨⟨t, horder.mem_iff.2 ht, hlow, hup⟩, hk⟩
      have hone : 0 * cam.image_width ≤ k ∧ k < cam.image_height * cam.image_width ∧
          k < cam.image_width * cam.image_height := ⟨by omega, hkh, hk⟩
      rw [if_pos hall, if_pos hone]
    · have hall : ¬ ((∃ t2 ∈ order,
          (Renderer.thread_range cam.image_height n t2).1 * cam.image_width ≤ k ∧
            k < (Renderer.thread_range cam.image_height n t2).2 * cam.image_width) ∧
          k < cam.image_width * cam.image_height) := fun h => hk h.2
      have hone : ¬ (0 * cam.image_width ≤ k ∧ k < cam.image_height * cam.image_width ∧
          k < cam.image_width * cam.image_height) := fun h => hk h.2.2
      rw [if_neg hall, if_neg hone]

/-- C20. When the colour of each sample is a fixed function of the pixel `(i, j)` and of the
sub-sample indices (it does not depend on the state of the generator), then for every thread
count `n >= 1` the render succeeds and its frame buffer is the frame buffer that a single
worker covering the rows `[0, image_height)` produces, which is also the frame buffer of the
render with one thread; this holds in whatever order the `n` workers run. -/
theorem Renderer.thread_count_invariance
    (sample : Nat → Nat → Nat → Nat → G → Except Fault (Vec3 K) × G) (cam : Camera K G)
    (hsample : ∀ i j s_i s_j g1 g2, (sample i j s_i s_j g1).1 = (sample i j s_i s_j g2).1)
    (n : Nat) (hn : 1 ≤ n) (order : List Nat) (horder : order.Perm (List.range n)) (g : G) :
    (∃ st st1, Renderer.render sample cam n g = Except.ok st ∧
      Renderer.render sample cam 1 g = Except.ok st1 ∧
      st.frame_buffer = st1.frame_buffer ∧
      st.frame_buffer = (Renderer.render_thread sample cam 0 0 cam.image_height
        (Renderer.init_state cam g)).frame_buffer) ∧
    (Renderer.run_workers sample cam n order (Renderer.init_state cam g)).frame_buffer =
      (Renderer.render_thread sample cam 0 0 cam.image_height
        (Renderer.init_state cam g)).frame_buffer := by
  have hn0 : n ≠ 0 := by omega
  have hall := Renderer.run_workers_frame_buffer sample cam hsample n hn (List.range n)
    (List.Perm.refl _) g g
  have hone := Renderer.run_workers_frame_buffer sample cam hsample 1 (le_refl 1) (List.range 1)
    (List.Perm.refl _) g g
  refine ⟨⟨Renderer.run_workers sample cam n (List.range n) (Renderer.init_state cam g),
    Renderer.run_workers sample cam 1 (List.range 1) (Renderer.init_state cam g), ?_, ?_, ?_,
    hall⟩, Renderer.run_workers_frame_buffer sample cam hsample n hn order horder g g⟩
  · simp only [Renderer.render, if_neg hn0]
  · simp only [Renderer.render, if_neg (Nat.one_ne_zero)]
  · rw [hall, hone]

end Field

/-! ## The claims C11 to C20 at the concrete scene -/

theorem sqrtQ_nonneg (y : ℚ) : 0 ≤ sqrtQ y := by
  unfold sqrtQ
  positivity

theorem sphereQ_inside_discriminant (mat : Option (Material ℚ)) :
    Sphere.discriminant (sphereQ mat) rayInsideQ = 1 := by
  simp only [Sphere.discriminant, Sphere.center, sphereQ, Sphere.mkStationary]
  simp only [Bool.false_eq_true, if_false]
  simp only [Vec3.sub, Vec3.dot, Vec3.length_squared]
  simp only [rayInsideQ]
  norm_num

theorem sphere_roots_through_centre_witness :
    Vec3.length_squared rayInsideQ.dir = 1 ∧
    (sphereQ (some greyQ)).center rayInsideQ = rayInsideQ.at (1 / 2) ∧
    (1 / 2 : ℚ) < (sphereQ (some greyQ)).radius ∧
    (sphereQ (some greyQ)).discriminant rayInsideQ
      = (sphereQ (some greyQ)).radius * (sphereQ (some greyQ)).radius ∧
    Sphere.root_near envQ (sphereQ (some greyQ)) rayInsideQ
      = 1 / 2 - (sphereQ (some greyQ)).radius ∧
    Sphere.root_far envQ (sphereQ (some greyQ)) rayInsideQ
      = 1 / 2 + (sphereQ (some greyQ)).radius :=
  have hunit : Vec3.length_squared rayInsideQ.dir = 1 := by
    simp only [rayInsideQ, Vec3.length_squared]
    norm_num
  have hcentre : (sphereQ (some greyQ)).center rayInsideQ = rayInsideQ.at (1 / 2) := by
    simp only [Sphere.center, sphereQ, Sphere.mkStationary]
    simp only [Bool.false_eq_true, if_false]
    simp only [rayInsideQ, Ray.at, Vec3.add, Vec3.smul]
    norm_num
  have hlt : (1 / 2 : ℚ) < (sphereQ (some greyQ)).radius := by
    simp only [sphereQ, Sphere.mkStationary]
    norm_num
  have hsqrt : 0 ≤ (sphereQ (some greyQ)).discriminant rayInsideQ →
      0 ≤ envQ.sqrt ((sphereQ (some greyQ)).discriminant rayInsideQ) ∧
      envQ.sqrt ((sphereQ (some greyQ)).discriminant rayInsideQ) *
        envQ.sqrt ((sphereQ (some greyQ)).discriminant rayInsideQ) =
          (sphereQ (some greyQ)).discriminant rayInsideQ := by
    intro _
    have hsq : envQ.sqrt 1 = 1 := sqrtQ_one
    rw [sphereQ_inside_discriminant, hsq]
    norm_num
  have h := Sphere.roots_through_centre envQ (sphereQ (some greyQ)) rayInsideQ (1 / 2) hunit
    (by norm_num) hlt hcentre hsqrt
  ⟨hunit, hcentre, hlt, h.2.2.2.1, h.2.2.2.2.2.1, h.2.2.2.2.2.2.1⟩

theorem quadQ_normal (mat : Option (Material ℚ)) : (quadQ mat).normal = ⟨0, 0, 1⟩ := by
  have hsq : envQ.sqrt 1 = 1 := sqrtQ_one
  simp only [quadQ, Quad.make, unit_vector, Vec3.length, Vec3.cross, Vec3.length_squared]
  norm_num
  simp only [hsq, Vec3.div]
  norm_num

theorem quadQ_plane_t (mat : Option (Material ℚ)) (x y : ℚ) :
    (quadQ mat).plane_t (rayDownQ x y) = 1 := by
  have hD : (quadQ mat).D = Vec3.dot (quadQ mat).normal ⟨0, 0, 0⟩ := rfl
  simp only [Quad.plane_t, hD, quadQ_normal, rayDownQ, Vec3.dot]
  norm_num

theorem quadQ_alpha (mat : Option (Material ℚ)) (x y : ℚ) :
    (quadQ mat).alpha (rayDownQ x y) = x := by
  have hw : (quadQ mat).w = Vec3.div (Vec3.cross ⟨1, 0, 0⟩ ⟨0, 1, 0⟩)
      (Vec3.dot (Vec3.cross ⟨1, 0, 0⟩ ⟨0, 1, 0⟩) (Vec3.cross ⟨1, 0, 0⟩ ⟨0, 1, 0⟩)) := rfl
  have hQ : (quadQ mat).Q = ⟨0, 0, 0⟩ := rfl
  have hv : (quadQ mat).v = ⟨0, 1, 0⟩ := rfl
  simp only [Quad.alpha, quadQ_plane_t, hw, hQ, hv]
  simp only [rayDownQ, Ray.at, Vec3.add, Vec3.smul, Vec3.sub, Vec3.cross, Vec3.dot, Vec3.div]
  norm_num

theorem quadQ_beta (mat : Option (Material ℚ)) (x y : ℚ) :
    (quadQ mat).beta (rayDownQ x y) = y := by
  have hw : (quadQ mat).w = Vec3.div (Vec3.cross ⟨1, 0, 0⟩ ⟨0, 1, 0⟩)
      (Vec3.dot (Vec3.cross ⟨1, 0, 0⟩ ⟨0, 1, 0⟩) (Vec3.cross ⟨1, 0, 0⟩ ⟨0, 1, 0⟩)) := rfl
  have hQ : (quadQ mat).Q = ⟨0, 0, 0⟩ := rfl
  have hu : (quadQ mat).u = ⟨1, 0, 0⟩ := rfl
  simp only [Quad.beta, quadQ_plane_t, hw, hQ, hu]
  simp only [rayDownQ, Ray.at, Vec3.add, Vec3.smul, Vec3.sub, Vec3.cross, Vec3.dot, Vec3.div]
  norm_num

theorem quadQ_denom (mat : Option (Material ℚ)) (x y : ℚ) :
    (1e-8 : ℚ) ≤ |Vec3.dot (quadQ mat).normal (rayDownQ x y).dir| := by
  simp only [quadQ_normal, rayDownQ, Vec3.dot]
  norm_num

/-- The hit of the ray `rayDownQ x y` on `quadQ mat`, over a range that contains 1, for a
point `(x, y)` of the unit square. -/
theorem quadQ_hit (mat : Option (Material ℚ)) (x y : ℚ) (ray_t : Interval (Ext ℚ))
    (rec : HitRecord ℚ) (ht : ray_t.contains (Ext.fin 1) = true)
    (hx : 0 ≤ x ∧ x ≤ 1 ∧ 0 ≤ y ∧ y ≤ 1) :
    Quad.hit (quadQ mat) (rayDownQ x y) ray_t rec = some (recQuadQ mat x y) := by
  have hmat : (quadQ mat).mat = mat := rfl
  rw [Quad.hit_eq (quadQ mat) (rayDownQ x y) ray_t rec (quadQ_denom mat x y)
    (by rw [quadQ_plane_t]; exact ht)]
  simp only [quadQ_alpha, quadQ_beta, quadQ_plane_t, quadQ_normal, hmat, if_pos hx]
  simp only [HitRecord.set_face_normal, rayDownQ, Ray.at, Vec3.add, Vec3.smul, Vec3.dot,
    recQuadQ]
  norm_num

theorem estimator_range_contains_one :
    (estimator_range : Interval (Ext ℚ)).contains (Ext.fin 1) = true := by
  rw [Interval.contains_fin]
  constructor
  · simp only [estimator_range, Ext.fin_le_fin]
    norm_num
  · exact trivial

theorem hittable_list_hit_closest_witness :
    (∀ y : ℚ, 0 ≤ y → 0 ≤ envQ.sqrt y) ∧
    ((HittableList.ofPrims envQ primsQ).hit rayQ estimator_range HitRecord.init 0).2 = 0 ∧
    ((HittableList.ofPrims envQ primsQ).hit rayQ estimator_range HitRecord.init 0).1.isSome
      = true ∧
    (∀ x, ((HittableList.ofPrims envQ primsQ).hit rayQ estimator_range HitRecord.init 0).1
        = some x →
      (∃ p ∈ primsQ, Prim.hit envQ p rayQ estimator_range HitRecord.init = some x) ∧
      x.t ≤ (recQ (some greyQ)).t) :=
  have hsqrt : ∀ y : ℚ, 0 ≤ y → 0 ≤ envQ.sqrt y := fun y _ => sqrtQ_nonneg y
  have hmem : Prim.sphere (sphereQ (some greyQ)) ∈ primsQ := List.mem_cons_self _ _
  have hown : Prim.hit envQ (Prim.sphere (sphereQ (some greyQ))) rayQ estimator_range
      HitRecord.init = some (recQ (some greyQ)) := sphereQ_hit (some greyQ) HitRecord.init
  have h := HittableList.hit_closest envQ primsQ rayQ estimator_range HitRecord.init
    HitRecord.init 0 hsqrt
  ⟨hsqrt, h.1, h.2.1.2 ⟨_, hmem, by rw [hown]; rfl⟩,
    fun x hx => ⟨(h.2.2 x hx).1, (h.2.2 x hx).2 _ hmem _ hown⟩⟩

theorem hittable_list_hit_tie_witness :
    Prim.hit envQ (Prim.sphere (sphereQ (some greyQ))) rayQ estimator_range HitRecord.init
      = some (recQ (some greyQ)) ∧
    Prim.hit envQ (Prim.sphere (sphereQ (some lightQ))) rayQ estimator_range HitRecord.init
      = some (recQ (some lightQ)) ∧
    (recQ (some lightQ)).t = (recQ (some greyQ)).t ∧
    (HittableList.ofPrims envQ
        ([] ++ Prim.sphere (sphereQ (some greyQ)) :: [Prim.sphere (sphereQ (some lightQ))])).hit
      rayQ estimator_range HitRecord.init 0 = (some (recQ (some greyQ)), 0) :=
  have hm : Prim.hit envQ (Prim.sphere (sphereQ (some greyQ))) rayQ estimator_range
      HitRecord.init = some (recQ (some greyQ)) := sphereQ_hit (some greyQ) HitRecord.init
  have hl : Prim.hit envQ (Prim.sphere (sphereQ (some lightQ))) rayQ estimator_range
      HitRecord.init = some (recQ (some lightQ)) := sphereQ_hit (some lightQ) HitRecord.init
  have hpost : ∀ p ∈ [Prim.sphere (sphereQ (some lightQ))], ∀ y,
      Prim.hit envQ p rayQ estimator_range HitRecord.init = some y →
      (recQ (some greyQ)).t ≤ y.t ∧ (p.isQuad = true → (recQ (some greyQ)).t < y.t) := by
    intro p hp y hy
    rw [List.mem_singleton] at hp
    subst hp
    rw [hl] at hy
    rw [← Option.some.inj hy]
    exact ⟨le_refl _, fun hq => absurd hq (by simp [Prim.isQuad])⟩
  ⟨hm, hl, rfl,
    (HittableList.hit_tie envQ [] [Prim.sphere (sphereQ (some lightQ))]
      (Prim.sphere (sphereQ (some greyQ))) (recQ (some greyQ)) rayQ estimator_range
      HitRecord.init HitRecord.init 0 (fun y _ => sqrtQ_nonneg y) hm
      (fun p hp => absurd hp (List.not_mem_nil p)) hpost).1⟩

/-- C14, counterexample. Two coincident unit squares, the first grey and the second a light,
and a ray that falls on them at `(0.3, 0.4, 0)`: each is hit at `t = 1` over
`(0.001, +infinity)`, no member is hit at a smaller `t`, and `HittableList::hit` returns the
record of the second one (the light), not of the first in scan order. -/
theorem hittable_list_tie_counterexample :
    Prim.hit envQ (Prim.quad (quadQ (some greyQ))) (rayDownQ (3 / 10) (2 / 5)) estimator_range
      HitRecord.init = some (recQuadQ (some greyQ) (3 / 10) (2 / 5)) ∧
    Prim.hit envQ (Prim.quad (quadQ (some lightQ))) (rayDownQ (3 / 10) (2 / 5)) estimator_range
      HitRecord.init = some (recQuadQ (some lightQ) (3 / 10) (2 / 5)) ∧
    (recQuadQ (some greyQ) (3 / 10) (2 / 5)).t = (recQuadQ (some lightQ) (3 / 10) (2 / 5)).t ∧
    (HittableList.ofPrims envQ
        [Prim.quad (quadQ (some greyQ)), Prim.quad (quadQ (some lightQ))]).hit
      (rayDownQ (3 / 10) (2 / 5)) estimator_range HitRecord.init 0
        = (some (recQuadQ (some lightQ) (3 / 10) (2 / 5)), 0) ∧
    recQuadQ (some lightQ) (3 / 10) (2 / 5) ≠ recQuadQ (some greyQ) (3 / 10) (2 / 5) := by
  have hx : (0 : ℚ) ≤ 3 / 10 ∧ (3 / 10 : ℚ) ≤ 1 ∧ (0 : ℚ) ≤ 2 / 5 ∧ (2 / 5 : ℚ) ≤ 1 := by
    norm_num
  have hnarrow : (Interval.mk (estimator_range : Interval (Ext ℚ)).min
      (Ext.fin (recQuadQ (some greyQ) (3 / 10) (2 / 5)).t)).contains (Ext.fin 1) = true := by
    rw [Interval.contains_fin]
    constructor
    · simp only [estimator_range, Ext.fin_le_fin]
      norm_num
    · simp only [recQuadQ, Ext.fin_le_fin]
      exact le_refl _
  have hfull : (Interval.mk (estimator_range : Interval (Ext ℚ)).min
      (estimator_range : Interval (Ext ℚ)).max).contains (Ext.fin 1) = true :=
    estimator_range_contains_one
  refine ⟨quadQ_hit _ _ _ _ _ estimator_range_contains_one hx,
    quadQ_hit _ _ _ _ _ estimator_range_contains_one hx, rfl, ?_, ?_⟩
  · simp only [HittableList.hit, HittableList.ofPrims_objects, List.map_cons, List.map_nil,
      HittableList.scan, List.foldl_cons, List.foldl_nil, HittableList.hit_step_prim, Prim.hit]
    rw [quadQ_hit _ _ _ _ _ hfull hx]
    rw [quadQ_hit _ _ _ _ _ hnarrow hx]
    simp only [if_true]
  · intro h
    have hmat := congrArg HitRecord.mat h
    simp [recQuadQ, lightQ, greyQ] at hmat

theorem hittable_list_bbox_union_witness :
    objsQ ≠ [] ∧
    (objsQ.foldl HittableList.add HittableList.init).objects = objsQ ∧
    (∀ o ∈ objsQ,
      ((objsQ.foldl HittableList.add HittableList.init).bbox.axis_interval 1).min
        ≤ (o.bounding_box.axis_interval 1).min) ∧
    (∀ o ∈ objsQ,
      (o.bounding_box.axis_interval 1).max
        ≤ ((objsQ.foldl HittableList.add HittableList.init).bbox.axis_interval 1).max) :=
  have hne : objsQ ≠ [] := List.cons_ne_nil _ _
  have h := HittableList.bbox_union objsQ hne 1
  ⟨hne, h.1, h.2.1, h.2.2.2.1⟩

theorem hittable_list_pdf_value_mean_witness :
    1 ≤ lightListQ.objects.length ∧
    lightListQ.pdf_value ⟨0, 0, 0⟩ ⟨0, 1, 0⟩ =
      (1 / (lightListQ.objects.length : ℚ)) *
        (lightListQ.objects.map (fun object => object.pdf_value ⟨0, 0, 0⟩ ⟨0, 1, 0⟩)).sum :=
  have hn : 1 ≤ lightListQ.objects.length := by
    simp [lightListQ, HittableList.add, HittableList.init]
  ⟨hn, (HittableList.pdf_value_mean lightListQ ⟨0, 0, 0⟩ ⟨0, 1, 0⟩ hn).1⟩

theorem thread_range_partition_witness :
    1 ≤ 4 ∧
    (Renderer.thread_range 10 4 0).1 = 0 ∧
    (Renderer.thread_range 10 4 (4 - 1)).2 = 10 ∧
    (List.range 4).flatMap
        (fun t => List.range' (Renderer.thread_range 10 4 t).1
          ((Renderer.thread_range 10 4 t).2 - (Renderer.thread_range 10 4 t).1))
      = List.range 10 ∧
    (Renderer.thread_range 10 4 (4 - 1)).2 - (Renderer.thread_range 10 4 (4 - 1)).1
      = 10 / 4 + 10 % 4 :=
  have hn : 1 ≤ 4 := by decide
  have h := Renderer.thread_range_partition 10 4 hn
  ⟨hn, h.1, h.2.2.1, h.2.2.2.2.1, h.2.2.2.2.2.2⟩

theorem render_writes_once_witness :
    1 ≤ camQ.image_width ∧
    ∃ st, Renderer.render sampleQ camQ 2 0 = Except.ok st ∧
      st.frame_buffer.length = camQ.image_width * camQ.image_height ∧
      st.writes.map Prod.snd = List.range (camQ.image_width * camQ.image_height) ∧
      (∀ k, k < camQ.image_width * camQ.image_height →
        (st.writes.map Prod.snd).count k = 1) ∧
      st.frame_buffer[1 * camQ.image_width + 2]? = some (Except.ok ⟨2, 1, 0⟩) :=
  have hw : 1 ≤ camQ.image_width := by decide
  have hvalue : ∀ g1 : Nat, Renderer.pixel_value sampleQ camQ 2 1 g1 = Except.ok ⟨2, 1, 0⟩ := by
    intro g1
    simp [Renderer.pixel_value, Renderer.pixel_color, camQ, sampleQ, List.range_succ,
      Except.bind, Except.map, Vec3.add, Vec3.zero, Vec3.smul]
  ⟨hw,
    match Renderer.render_writes_once sampleQ camQ 2 0 hw (by decide) with
    | ⟨st, h1, h2, h3, h4, _, h6⟩ =>
        ⟨st, h1, h2, h3, h4,
          match h6 2 1 (by decide) (by decide) with
          | ⟨g1, hg1⟩ => by rw [hg1, hvalue g1]⟩⟩

theorem thread_count_invariance_witness :
    (∀ i j s_i s_j g1 g2, (sampleQ i j s_i s_j g1).1 = (sampleQ i j s_i s_j g2).1) ∧
    List.Perm [1, 0] (List.range 2) ∧
    (Renderer.run_workers sampleQ camQ 2 [1, 0] (Renderer.init_state camQ 0)).frame_buffer =
      (Renderer.render_thread sampleQ camQ 0 0 camQ.image_height
        (Renderer.init_state camQ 0)).frame_buffer ∧
    ∃ st st1, Renderer.render sampleQ camQ 2 0 = Except.ok st ∧
      Renderer.render sampleQ camQ 1 0 = Except.ok st1 ∧
      st.frame_buffer = st1.frame_buffer :=
  have hsample : ∀ i j s_i s_j g1 g2,
      (sampleQ i j s_i s_j g1).1 = (sampleQ i j s_i s_j g2).1 := fun _ _ _ _ _ _ => rfl
  have horder : List.Perm [1, 0] (List.range 2) := List.Perm.swap 0 1 []
  have h := Renderer.thread_count_invariance sampleQ camQ hsample 2 (by decide) [1, 0] horder 0
  ⟨hsample, horder, h.2,
    match h.1 with
    | ⟨st, st1, h1, h2, h3, _⟩ => ⟨st, st1, h1, h2, h3⟩⟩

section Field

variable {K G : Type} [LinearOrderedField K]

/-! ## Bounding boxes: the enclosing box and the padding (claims C21, C22) -/

theorem Ext.le_of_not_lt_ext {a b : Ext K} (h : ¬ a < b) : b ≤ a := by
  cases a <;> cases b <;> first
    | exact trivial
    | exact absurd trivial h
    | exact not_lt.1 h

theorem Ext.not_lt_of_le_ext {a b : Ext K} (h : a ≤ b) : ¬ b < a := by
  cases a <;> cases b <;> first
    | exact fun h2 => h2
    | exact absurd h (fun h2 => h2)
    | exact not_lt.2 h

/-- The interval enclosing two intervals: its bounds are the smaller `min` and the larger
`max`. -/
theorem Interval.ofIntervals_bounds (a b : Interval (Ext K)) :
    ((Interval.ofIntervals a b).min ≤ a.min ∧ (Interval.ofIntervals a b).min ≤ b.min ∧
      ((Interval.ofIntervals a b).min = a.min ∨ (Interval.ofIntervals a b).min = b.min)) ∧
    (a.max ≤ (Interval.ofIntervals a b).max ∧ b.max ≤ (Interval.ofIntervals a b).max ∧
      ((Interval.ofIntervals a b).max = a.max ∨ (Interval.ofIntervals a b).max = b.max)) := by
  simp only [Interval.ofIntervals]
  constructor
  · by_cases h : a.min ≤ b.min
    · rw [if_pos h]
      exact ⟨Ext.le_refl_ext _, h, Or.inl rfl⟩
    · rw [if_neg h]
      exact ⟨Ext.le_of_not_le_ext h, Ext.le_refl_ext _, Or.inr rfl⟩
  · by_cases h : a.max ≥ b.max
    · rw [if_pos h]
      exact ⟨Ext.le_refl_ext _, h, Or.inl rfl⟩
    · rw [if_neg h]
      exact ⟨Ext.le_of_not_le_ext h, Ext.le_refl_ext _, Or.inr rfl⟩

theorem AABB.ofBoxes_axis (box0 box1 : AABB K) (n : Int) :
    (AABB.ofBoxes box0 box1).axis_interval n =
      Interval.ofIntervals (box0.axis_interval n) (box1.axis_interval n) := by
  simp only [AABB.ofBoxes, AABB.axis_interval]
  split_ifs <;> rfl

/-- C21. For any two boxes (finite or not), on every axis the `min` of `AABB(box0, box1)`
is below both boxes' mins and is one of them (the smaller), its `max` is above both boxes'
maxes and is one of them (the larger): the box contains both, and it is contained in every
box `c` that contains both. -/
theorem AABB.ofBoxes_tightest (box0 box1 : AABB K) (n : Int) :
    ((AABB.ofBoxes box0 box1).axis_interval n).min ≤ (box0.axis_interval n).min ∧
    ((AABB.ofBoxes box0 box1).axis_interval n).min ≤ (box1.axis_interval n).min ∧
    (box0.axis_interval n).max ≤ ((AABB.ofBoxes box0 box1).axis_interval n).max ∧
    (box1.axis_interval n).max ≤ ((AABB.ofBoxes box0 box1).axis_interval n).max ∧
    (((AABB.ofBoxes box0 box1).axis_interval n).min = (box0.axis_interval n).min ∨
      ((AABB.ofBoxes box0 box1).axis_interval n).min = (box1.axis_interval n).min) ∧
    (((AABB.ofBoxes box0 box1).axis_interval n).max = (box0.axis_interval n).max ∨
      ((AABB.ofBoxes box0 box1).axis_interval n).max = (box1.axis_interval n).max) ∧
    (∀ c : AABB K,
      ((c.axis_interval n).min ≤ (box0.axis_interval n).min ∧
        (c.axis_interval n).min ≤ (box1.axis_interval n).min ∧
        (box0.axis_interval n).max ≤ (c.axis_interval n).max ∧
        (box1.axis_interval n).max ≤ (c.axis_interval n).max) →
      ((c.axis_interval n).min ≤ ((AABB.ofBoxes box0 box1).axis_interval n).min ∧
        ((AABB.ofBoxes box0 box1).axis_interval n).max ≤ (c.axis_interval n).max)) := by
  rw [AABB.ofBoxes_axis]
  obtain ⟨⟨h1, h2, h3⟩, h4, h5, h6⟩ :=
    Interval.ofIntervals_bounds (box0.axis_interval n) (box1.axis_interval n)
  refine ⟨h1, h2, h4, h5, h3, h6, ?_⟩
  rintro c ⟨c1, c2, c3, c4⟩
  constructor
  · rcases h3 with h | h
    · rw [h]
      exact c1
    · rw [h]
      exact c2
  · rcases h6 with h | h
    · rw [h]
      exact c3
    · rw [h]
      exact c4

/-- The padding step on an interval of finite bounds. -/
theorem Interval.pad_fin (lo hi delta : K) :
    (if (({ min := Ext.fin lo, max := Ext.fin hi } : Interval (Ext K)).size_lt delta) = true
      then ({ min := Ext.fin lo, max := Ext.fin hi } : Interval (Ext K)).expand delta
      else { min := Ext.fin lo, max := Ext.fin hi }) =
    if hi - lo < delta then
      { min := Ext.fin (lo + -(delta / 2)), max := Ext.fin (hi + delta / 2) }
    else { min := Ext.fin lo, max := Ext.fin hi } := by
  simp only [Interval.size_lt, Interval.size, Ext.sub, Interval.expand, Ext.addFin,
    Ext.fin_lt_fin, decide_eq_true_eq]

theorem Ext.fmin_fin (a : Ext K) (y : K) :
    Ext.fmin a (some (Ext.fin y)) ≤ a ∧ Ext.fmin a (some (Ext.fin y)) ≤ Ext.fin y ∧
    (Ext.fmin a (some (Ext.fin y)) = a ∨ Ext.fmin a (some (Ext.fin y)) = Ext.fin y) := by
  simp only [Ext.fmin]
  by_cases h : Ext.fin y < a
  · rw [if_pos h]
    exact ⟨Ext.le_of_lt_ext h, Ext.le_refl_ext _, Or.inr rfl⟩
  · rw [if_neg h]
    exact ⟨Ext.le_refl_ext _, Ext.le_of_not_lt_ext h, Or.inl rfl⟩

theorem Ext.fmax_fin (a : Ext K) (y : K) :
    a ≤ Ext.fmax a (some (Ext.fin y)) ∧ Ext.fin y ≤ Ext.fmax a (some (Ext.fin y)) ∧
    (Ext.fmax a (some (Ext.fin y)) = a ∨ Ext.fmax a (some (Ext.fin y)) = Ext.fin y) := by
  simp only [Ext.fmax]
  by_cases h : a < Ext.fin y
  · rw [if_pos h]
    exact ⟨Ext.le_of_lt_ext h, Ext.le_refl_ext _, Or.inr rfl⟩
  · rw [if_neg h]
    exact ⟨Ext.le_refl_ext _, Ext.le_of_not_lt_ext h, Or.inl rfl⟩

/-- The running minimum over finite values: below the start and every value, and equal to
one of them. -/
theorem Ext.foldl_fmin (l : List K) (a : Ext K) :
    l.foldl (fun m y => Ext.fmin m (some (Ext.fin y))) a ≤ a ∧
    (∀ y ∈ l, l.foldl (fun m y => Ext.fmin m (some (Ext.fin y))) a ≤ Ext.fin y) ∧
    (l.foldl (fun m y => Ext.fmin m (some (Ext.fin y))) a = a ∨
      ∃ y ∈ l, l.foldl (fun m y => Ext.fmin m (some (Ext.fin y))) a = Ext.fin y) := by
  induction l generalizing a with
  | nil => exact ⟨Ext.le_refl_ext _, fun y hy => absurd hy (List.not_mem_nil y), Or.inl rfl⟩
  | cons x rest ih =>
      rw [List.foldl_cons]
      obtain ⟨h1, h2, h3⟩ := ih (Ext.fmin a (some (Ext.fin x)))
      obtain ⟨k1, k2, k3⟩ := Ext.fmin_fin a x
      refine ⟨Ext.le_trans_ext h1 k1, ?_, ?_⟩
      · intro y hy
        rcases List.mem_cons.1 hy with rfl | hy
        · exact Ext.le_trans_ext h1 k2
        · exact h2 y hy
      · rcases h3 with h3 | ⟨y, hy, h3⟩
        · rcases k3 with k3 | k3
          · exact Or.inl (h3.trans k3)
          · exact Or.inr ⟨x, List.mem_cons_self _ _, h3.trans k3⟩
        · exact Or.inr ⟨y, List.mem_cons_of_mem _ hy, h3⟩

/-- The running maximum over finite values. -/
theorem Ext.foldl_fmax (l : List K) (a : Ext K) :
    a ≤ l.foldl (fun m y => Ext.fmax m (some (Ext.fin y))) a ∧
    (∀ y ∈ l, Ext.fin y ≤ l.foldl (fun m y => Ext.fmax m (some (Ext.fin y))) a) ∧
    (l.foldl (fun m y => Ext.fmax m (some (Ext.fin y))) a = a ∨
      ∃ y ∈ l, l.foldl (fun m y => Ext.fmax m (some (Ext.fin y))) a = Ext.fin y) := by
  induction l generalizing a with
  | nil => exact ⟨Ext.le_refl_ext _, fun y hy => absurd hy (List.not_mem_nil y), Or.inl rfl⟩
  | cons x rest ih =>
      rw [List.foldl_cons]
      obtain ⟨h1, h2, h3⟩ := ih (Ext.fmax a (some (Ext.fin x)))
      obtain ⟨k1, k2, k3⟩ := Ext.fmax_fin a x
      refine ⟨Ext.le_trans_ext k1 h1, ?_, ?_⟩
      · intro y hy
        rcases List.mem_cons.1 hy with rfl | hy
        · exact Ext.le_trans_ext k2 h1
        · exact h2 y hy
      · rcases h3 with h3 | ⟨y, hy, h3⟩
        · rcases k3 with k3 | k3
          · exact Or.inl (h3.trans k3)
          · exact Or.inr ⟨x, List.mem_cons_self _ _, h3.trans k3⟩
        · exact Or.inr ⟨y, List.mem_cons_of_mem _ hy, h3⟩

/-- The loop of the constructor of `rotate_y` over finite corners, coordinate by
coordinate. -/
theorem rotate_y.foldl_extend (ts : List (Vec3 K)) (acc : Vec3 (Ext K) × Vec3 (Ext K)) :
    ((ts.map (fun t => (⟨some (Ext.fin t.x), some (Ext.fin t.y), some (Ext.fin t.z)⟩ :
        Vec3 (Option (Ext K))))).foldl rotate_y.extend acc) =
      (⟨(ts.map Vec3.x).foldl (fun m y => Ext.fmin m (some (Ext.fin y))) acc.1.x,
        (ts.map Vec3.y).foldl (fun m y => Ext.fmin m (some (Ext.fin y))) acc.1.y,
        (ts.map Vec3.z).foldl (fun m y => Ext.fmin m (some (Ext.fin y))) acc.1.z⟩,
       ⟨(ts.map Vec3.x).foldl (fun m y => Ext.fmax m (some (Ext.fin y))) acc.2.x,
        (ts.map Vec3.y).foldl (fun m y => Ext.fmax m (some (Ext.fin y))) acc.2.y,
        (ts.map Vec3.z).foldl (fun m y => Ext.fmax m (some (Ext.fin y))) acc.2.z⟩) := by
  induction ts generalizing acc with
  | nil => rfl
  | cons t rest ih =>
      simp only [List.map_cons, List.foldl_cons]
      rw [ih]
      rfl

/-- The corner of the constructor of `rotate_y` for a box of finite bounds: the image of a
corner of the box. -/
theorem rotate_y.corner_fin (sin_theta cos_theta : K) (bbox : AABB K) (xl xh yl yh zl zh : K)
    (hx : bbox.x = { min := Ext.fin xl, max := Ext.fin xh })
    (hy : bbox.y = { min := Ext.fin yl, max := Ext.fin yh })
    (hz : bbox.z = { min := Ext.fin zl, max := Ext.fin zh }) (i j k : Int) :
    rotate_y.corner sin_theta cos_theta bbox i j k =
      (fun t : Vec3 K => (⟨some (Ext.fin t.x), some (Ext.fin t.y), some (Ext.fin t.z)⟩ :
        Vec3 (Option (Ext K))))
        (rotate_y.to_world sin_theta cos_theta
          ⟨(i : K) * xh + ((1 - i : Int) : K) * xl, (j : K) * yh + ((1 - j : Int) : K) * yl,
            (k : K) * zh + ((1 - k : Int) : K) * zl⟩) := by
  simp only [rotate_y.corner, hx, hy, hz, Ext.scale, Ext.addNaN, Ext.scaleNaN, Ext.add,
    Option.bind, rotate_y.to_world]

/-- The eight corners of a box of finite bounds, in the order of the loops. -/
theorem rotate_y.extremes_fin (sin_theta cos_theta : K) (bbox : AABB K)
    (xl xh yl yh zl zh : K)
    (hx : bbox.x = { min := Ext.fin xl, max := Ext.fin xh })
    (hy : bbox.y = { min := Ext.fin yl, max := Ext.fin yh })
    (hz : bbox.z = { min := Ext.fin zl, max := Ext.fin zh }) :
    rotate_y.extremes sin_theta cos_theta bbox =
      (([⟨xl, yl, zl⟩, ⟨xl, yl, zh⟩, ⟨xl, yh, zl⟩, ⟨xl, yh, zh⟩,
         ⟨xh, yl, zl⟩, ⟨xh, yl, zh⟩, ⟨xh, yh, zl⟩, ⟨xh, yh, zh⟩].map
          (rotate_y.to_world sin_theta cos_theta)).map
        (fun t : Vec3 K => (⟨some (Ext.fin t.x), some (Ext.fin t.y), some (Ext.fin t.z)⟩ :
          Vec3 (Option (Ext K))))).foldl rotate_y.extend
        (⟨Ext.pinf, Ext.pinf, Ext.pinf⟩, ⟨Ext.ninf, Ext.ninf, Ext.ninf⟩) := by
  simp only [rotate_y.extremes, List.foldl_cons, List.foldl_nil, List.map_cons, List.map_nil,
    rotate_y.corner_fin sin_theta cos_theta bbox xl xh yl yh zl zh hx hy hz]
  norm_num

theorem Ext.foldl_fmin_fin (l : List K) (hne : l ≠ []) :
    ∃ m : K, l.foldl (fun m y => Ext.fmin m (some (Ext.fin y))) Ext.pinf = Ext.fin m ∧
      ∀ y ∈ l, m ≤ y := by
  obtain ⟨_, h2, h3⟩ := Ext.foldl_fmin l (Ext.pinf : Ext K)
  obtain ⟨y0, hy0⟩ := List.exists_mem_of_ne_nil l hne
  rcases h3 with h3 | ⟨y, _, h3⟩
  · have := h2 y0 hy0
    rw [h3] at this
    exact absurd this (fun h => h)
  · refine ⟨y, h3, ?_⟩
    intro z hz
    have := h2 z hz
    rw [h3] at this
    exact this

theorem Ext.foldl_fmax_fin (l : List K) (hne : l ≠ []) :
    ∃ m : K, l.foldl (fun m y => Ext.fmax m (some (Ext.fin y))) Ext.ninf = Ext.fin m ∧
      ∀ y ∈ l, y ≤ m := by
  obtain ⟨_, h2, h3⟩ := Ext.foldl_fmax l (Ext.ninf : Ext K)
  obtain ⟨y0, hy0⟩ := List.exists_mem_of_ne_nil l hne
  rcases h3 with h3 | ⟨y, _, h3⟩
  · have := h2 y0 hy0
    rw [h3] at this
    exact absurd this (fun h => h)
  · refine ⟨y, h3, ?_⟩
    intro z hz
    have := h2 z hz
    rw [h3] at this
    exact this

/-- The points `min` and `max` after the loop over a non-empty list of finite corners are
finite and bound every corner coordinate by coordinate. -/
theorem rotate_y.fold_bounds (cs : List (Vec3 K)) (hne : cs ≠ []) :
    ∃ mn mx : Vec3 K,
      (cs.map (fun t : Vec3 K =>
          (⟨some (Ext.fin t.x), some (Ext.fin t.y), some (Ext.fin t.z)⟩ :
            Vec3 (Option (Ext K))))).foldl rotate_y.extend
        (⟨Ext.pinf, Ext.pinf, Ext.pinf⟩, ⟨Ext.ninf, Ext.ninf, Ext.ninf⟩) =
        (⟨Ext.fin mn.x, Ext.fin mn.y, Ext.fin mn.z⟩,
         ⟨Ext.fin mx.x, Ext.fin mx.y, Ext.fin mx.z⟩) ∧
      ∀ q ∈ cs, (mn.x ≤ q.x ∧ q.x ≤ mx.x) ∧ (mn.y ≤ q.y ∧ q.y ≤ mx.y) ∧
        (mn.z ≤ q.z ∧ q.z ≤ mx.z) := by
  have hx : cs.map Vec3.x ≠ [] := fun h => hne (List.map_eq_nil_iff.1 h)
  have hy : cs.map Vec3.y ≠ [] := fun h => hne (List.map_eq_nil_iff.1 h)
  have hz : cs.map Vec3.z ≠ [] := fun h => hne (List.map_eq_nil_iff.1 h)
  obtain ⟨ax, hax, hax2⟩ := Ext.foldl_fmin_fin _ hx
  obtain ⟨ay, hay, hay2⟩ := Ext.foldl_fmin_fin _ hy
  obtain ⟨az, haz, haz2⟩ := Ext.foldl_fmin_fin _ hz
  obtain ⟨bx, hbx, hbx2⟩ := Ext.foldl_fmax_fin _ hx
  obtain ⟨bY, hby, hby2⟩ := Ext.foldl_fmax_fin _ hy
  obtain ⟨bz, hbz, hbz2⟩ := Ext.foldl_fmax_fin _ hz
  refine ⟨⟨ax, ay, az⟩, ⟨bx, bY, bz⟩, ?_, ?_⟩
  · rw [rotate_y.foldl_extend, hax, hay, haz, hbx, hby, hbz]
  · intro q hq
    exact ⟨⟨hax2 _ (List.mem_map_of_mem _ hq), hbx2 _ (List.mem_map_of_mem _ hq)⟩,
      ⟨hay2 _ (List.mem_map_of_mem _ hq), hby2 _ (List.mem_map_of_mem _ hq)⟩,
      ⟨haz2 _ (List.mem_map_of_mem _ hq), hbz2 _ (List.mem_map_of_mem _ hq)⟩⟩

/-- A linear form `a * x + b * z` on a rectangle is bounded below by its value at a
vertex. -/
theorem rotate_y.vertex_le (a b x z xl xh zl zh : K) (hx1 : xl ≤ x) (hx2 : x ≤ xh)
    (hz1 : zl ≤ z) (hz2 : z ≤ zh) :
    ∃ X Z, (X = xl ∨ X = xh) ∧ (Z = zl ∨ Z = zh) ∧ a * X + b * Z ≤ a * x + b * z := by
  rcases le_total 0 a with ha | ha
  · rcases le_total 0 b with hb | hb
    · exact ⟨xl, zl, Or.inl rfl, Or.inl rfl,
        add_le_add (mul_le_mul_of_nonneg_left hx1 ha) (mul_le_mul_of_nonneg_left hz1 hb)⟩
    · exact ⟨xl, zh, Or.inl rfl, Or.inr rfl,
        add_le_add (mul_le_mul_of_nonneg_left hx1 ha) (mul_le_mul_of_nonpos_left hz2 hb)⟩
  · rcases le_total 0 b with hb | hb
    · exact ⟨xh, zl, Or.inr rfl, Or.inl rfl,
        add_le_add (mul_le_mul_of_nonpos_left hx2 ha) (mul_le_mul_of_nonneg_left hz1 hb)⟩
    · exact ⟨xh, zh, Or.inr rfl, Or.inr rfl,
        add_le_add (mul_le_mul_of_nonpos_left hx2 ha) (mul_le_mul_of_nonpos_left hz2 hb)⟩

/-- A linear form `a * x + b * z` on a rectangle is bounded above by its value at a
vertex. -/
theorem rotate_y.le_vertex (a b x z xl xh zl zh : K) (hx1 : xl ≤ x) (hx2 : x ≤ xh)
    (hz1 : zl ≤ z) (hz2 : z ≤ zh) :
    ∃ X Z, (X = xl ∨ X = xh) ∧ (Z = zl ∨ Z = zh) ∧ a * x + b * z ≤ a * X + b * Z := by
  rcases le_total 0 a with ha | ha
  · rcases le_total 0 b with hb | hb
    · exact ⟨xh, zh, Or.inr rfl, Or.inr rfl,
        add_le_add (mul_le_mul_of_nonneg_left hx2 ha) (mul_le_mul_of_nonneg_left hz2 hb)⟩
    · exact ⟨xh, zl, Or.inr rfl, Or.inl rfl,
        add_le_add (mul_le_mul_of_nonneg_left hx2 ha) (mul_le_mul_of_nonpos_left hz1 hb)⟩
  · rcases le_total 0 b with hb | hb
    · exact ⟨xl, zh, Or.inl rfl, Or.inr rfl,
        add_le_add (mul_le_mul_of_nonpos_left hx1 ha) (mul_le_mul_of_nonneg_left hz2 hb)⟩
    · exact ⟨xl, zl, Or.inl rfl, Or.inl rfl,
        add_le_add (mul_le_mul_of_nonpos_left hx1 ha) (mul_le_mul_of_nonpos_left hz1 hb)⟩

theorem rotate_y.corner_mem (sin_theta cos_theta : K) (X Y Z xl xh yl yh zl zh : K)
    (hX : X = xl ∨ X = xh) (hY : Y = yl ∨ Y = yh) (hZ : Z = zl ∨ Z = zh) :
    rotate_y.to_world sin_theta cos_theta ⟨X, Y, Z⟩ ∈
      ([⟨xl, yl, zl⟩, ⟨xl, yl, zh⟩, ⟨xl, yh, zl⟩, ⟨xl, yh, zh⟩,
        ⟨xh, yl, zl⟩, ⟨xh, yl, zh⟩, ⟨xh, yh, zl⟩, ⟨xh, yh, zh⟩] : List (Vec3 K)).map
        (rotate_y.to_world sin_theta cos_theta) := by
  apply List.mem_map_of_mem
  rcases hX with rfl | rfl <;> rcases hY with rfl | rfl <;> rcases hZ with rfl | rfl <;> simp

/-- The points `min` and `max` that the constructor of `rotate_y` computes for a box of
finite bounds are finite, and they bound the image of every point of the box. -/
theorem rotate_y.extremes_bounds (sin_theta cos_theta : K) (bbox : AABB K)
    (xl xh yl yh zl zh : K)
    (hx : bbox.x = { min := Ext.fin xl, max := Ext.fin xh })
    (hy : bbox.y = { min := Ext.fin yl, max := Ext.fin yh })
    (hz : bbox.z = { min := Ext.fin zl, max := Ext.fin zh }) :
    ∃ mn mx : Vec3 K,
      rotate_y.extremes sin_theta cos_theta bbox =
        (⟨Ext.fin mn.x, Ext.fin mn.y, Ext.fin mn.z⟩,
         ⟨Ext.fin mx.x, Ext.fin mx.y, Ext.fin mx.z⟩) ∧
      ∀ p : Vec3 K, xl ≤ p.x → p.x ≤ xh → yl ≤ p.y → p.y ≤ yh → zl ≤ p.z → p.z ≤ zh →
        (mn.x ≤ (rotate_y.to_world sin_theta cos_theta p).x ∧
          (rotate_y.to_world sin_theta cos_theta p).x ≤ mx.x) ∧
        (mn.y ≤ (rotate_y.to_world sin_theta cos_theta p).y ∧
          (rotate_y.to_world sin_theta cos_theta p).y ≤ mx.y) ∧
        (mn.z ≤ (rotate_y.to_world sin_theta cos_theta p).z ∧
          (rotate_y.to_world sin_theta cos_theta p).z ≤ mx.z) := by
  obtain ⟨mn, mx, heq, hb⟩ := rotate_y.fold_bounds
    (([⟨xl, yl, zl⟩, ⟨xl, yl, zh⟩, ⟨xl, yh, zl⟩, ⟨xl, yh, zh⟩,
        ⟨xh, yl, zl⟩, ⟨xh, yl, zh⟩, ⟨xh, yh, zl⟩, ⟨xh, yh, zh⟩] : List (Vec3 K)).map
        (rotate_y.to_world sin_theta cos_theta)) (by simp)
  refine ⟨mn, mx, ?_, ?_⟩
  · rw [rotate_y.extremes_fin sin_theta cos_theta bbox xl xh yl yh zl zh hx hy hz, heq]
  · intro p hx1 hx2 hy1 hy2 hz1 hz2
    obtain ⟨X1, Z1, hX1, hZ1, h1⟩ :=
      rotate_y.vertex_le cos_theta sin_theta p.x p.z xl xh zl zh hx1 hx2 hz1 hz2
    obtain ⟨X2, Z2, hX2, hZ2, h2⟩ :=
      rotate_y.le_vertex cos_theta sin_theta p.x p.z xl xh zl zh hx1 hx2 hz1 hz2
    obtain ⟨X3, Z3, hX3, hZ3, h3⟩ :=
      rotate_y.vertex_le (-sin_theta) cos_theta p.x p.z xl xh zl zh hx1 hx2 hz1 hz2
    obtain ⟨X4, Z4, hX4, hZ4, h4⟩ :=
      rotate_y.le_vertex (-sin_theta) cos_theta p.x p.z xl xh zl zh hx1 hx2 hz1 hz2
    have m1 := hb _ (rotate_y.corner_mem sin_theta cos_theta X1 yl Z1 xl xh yl yh zl zh hX1
      (Or.inl rfl) hZ1)
    have m2 := hb _ (rotate_y.corner_mem sin_theta cos_theta X2 yh Z2 xl xh yl yh zl zh hX2
      (Or.inr rfl) hZ2)
    have m3 := hb _ (rotate_y.corner_mem sin_theta cos_theta X3 yl Z3 xl xh yl yh zl zh hX3
      (Or.inl rfl) hZ3)
    have m4 := hb _ (rotate_y.corner_mem sin_theta cos_theta X4 yh Z4 xl xh yl yh zl zh hX4
      (Or.inr rfl) hZ4)
    simp only [rotate_y.to_world] at m1 m2 m3 m4 ⊢
    exact ⟨⟨le_trans m1.1.1 h1, le_trans h2 m2.1.2⟩,
      ⟨le_trans m1.2.1.1 hy1, le_trans hy2 m2.2.1.2⟩,
      ⟨le_trans m3.2.2.1 h3, le_trans h4 m4.2.2.2⟩⟩

theorem AABB.ofCorners_fin (mn mx : Vec3 K) :
    (AABB.ofCorners ⟨Ext.fin mn.x, Ext.fin mn.y, Ext.fin mn.z⟩
      ⟨Ext.fin mx.x, Ext.fin mx.y, Ext.fin mx.z⟩ : AABB K) = AABB.ofPoints mn mx := by
  simp only [AABB.ofCorners, AABB.ofPoints, Ext.fin_le_fin]

theorem translate_hit_some (object : Hittable K G) (offset : Vec3 K) (r : Ray K)
    (ray_t : Interval (Ext K)) (rec : HitRecord K) (g : G) (x : HitRecord K) (g1 : G)
    (h : (translate object offset).hit r ray_t rec g = (some x, g1)) :
    ∃ rec1, object.hit { orig := Vec3.sub r.orig offset, dir := r.dir, tm := r.tm } ray_t rec g
        = (some rec1, g1) ∧
      x = { rec1 with p := Vec3.add rec1.p offset } := by
  simp only [translate] at h
  rcases hobj : object.hit { orig := Vec3.sub r.orig offset, dir := r.dir, tm := r.tm }
    ray_t rec g with ⟨_ | rec1, g2⟩
  · rw [hobj] at h
    simp at h
  · rw [hobj] at h
    simp only [Prod.mk.injEq, Option.some.injEq] at h
    exact ⟨rec1, by rw [h.2], h.1.symm⟩

theorem rotate_y_hit_some (env : Env K G) (object : Hittable K G) (angle : K) (r : Ray K)
    (ray_t : Interval (Ext K)) (rec : HitRecord K) (g : G) (x : HitRecord K) (g1 : G)
    (h : (rotate_y env object angle).hit r ray_t rec g = (some x, g1)) :
    ∃ rec1, object.hit (rotate_y.object_ray (env.sin (degrees_to_radians env angle))
          (env.cos (degrees_to_radians env angle)) r) ray_t rec g = (some rec1, g1) ∧
      x = { rec1 with
            p := rotate_y.to_world (env.sin (degrees_to_radians env angle))
              (env.cos (degrees_to_radians env angle)) rec1.p
            normal := rotate_y.to_world (env.sin (degrees_to_radians env angle))
              (env.cos (degrees_to_radians env angle)) rec1.normal } := by
  simp only [rotate_y] at h
  rcases hobj : object.hit (rotate_y.object_ray (env.sin (degrees_to_radians env angle))
    (env.cos (degrees_to_radians env angle)) r) ray_t rec g with ⟨_ | rec1, g2⟩
  · rw [hobj] at h
    simp at h
  · rw [hobj] at h
    simp only [Prod.mk.injEq, Option.some.injEq] at h
    exact ⟨rec1, by rw [h.2], h.1.symm⟩

theorem Quad.quad_hit_some (q : Quad K) (r : Ray K) (ray_t : Interval (Ext K))
    (rec x : HitRecord K) (h : Quad.hit q r ray_t rec = some x) :
    x.p = r.at x.t ∧
    ∃ base : HitRecord K, x.normal = (base.set_face_normal r q.normal).normal ∧
      x.front_face = (base.set_face_normal r q.normal).front_face := by
  simp only [Quad.hit, Quad.is_interior_eq] at h
  split_ifs at h with h1 h2 h3
  simp only [Option.some.injEq] at h
  rw [← h]
  exact ⟨rfl, _, rfl, rfl⟩

theorem Prim.hit_p (env : Env K G) (p : Prim K) (r : Ray K) (ray_t : Interval (Ext K))
    (rec x : HitRecord K) (h : Prim.hit env p r ray_t rec = some x) : x.p = r.at x.t := by
  cases p with
  | sphere s => exact (Sphere.hit_some env s r ray_t rec x h).2.1
  | quad q => exact (Quad.quad_hit_some q r ray_t rec x h).1

/-- The round trip world space, object space, world space of `rotate_y`. -/
theorem rotate_y.to_world_to_object (sin_theta cos_theta : K)
    (hsc : cos_theta * cos_theta + sin_theta * sin_theta = 1) (v : Vec3 K) :
    rotate_y.to_world sin_theta cos_theta (rotate_y.to_object sin_theta cos_theta v) = v := by
  rcases v with ⟨x, y, z⟩
  simp only [rotate_y.to_world, rotate_y.to_object]
  congr 1
  · linear_combination x * hsc
  · linear_combination z * hsc

theorem rotate_y.to_object_at (sin_theta cos_theta : K) (r : Ray K) (t : K) :
    (rotate_y.object_ray sin_theta cos_theta r).at t =
      rotate_y.to_object sin_theta cos_theta (r.at t) := by
  simp only [rotate_y.object_ray, Ray.at, rotate_y.to_object, Vec3.add, Vec3.smul]
  congr 1 <;> ring

/-- C27. For a sphere or quad wrapped in any nesting of `translate` and `rotate_y` (the
sine and cosine of an angle having squares of sum 1), whenever `hit(r, ray_t)` returns
`true` the point reported is `rec.p = r.at(rec.t)` for the world-space ray `r`, and
`rec.t` is the `t` that the wrapped sphere or quad reports for the object-space ray. -/
theorem Wrapper.hit_on_ray (env : Env K G)
    (hsc : ∀ a : K, env.cos a * env.cos a + env.sin a * env.sin a = 1)
    (ws : List (Wrapper K)) (p : Prim K) (r : Ray K) (ray_t : Interval (Ext K))
    (rec : HitRecord K) (g : G) (x : HitRecord K) (g1 : G)
    (hhit : (Wrapper.wrap_all env ws (Prim.toHittable env p)).hit r ray_t rec g
      = (some x, g1)) :
    x.p = r.at x.t ∧
    ∃ y, Prim.hit env p (Wrapper.object_ray_all env ws r) ray_t rec = some y ∧ y.t = x.t := by
  induction ws generalizing r x with
  | nil =>
      have hprim : Prim.hit env p r ray_t rec = some x := by
        cases p with
        | sphere s =>
            simp only [Wrapper.wrap_all, List.foldr_nil, Prim.toHittable, Sphere.toHittable,
              Prod.mk.injEq] at hhit
            exact hhit.1
        | quad q =>
            simp only [Wrapper.wrap_all, List.foldr_nil, Prim.toHittable, Quad.toHittable,
              Prod.mk.injEq] at hhit
            exact hhit.1
      exact ⟨Prim.hit_p env p r ray_t rec x hprim, x, hprim, rfl⟩
  | cons w rest ih =>
      cases w with
      | translate offset =>
          have hhit2 : (PathTracer.translate (Wrapper.wrap_all env rest (Prim.toHittable env p))
              offset).hit r ray_t rec g = (some x, g1) := hhit
          obtain ⟨rec1, hobj, hx⟩ := translate_hit_some _ offset r ray_t rec g x g1 hhit2
          obtain ⟨hp, y, hy, hyt⟩ := ih _ rec1 hobj
          refine ⟨?_, y, hy, ?_⟩
          · rw [hx]
            simp only []
            rw [hp]
            simp only [Ray.at, Vec3.add, Vec3.sub, Vec3.smul]
            congr 1 <;> ring
          · rw [hyt, hx]
      | rotate_y angle =>
          have hhit2 : (PathTracer.rotate_y env
              (Wrapper.wrap_all env rest (Prim.toHittable env p)) angle).hit r ray_t rec g
                = (some x, g1) := hhit
          obtain ⟨rec1, hobj, hx⟩ := rotate_y_hit_some env _ angle r ray_t rec g x g1 hhit2
          obtain ⟨hp, y, hy, hyt⟩ := ih _ rec1 hobj
          refine ⟨?_, y, hy, ?_⟩
          · rw [hx]
            simp only []
            rw [hp, PathTracer.rotate_y.to_object_at,
              PathTracer.rotate_y.to_world_to_object _ _ (hsc _)]
          · rw [hyt, hx]

theorem Interval.pad_contains (lo hi v : K) (h1 : lo ≤ v) (h2 : v ≤ hi) :
    (if (({ min := Ext.fin lo, max := Ext.fin hi } : Interval (Ext K)).size_lt 0.0001) = true
      then ({ min := Ext.fin lo, max := Ext.fin hi } : Interval (Ext K)).expand 0.0001
      else { min := Ext.fin lo, max := Ext.fin hi }).contains (Ext.fin v) = true := by
  rw [Interval.pad_fin, Interval.contains_fin]
  by_cases hlt : hi - lo < 0.0001
  · rw [if_pos hlt]
    simp only [Ext.fin_le_fin]
    constructor
    · linarith [show (0 : K) < 0.0001 / 2 by norm_num]
    · linarith [show (0 : K) < 0.0001 / 2 by norm_num]
  · rw [if_neg hlt]
    exact ⟨h1, h2⟩

/-- The box `AABB(mn, mx)` of two points contains every point between them. -/
theorem AABB.ofPoints_contains (mn mx v : Vec3 K) (hx : mn.x ≤ v.x ∧ v.x ≤ mx.x)
    (hy : mn.y ≤ v.y ∧ v.y ≤ mx.y) (hz : mn.z ≤ v.z ∧ v.z ≤ mx.z) :
    (AABB.ofPoints mn mx).x.contains (Ext.fin v.x) = true ∧
    (AABB.ofPoints mn mx).y.contains (Ext.fin v.y) = true ∧
    (AABB.ofPoints mn mx).z.contains (Ext.fin v.z) = true := by
  simp only [AABB.ofPoints, AABB.pad_to_minimums, if_pos (le_trans hx.1 hx.2),
    if_pos (le_trans hy.1 hy.2), if_pos (le_trans hz.1 hz.2)]
  exact ⟨Interval.pad_contains _ _ _ hx.1 hx.2, Interval.pad_contains _ _ _ hy.1 hy.2,
    Interval.pad_contains _ _ _ hz.1 hz.2⟩

/-- C29. For every angle and every wrapped object whose bounding box `B` has finite bounds,
the bounding box of `rotate_y(object, angle)` contains the image
`(cos*x + sin*z, y, -sin*x + cos*z)` of every point `(x, y, z)` of `B`; hence whenever the
wrapped object reports an object-space hit point inside `B`, `rotate_y::hit` reports a
world-space point `rec.p` inside the bounding box of the `rotate_y`. -/
theorem rotate_y.bounding_box_contains (env : Env K G) (object : Hittable K G) (angle : K)
    (xl xh yl yh zl zh : K)
    (hx : object.bounding_box.x = { min := Ext.fin xl, max := Ext.fin xh })
    (hy : object.bounding_box.y = { min := Ext.fin yl, max := Ext.fin yh })
    (hz : object.bounding_box.z = { min := Ext.fin zl, max := Ext.fin zh }) :
    (∀ x y z : K, xl ≤ x → x ≤ xh → yl ≤ y → y ≤ yh → zl ≤ z → z ≤ zh →
      (rotate_y env object angle).bounding_box.x.contains
        (Ext.fin (env.cos (degrees_to_radians env angle) * x
          + env.sin (degrees_to_radians env angle) * z)) = true ∧
      (rotate_y env object angle).bounding_box.y.contains (Ext.fin y) = true ∧
      (rotate_y env object angle).bounding_box.z.contains
        (Ext.fin (-env.sin (degrees_to_radians env angle) * x
          + env.cos (degrees_to_radians env angle) * z)) = true) ∧
    (∀ (r : Ray K) (ray_t : Interval (Ext K)) (rec : HitRecord K) (g : G) (rec1 : HitRecord K)
      (g1 : G),
      object.hit (rotate_y.object_ray (env.sin (degrees_to_radians env angle))
        (env.cos (degrees_to_radians env angle)) r) ray_t rec g = (some rec1, g1) →
      xl ≤ rec1.p.x → rec1.p.x ≤ xh → yl ≤ rec1.p.y → rec1.p.y ≤ yh →
      zl ≤ rec1.p.z → rec1.p.z ≤ zh →
      ∃ x, (rotate_y env object angle).hit r ray_t rec g = (some x, g1) ∧
        x.p = ⟨env.cos (degrees_to_radians env angle) * rec1.p.x
                + env.sin (degrees_to_radians env angle) * rec1.p.z,
               rec1.p.y,
               -env.sin (degrees_to_radians env angle) * rec1.p.x
                + env.cos (degrees_to_radians env angle) * rec1.p.z⟩ ∧
        (rotate_y env object angle).bounding_box.x.contains (Ext.fin x.p.x) = true ∧
        (rotate_y env object angle).bounding_box.y.contains (Ext.fin x.p.y) = true ∧
        (rotate_y env object angle).bounding_box.z.contains (Ext.fin x.p.z) = true) := by
  obtain ⟨mn, mx, heq, hb⟩ := rotate_y.extremes_bounds
    (env.sin (degrees_to_radians env angle)) (env.cos (degrees_to_radians env angle))
    object.bounding_box xl xh yl yh zl zh hx hy hz
  have hbox : (rotate_y env object angle).bounding_box = AABB.ofPoints mn mx := by
    simp only [rotate_y, heq, AABB.ofCorners_fin]
  have hpoint : ∀ x y z : K, xl ≤ x → x ≤ xh → yl ≤ y → y ≤ yh → zl ≤ z → z ≤ zh →
      (rotate_y env object angle).bounding_box.x.contains
        (Ext.fin (env.cos (degrees_to_radians env angle) * x
          + env.sin (degrees_to_radians env angle) * z)) = true ∧
      (rotate_y env object angle).bounding_box.y.contains (Ext.fin y) = true ∧
      (rotate_y env object angle).bounding_box.z.contains
        (Ext.fin (-env.sin (degrees_to_radians env angle) * x
          + env.cos (degrees_to_radians env angle) * z)) = true := by
    intro x y z h1 h2 h3 h4 h5 h6
    have hp := hb ⟨x, y, z⟩ h1 h2 h3 h4 h5 h6
    rw [hbox]
    exact AABB.ofPoints_contains mn mx
      (rotate_y.to_world (env.sin (degrees_to_radians env angle))
        (env.cos (degrees_to_radians env angle)) ⟨x, y, z⟩) hp.1 hp.2.1 hp.2.2
  refine ⟨hpoint, ?_⟩
  intro r ray_t rec g rec1 g1 hobj h1 h2 h3 h4 h5 h6
  refine ⟨{ rec1 with
      p := rotate_y.to_world (env.sin (degrees_to_radians env angle))
        (env.cos (degrees_to_radians env angle)) rec1.p
      normal := rotate_y.to_world (env.sin (degrees_to_radians env angle))
        (env.cos (degrees_to_radians env angle)) rec1.normal }, ?_, rfl, ?_⟩
  · simp only [rotate_y, hobj]
  · exact hpoint rec1.p.x rec1.p.y rec1.p.z h1 h2 h3 h4 h5 h6

/-! ## The slab test (claim C26) -/

theorem Interval.size_gt_some (a b : Interval (Ext K)) (s t : Ext K) (ha : a.size = some s)
    (hb : b.size = some t) : a.size_gt b = true ↔ t < s := by
  simp only [Interval.size_gt, ha, hb, decide_eq_true_eq]

/-- The result of `longest_axis` in terms of the three sizes, when none is NaN. -/
theorem AABB.longest_axis_eq (b : AABB K) (sx sy sz : Ext K) (hx : b.x.size = some sx)
    (hy : b.y.size = some sy) (hz : b.z.size = some sz) :
    b.longest_axis =
      if sy < sx then (if sz < sx then 0 else 2) else (if sz < sy then 1 else 2) := by
  have h1 := Interval.size_gt_some b.x b.y sx sy hx hy
  have h2 := Interval.size_gt_some b.x b.z sx sz hx hz
  have h3 := Interval.size_gt_some b.y b.z sy sz hy hz
  simp only [AABB.longest_axis]
  by_cases c1 : sy < sx
  · rw [if_pos (h1.2 c1), if_pos c1]
    by_cases c2 : sz < sx
    · rw [if_pos (h2.2 c2), if_pos c2]
    · rw [if_neg (fun h => c2 (h2.1 h)), if_neg c2]
  · rw [if_neg (fun h => c1 (h1.1 h)), if_neg c1]
    by_cases c3 : sz < sy
    · rw [if_pos (h3.2 c3), if_pos c3]
    · rw [if_neg (fun h => c3 (h3.1 h)), if_neg c3]

/-- C24. For a box whose three extents are defined (no `inf - inf`), `longest_axis()`
returns an index `k` among 0, 1, 2 and the extent of the axis `k` is greater than or equal
to the extent of each of the three axes. -/
theorem AABB.longest_axis_greatest (b : AABB K) (sx sy sz : Ext K) (hx : b.x.size = some sx)
    (hy : b.y.size = some sy) (hz : b.z.size = some sz) :
    (b.longest_axis = 0 ∨ b.longest_axis = 1 ∨ b.longest_axis = 2) ∧
    ∃ sk, (b.axis_interval b.longest_axis).size = some sk ∧ sx ≤ sk ∧ sy ≤ sk ∧ sz ≤ sk := by
  rw [AABB.longest_axis_eq b sx sy sz hx hy hz]
  by_cases c1 : sy < sx
  · rw [if_pos c1]
    by_cases c2 : sz < sx
    · rw [if_pos c2]
      exact ⟨Or.inl rfl, sx, hx, Ext.le_refl_ext _, Ext.le_of_lt_ext c1, Ext.le_of_lt_ext c2⟩
    · rw [if_neg c2]
      have hxz : sx ≤ sz := Ext.le_of_not_lt_ext c2
      exact ⟨Or.inr (Or.inr rfl), sz, hz, hxz,
        Ext.le_trans_ext (Ext.le_of_lt_ext c1) hxz, Ext.le_refl_ext _⟩
  · rw [if_neg c1]
    have hxy : sx ≤ sy := Ext.le_of_not_lt_ext c1
    by_cases c3 : sz < sy
    · rw [if_pos c3]
      exact ⟨Or.inr (Or.inl rfl), sy, hy, hxy, Ext.le_refl_ext _, Ext.le_of_lt_ext c3⟩
    · rw [if_neg c3]
      have hyz : sy ≤ sz := Ext.le_of_not_lt_ext c3
      exact ⟨Or.inr (Or.inr rfl), sz, hz, Ext.le_trans_ext hxy hyz, hyz, Ext.le_refl_ext _⟩

/-- C25, as the code has it. For a box whose three extents are defined, `longest_axis()`
returns 0 exactly when the `x` extent is strictly greater than both the `y` and the `z`
extents, 1 exactly when the `y` extent is at least the `x` extent and strictly greater than
the `z` extent, and 2 in every other case: a tie is broken in favour of the later axis. -/
theorem AABB.longest_axis_ties (b : AABB K) (sx sy sz : Ext K) (hx : b.x.size = some sx)
    (hy : b.y.size = some sy) (hz : b.z.size = some sz) :
    (b.longest_axis = 0 ↔ (sy < sx ∧ sz < sx)) ∧
    (b.longest_axis = 1 ↔ (sx ≤ sy ∧ sz < sy)) ∧
    (b.longest_axis = 2 ↔ ((sy < sx ∧ sx ≤ sz) ∨ (sx ≤ sy ∧ sy ≤ sz))) := by
  rw [AABB.longest_axis_eq b sx sy sz hx hy hz]
  by_cases c1 : sy < sx
  · have n1 : ¬ sx ≤ sy := fun h => Ext.not_lt_of_le_ext h c1
    rw [if_pos c1]
    by_cases c2 : sz < sx
    · have n2 : ¬ sx ≤ sz := fun h => Ext.not_lt_of_le_ext h c2
      rw [if_pos c2]
      refine ⟨⟨fun _ => ⟨c1, c2⟩, fun _ => rfl⟩, ⟨fun h => absurd h (by decide),
        fun h => absurd h.1 n1⟩, ⟨fun h => absurd h (by decide), ?_⟩⟩
      rintro (h | h)
      · exact absurd h.2 n2
      · exact absurd h.1 n1
    · rw [if_neg c2]
      refine ⟨⟨fun h => absurd h (by decide), fun h => absurd h.2 c2⟩,
        ⟨fun h => absurd h (by decide), fun h => absurd h.1 n1⟩,
        ⟨fun _ => Or.inl ⟨c1, Ext.le_of_not_lt_ext c2⟩, fun _ => rfl⟩⟩
  · have hxy : sx ≤ sy := Ext.le_of_not_lt_ext c1
    rw [if_neg c1]
    by_cases c3 : sz < sy
    · have n3 : ¬ sy ≤ sz := fun h => Ext.not_lt_of_le_ext h c3
      rw [if_pos c3]
      refine ⟨⟨fun h => absurd h (by decide), fun h => absurd h.1 c1⟩,
        ⟨fun _ => ⟨hxy, c3⟩, fun _ => rfl⟩, ⟨fun h => absurd h (by decide), ?_⟩⟩
      rintro (h | h)
      · exact absurd h.1 c1
      · exact absurd h.2 n3
    · rw [if_neg c3]
      refine ⟨⟨fun h => absurd h (by decide), fun h => absurd h.1 c1⟩,
        ⟨fun h => absurd h (by decide), fun h => absurd h.2 c3⟩,
        ⟨fun _ => Or.inr ⟨hxy, Ext.le_of_not_lt_ext c3⟩, fun _ => rfl⟩⟩

end Field

/-! ## The claims C21 to C25 at concrete boxes -/

/-- The rounding `binary64` at some values: the `double` nearest to `0.1`, to `1/3`, to
`-0.7` and to `0.0001`; a value with 53 significant bits is kept; the ties `2^53 + 1` and
`2^53 + 3` go to the even significand; below the smallest positive `double` `2^-1074` the
spacing is `2^-1074`. -/
theorem binary64_values :
    binary64 (1 / 10) = 3602879701896397 / 36028797018963968 ∧
    binary64 (1 / 3) = 6004799503160661 / 18014398509481984 ∧
    binary64 (-7 / 10) = -3152519739159347 / 4503599627370496 ∧
    binary64 0.0001 = 7378697629483821 / 73786976294838206464 ∧
    binary64 554 = 554 ∧
    binary64 (3602879701896397 / 36028797018963968) = 3602879701896397 / 36028797018963968 ∧
    binary64 9007199254740993 = 9007199254740992 ∧
    binary64 9007199254740995 = 9007199254740996 ∧
    binary64 (1 / 2 ^ 1075) = 0 ∧
    binary64 (3 / 2 ^ 1075) = 2 / 2 ^ 1074 := by
  decide!

theorem longest_axis_greatest_witness :
    flatQ.x.size = some (Ext.fin 3) ∧ flatQ.y.size = some (Ext.fin 2) ∧
    flatQ.z.size = some (Ext.fin 0) ∧
    (flatQ.longest_axis = 0 ∨ flatQ.longest_axis = 1 ∨ flatQ.longest_axis = 2) ∧
    ∃ sk, (flatQ.axis_interval flatQ.longest_axis).size = some sk ∧
      Ext.fin (3 : ℚ) ≤ sk ∧ Ext.fin (2 : ℚ) ≤ sk ∧ Ext.fin (0 : ℚ) ≤ sk :=
  have hx : flatQ.x.size = some (Ext.fin 3) := by
    simp only [flatQ, Interval.size, Ext.sub]
    norm_num
  have hy : flatQ.y.size = some (Ext.fin 2) := by
    simp only [flatQ, Interval.size, Ext.sub]
    norm_num
  have hz : flatQ.z.size = some (Ext.fin 0) := by
    simp only [flatQ, Interval.size, Ext.sub]
    norm_num
  have h := AABB.longest_axis_greatest flatQ _ _ _ hx hy hz
  ⟨hx, hy, hz, h.1, h.2⟩

theorem cubeQ_size :
    cubeQ.x.size = some (Ext.fin 1) ∧ cubeQ.y.size = some (Ext.fin 1) ∧
    cubeQ.z.size = some (Ext.fin 1) := by
  refine ⟨?_, ?_, ?_⟩ <;>
  · simp only [cubeQ, Interval.size, Ext.sub]
    norm_num

theorem longest_axis_ties_witness :
    cubeQ.x.size = some (Ext.fin 1) ∧ cubeQ.y.size = some (Ext.fin 1) ∧
    cubeQ.z.size = some (Ext.fin 1) ∧ cubeQ.longest_axis = 2 :=
  have h := AABB.longest_axis_ties cubeQ _ _ _ cubeQ_size.1 cubeQ_size.2.1 cubeQ_size.2.2
  ⟨cubeQ_size.1, cubeQ_size.2.1, cubeQ_size.2.2,
    h.2.2.2 (Or.inr ⟨Ext.le_refl_ext _, Ext.le_refl_ext _⟩)⟩

/-- C25, counterexample. The unit cube has three equal extents, so the `x` extent is
greater than or equal to the two others, and `longest_axis()` returns 2, not 0. -/
theorem longest_axis_ties_counterexample :
    cubeQ.x.size = some (Ext.fin 1) ∧ cubeQ.y.size = some (Ext.fin 1) ∧
    cubeQ.z.size = some (Ext.fin 1) ∧
    Ext.fin (1 : ℚ) ≤ Ext.fin 1 ∧
    cubeQ.longest_axis = 2 ∧ cubeQ.longest_axis ≠ 0 := by
  have h2 : cubeQ.longest_axis = 2 := by
    rw [AABB.longest_axis_eq cubeQ _ _ _ cubeQ_size.1 cubeQ_size.2.1 cubeQ_size.2.2]
    have hn : ¬ (Ext.fin (1 : ℚ) < Ext.fin 1) := by
      rw [Ext.fin_lt_fin]
      exact lt_irrefl _
    rw [if_neg hn, if_neg hn]
  refine ⟨cubeQ_size.1, cubeQ_size.2.1, cubeQ_size.2.2, Ext.le_refl_ext _, h2, ?_⟩
  rw [h2]
  decide

/-! ## The claims C23 and C26 to C30 at the concrete scene -/

theorem envRotQ_unit (a : ℚ) :
    envRotQ.cos a * envRotQ.cos a + envRotQ.sin a * envRotQ.sin a = 1 := by
  simp only [envRotQ]
  norm_num

/-- The object-space ray of `rayWrappedQ` for `wrappedQ` is `rayQ`. -/
theorem rayWrappedQ_object :
    rotate_y.object_ray (envRotQ.sin (degrees_to_radians envRotQ 30))
      (envRotQ.cos (degrees_to_radians envRotQ 30))
      { orig := Vec3.sub rayWrappedQ.orig ⟨0, 5, 0⟩, dir := rayWrappedQ.dir,
        tm := rayWrappedQ.tm } = rayQ := by
  simp only [rotate_y.object_ray, rotate_y.to_object, Vec3.sub, envRotQ, rayQ]
  simp only [rayWrappedQ]
  norm_num

/-- The hit of `rayWrappedQ` on the rotated and translated sphere. -/
theorem wrappedQ_hit (g : Nat) :
    wrappedQ.hit rayWrappedQ estimator_range HitRecord.init g = (some recWrappedQ, g) := by
  have hsphere : ∀ rec : HitRecord ℚ,
      Sphere.hit envRotQ (sphereQ (some greyQ)) rayQ estimator_range rec
        = some (recQ (some greyQ)) := sphereQ_hit (some greyQ)
  simp only [wrappedQ, translate, rotate_y, rayWrappedQ_object, Sphere.toHittable, hsphere]
  simp only [recQ, rotate_y.to_world, Vec3.add, envRotQ, recWrappedQ]
  norm_num

theorem wrapper_hit_on_ray_witness :
    (∀ a : ℚ, envRotQ.cos a * envRotQ.cos a + envRotQ.sin a * envRotQ.sin a = 1) ∧
    (Wrapper.wrap_all envRotQ [Wrapper.translate ⟨0, 5, 0⟩, Wrapper.rotate_y 30]
        (Prim.toHittable envRotQ (Prim.sphere (sphereQ (some greyQ))))).hit rayWrappedQ
      estimator_range HitRecord.init 0 = (some recWrappedQ, 0) ∧
    recWrappedQ.p = rayWrappedQ.at recWrappedQ.t ∧
    ∃ y, Prim.hit envRotQ (Prim.sphere (sphereQ (some greyQ)))
        (Wrapper.object_ray_all envRotQ [Wrapper.translate ⟨0, 5, 0⟩, Wrapper.rotate_y 30]
          rayWrappedQ) estimator_range HitRecord.init = some y ∧ y.t = recWrappedQ.t :=
  have hhit : (Wrapper.wrap_all envRotQ [Wrapper.translate ⟨0, 5, 0⟩, Wrapper.rotate_y 30]
      (Prim.toHittable envRotQ (Prim.sphere (sphereQ (some greyQ))))).hit rayWrappedQ
      estimator_range HitRecord.init 0 = (some recWrappedQ, 0) := wrappedQ_hit 0
  have h := Wrapper.hit_on_ray envRotQ envRotQ_unit
    [Wrapper.translate ⟨0, 5, 0⟩, Wrapper.rotate_y 30] (Prim.sphere (sphereQ (some greyQ)))
    rayWrappedQ estimator_range HitRecord.init 0 recWrappedQ 0 hhit
  ⟨envRotQ_unit, hhit, h.1, h.2⟩

theorem sphereQ_bbox (env : Env ℚ Nat) (mat : Option (Material ℚ)) :
    (Sphere.toHittable env (sphereQ mat)).bounding_box.x
      = { min := Ext.fin (-1), max := Ext.fin 1 } ∧
    (Sphere.toHittable env (sphereQ mat)).bounding_box.y
      = { min := Ext.fin (-1), max := Ext.fin 1 } ∧
    (Sphere.toHittable env (sphereQ mat)).bounding_box.z
      = { min := Ext.fin (-1), max := Ext.fin 1 } := by
  simp only [Sphere.toHittable, sphereQ, Sphere.mkStationary, AABB.ofPoints,
    AABB.pad_to_minimums, Vec3.sub, Vec3.add]
  norm_num
  intro h
  exfalso
  simp only [Interval.size_lt, Interval.size, Ext.sub, Ext.fin_lt_fin, decide_eq_true_eq] at h
  norm_num at h

theorem rotate_y_bounding_box_contains_witness :
    (Sphere.toHittable envRotQ (sphereQ none)).bounding_box.x
      = { min := Ext.fin (-1), max := Ext.fin 1 } ∧
    (Sphere.toHittable envRotQ (sphereQ none)).bounding_box.y
      = { min := Ext.fin (-1), max := Ext.fin 1 } ∧
    (Sphere.toHittable envRotQ (sphereQ none)).bounding_box.z
      = { min := Ext.fin (-1), max := Ext.fin 1 } ∧
    (rotate_y envRotQ (Sphere.toHittable envRotQ (sphereQ none)) 30).bounding_box.x.contains
      (Ext.fin (envRotQ.cos (degrees_to_radians envRotQ 30) * 1
        + envRotQ.sin (degrees_to_radians envRotQ 30) * 1)) = true :=
  have hb := sphereQ_bbox envRotQ none
  have h := rotate_y.bounding_box_contains envRotQ (Sphere.toHittable envRotQ (sphereQ none)) 30
    (-1) 1 (-1) 1 (-1) 1 hb.1 hb.2.1 hb.2.2
  ⟨hb.1, hb.2.1, hb.2.2,
    (h.1 1 1 1 (by norm_num) (by norm_num) (by norm_num) (by norm_num) (by norm_num)
      (by norm_num)).1⟩

section Field

variable {K G : Type} [LinearOrderedField K]

/-! ## Sampling a quad as a light (claim C31) -/

theorem Dielectric.r0_bounds (ri : K) (hri : 0 < ri) :
    0 ≤ (1 - ri) / (1 + ri) * ((1 - ri) / (1 + ri)) ∧
    (1 - ri) / (1 + ri) * ((1 - ri) / (1 + ri)) ≤ 1 := by
  have hden : 0 < 1 + ri := by linarith
  have h1 : (1 - ri) / (1 + ri) ≤ 1 := (div_le_one hden).2 (by linarith)
  have h2 : -1 ≤ (1 - ri) / (1 + ri) := by
    rw [le_div_iff₀ hden]
    linarith
  constructor
  · exact mul_self_nonneg _
  · nlinarith

/-- C32. For every cosine in `[0, 1]` and every refraction index `ri > 0`,
`Dielectric::reflectance(cosine, ri)` lies in `[0, 1]`; it is `r0 = ((1 - ri)/(1 + ri))^2`
at `cosine = 1` and 1 at `cosine = 0`, and it is non-increasing in the cosine on `[0, 1]`. -/
theorem Dielectric.reflectance_bounds (cosine ri : K) (hc : 0 ≤ cosine ∧ cosine ≤ 1)
    (hri : 0 < ri) :
    0 ≤ Dielectric.reflectance cosine ri ∧ Dielectric.reflectance cosine ri ≤ 1 ∧
    Dielectric.reflectance 1 ri = ((1 - ri) / (1 + ri)) ^ 2 ∧
    Dielectric.reflectance 0 ri = 1 ∧
    (∀ c1 c2 : K, 0 ≤ c1 → c1 ≤ c2 → c2 ≤ 1 →
      Dielectric.reflectance c2 ri ≤ Dielectric.reflectance c1 ri) := by
  obtain ⟨h0, h1⟩ := Dielectric.r0_bounds ri hri
  simp only [Dielectric.reflectance]
  generalize hr0 : (1 - ri) / (1 + ri) * ((1 - ri) / (1 + ri)) = r0 at h0 h1
  have hp0 : 0 ≤ (1 - cosine) ^ 5 := pow_nonneg (by linarith [hc.2]) 5
  have hp1 : (1 - cosine) ^ 5 ≤ 1 := pow_le_one₀ (by linarith [hc.2]) (by linarith [hc.1])
  refine ⟨?_, ?_, ?_, ?_, ?_⟩
  · have := mul_nonneg (sub_nonneg.2 h1) hp0
    linarith
  · have := mul_le_mul_of_nonneg_left hp1 (sub_nonneg.2 h1)
    linarith
  · rw [← hr0]
    ring
  · ring
  · intro c1 c2 hc1 hc12 hc2
    have hpow : (1 - c2) ^ 5 ≤ (1 - c1) ^ 5 :=
      pow_le_pow_left₀ (by linarith) (by linarith) 5
    have := mul_le_mul_of_nonneg_left hpow (sub_nonneg.2 h1)
    linarith

/-! ## `HittableList::clear` (claim C33) -/

theorem Interval.ofIntervals_empty_left (b : Interval (Ext K)) :
    Interval.ofIntervals Interval.empty b = b := by
  rcases b with ⟨lo, hi⟩
  simp only [Interval.ofIntervals, Interval.empty]
  congr 1
  · by_cases h : (Ext.pinf : Ext K) ≤ lo
    · rw [if_pos h, Ext.pinf_le h]
    · rw [if_neg h]
  · by_cases h : (Ext.ninf : Ext K) ≥ hi
    · rw [if_pos h, Ext.le_ninf h]
    · rw [if_neg h]

theorem AABB.ofBoxes_init_left (b : AABB K) : AABB.ofBoxes AABB.init b = b := by
  simp only [AABB.ofBoxes, AABB.init, Interval.ofIntervals_empty_left]

/-- C33. `HittableList::clear()` removes all the members and leaves the stored bounding box
as it was: after `add(o)` on a new list followed by `clear()`, `objects` is empty while
`bounding_box()` still returns the bounding box of `o`, which is not the empty box when
the box of `o` is not empty, so it is not the union of the boxes of the members that are
left. -/
theorem HittableList.clear_keeps_bbox (env : Env K G) (l : HittableList K G)
    (o : Hittable K G) (hne : o.bounding_box ≠ AABB.init) :
    (l.add o).clear.objects = [] ∧
    (l.add o).clear.bbox = (l.add o).bbox ∧
    ((HittableList.init : HittableList K G).add o).clear.objects = [] ∧
    (HittableList.toHittable env
      ((HittableList.init : HittableList K G).add o).clear).bounding_box = o.bounding_box ∧
    (HittableList.toHittable env
      ((HittableList.init : HittableList K G).add o).clear).bounding_box ≠ AABB.init ∧
    (HittableList.toHittable env
      ((HittableList.init : HittableList K G).add o).clear).bounding_box ≠
      (((HittableList.init : HittableList K G).add o).clear.objects.foldl HittableList.add
        HittableList.init).bbox := by
  have hbox : (HittableList.toHittable env
      ((HittableList.init : HittableList K G).add o).clear).bounding_box = o.bounding_box := by
    simp only [HittableList.toHittable, HittableList.clear, HittableList.add,
      HittableList.init, AABB.ofBoxes_init_left]
  refine ⟨rfl, rfl, rfl, hbox, ?_, ?_⟩
  · rw [hbox]
    exact hne
  · rw [hbox]
    exact hne

/-! ## The thread count 0 (claim C34) -/

/-- C34. With the division guarded, `Renderer::render` fails with a division by zero at
`scanlines_per_thread = image_height / num_threads` exactly when the thread count is 0; it
then returns no frame buffer, and the loop that starts the workers has no iteration: no
worker is started and no write is made. For every thread count `>= 1` the division is
defined and the render returns the state left by the workers. -/
theorem Renderer.render_zero_threads
    (sample : Nat → Nat → Nat → Nat → G → Except Fault (Vec3 K) × G) (cam : Camera K G)
    (n : Nat) (g : G) :
    (Renderer.render sample cam n g = Except.error Fault.division_by_zero ↔ n = 0) ∧
    ((∃ e, Renderer.render sample cam n g = Except.error e) ↔ n = 0) ∧
    (Renderer.render sample cam 0 g = Except.error Fault.division_by_zero ∧
      List.range 0 = ([] : List Nat) ∧
      Renderer.run_workers sample cam 0 (List.range 0) (Renderer.init_state cam g)
        = Renderer.init_state cam g ∧
      (Renderer.init_state cam g).writes = []) ∧
    (1 ≤ n →
      Renderer.render sample cam n g = Except.ok
        (Renderer.run_workers sample cam n (List.range n) (Renderer.init_state cam g))) := by
  refine ⟨?_, ?_, ⟨?_, rfl, rfl, rfl⟩, ?_⟩
  · constructor
    · intro h
      by_contra hn
      simp only [Renderer.render, if_neg hn] at h
      exact absurd h (by simp)
    · intro hn
      simp only [Renderer.render, if_pos hn]
  · constructor
    · rintro ⟨e, h⟩
      by_contra hn
      simp only [Renderer.render, if_neg hn] at h
      exact absurd h (by simp)
    · intro hn
      exact ⟨Fault.division_by_zero, by simp only [Renderer.render, if_pos hn]⟩
  · simp only [Renderer.render, if_true]
  · intro hn
    have hn0 : n ≠ 0 := by omega
    simp only [Renderer.render, if_neg hn0]

end Field

/-! ## The claims C31 to C33 at the concrete scene -/

theorem dielectric_reflectance_bounds_witness :
    ((0 : ℚ) ≤ 1 / 2 ∧ (1 / 2 : ℚ) ≤ 1) ∧ (0 : ℚ) < 3 / 2 ∧
    0 ≤ Dielectric.reflectance (1 / 2 : ℚ) (3 / 2) ∧
    Dielectric.reflectance (1 / 2 : ℚ) (3 / 2) ≤ 1 ∧
    Dielectric.reflectance (1 : ℚ) (3 / 2) = ((1 - 3 / 2) / (1 + 3 / 2)) ^ 2 ∧
    Dielectric.reflectance (0 : ℚ) (3 / 2) = 1 :=
  have hc : (0 : ℚ) ≤ 1 / 2 ∧ (1 / 2 : ℚ) ≤ 1 := by norm_num
  have hri : (0 : ℚ) < 3 / 2 := by norm_num
  have h := Dielectric.reflectance_bounds (1 / 2 : ℚ) (3 / 2) hc hri
  ⟨hc, hri, h.1, h.2.1, h.2.2.1, h.2.2.2.1⟩

theorem hittable_list_clear_keeps_bbox_witness :
    (Sphere.toHittable envQ (sphereQ (some greyQ))).bounding_box ≠ AABB.init ∧
    ((HittableList.init : HittableList ℚ Nat).add
      (Sphere.toHittable envQ (sphereQ (some greyQ)))).clear.objects = [] ∧
    (HittableList.toHittable envQ ((HittableList.init : HittableList ℚ Nat).add
      (Sphere.toHittable envQ (sphereQ (some greyQ)))).clear).bounding_box.x
      = { min := Ext.fin (-1), max := Ext.fin 1 } :=
  have hne : (Sphere.toHittable envQ (sphereQ (some greyQ))).bounding_box ≠ AABB.init := by
    intro h
    have hx := congrArg (fun b : AABB ℚ => b.x.min) h
    simp only [(sphereQ_bbox envQ (some greyQ)).1, AABB.init, Interval.empty] at hx
    exact Ext.noConfusion hx
  have h := HittableList.clear_keeps_bbox envQ HittableList.init
    (Sphere.toHittable envQ (sphereQ (some greyQ))) hne
  ⟨hne, h.2.2.1, by rw [h.2.2.2.1]; exact (sphereQ_bbox envQ (some greyQ)).1⟩

end PathTracer
